import Mathlib

/-!
# CA17/edns, plugin `setecs`: a shallow embedding

The development embeds the address classification and ECS rewrite engine of the
`setecs` plugin (`src/plugin/setecs`).  Go strings are byte strings; they are
modelled by `String` and scanned as lists of characters (every byte the parsers
accept is ASCII, so a non-ASCII character is rejected exactly where its first
byte would be).  Go byte slices (`net.IP`, `net.IPMask`) are lists of natural
numbers; the nil slice is the empty list, and `Option` is used where the source
tests a value against `nil`.

The plugin calls three libraries whose sources are not part of the repository:
Go's `net` package, `github.com/c-robinson/iplib` and `github.com/miekg/dns`.
The functions the plugin calls are modelled after the library sources, in the
namespaces `net`, `iplib` and `dns`: the address parsers of `net/ip.go`
(`parseIPv4`, `parseIPv6`, `ParseIP`, `ParseCIDR`, with the rejection of leading
zeros in dotted quads), the `Net4` and `Net6` networks of `iplib` built by
`ParseCIDR`, and the OPT record and its options of `dns`.  A Go panic (a failed
type assertion) is the error of an `Except` result.
-/

set_option maxRecDepth 100000
set_option maxHeartbeats 2000000

/-! ## Package `net` -/

namespace net

/-- Go `net.IP`: a byte slice of length 4 or 16 (nil is the empty list). -/
abbrev IP := List Nat

/-- Go `net.IPMask`. -/
abbrev IPMask := List Nat

/-- Go `net.IPv4len`. -/
def IPv4len : Nat := 4

/-- Go `net.IPv6len`. -/
def IPv6len : Nat := 16

/-- Go `net.v4InV6Prefix`. -/
def v4InV6Prefix : List Nat := [0, 0, 0, 0, 0, 0, 0, 0, 0, 0, 0xff, 0xff]

/-- Go `net.IPv4(a, b, c, d)`: the 16-byte form of an IPv4 address. -/
def IPv4 (a b c d : Nat) : IP := v4InV6Prefix ++ [a, b, c, d]

/-- Go `net.isZeros`. -/
def isZeros (p : List Nat) : Bool := p.all (fun b => b == 0)

/-- Go `net.allFF`. -/
def allFF (p : List Nat) : Bool := p.all (fun b => b == 0xff)

/-- Go `IP.To4`: the 4-byte form of an IPv4 address, `none` for nil. -/
def To4 (ip : IP) : Option IP :=
  if ip.length = IPv4len then some ip
  else if ip.length = IPv6len && isZeros (ip.take 10) && ip.getD 10 0 == 0xff
      && ip.getD 11 0 == 0xff then some (ip.drop 12)
  else none

/-- Go `IP.To16`: the 16-byte form of an address, `none` for nil. -/
def To16 (ip : IP) : Option IP :=
  if ip.length = IPv4len then some (IPv4 (ip.getD 0 0) (ip.getD 1 0) (ip.getD 2 0) (ip.getD 3 0))
  else if ip.length = IPv6len then some ip
  else none

/-- Go `IP.Equal`: same address, an IPv4 address and its 16-byte form being equal. -/
def Equal (ip x : IP) : Bool :=
  if ip.length = x.length then ip == x
  else if ip.length = IPv4len && x.length = IPv6len then
    x.take 12 == v4InV6Prefix && ip == x.drop 12
  else if ip.length = IPv6len && x.length = IPv4len then
    ip.take 12 == v4InV6Prefix && ip.drop 12 == x
  else false

/-- Go `net.big`, the overflow guard of `dtoi` and `xtoi`. -/
def big : Nat := 0xFFFFFF

/-- Loop of Go `net.dtoi`: value so far, characters consumed, success. -/
def dtoiLoop : List Char → Nat → Nat → Nat × Nat × Bool
  | [], n, i => (n, i, true)
  | c :: cs, n, i =>
    if 48 ≤ c.toNat ∧ c.toNat ≤ 57 then
      if n * 10 + (c.toNat - 48) ≥ big then (big, i, false)
      else dtoiLoop cs (n * 10 + (c.toNat - 48)) (i + 1)
    else (n, i, true)

/-- Go `net.dtoi`: decimal to integer; number, characters consumed, success. -/
def dtoi (s : List Char) : Nat × Nat × Bool :=
  match dtoiLoop s 0 0 with
  | (n, i, ok) => if !ok then (n, i, false) else if i = 0 then (0, 0, false) else (n, i, true)

/-- Value of a hexadecimal digit, `none` for any other character. -/
def hexVal (c : Char) : Option Nat :=
  if 48 ≤ c.toNat ∧ c.toNat ≤ 57 then some (c.toNat - 48)
  else if 97 ≤ c.toNat ∧ c.toNat ≤ 102 then some (c.toNat - 97 + 10)
  else if 65 ≤ c.toNat ∧ c.toNat ≤ 70 then some (c.toNat - 65 + 10)
  else none

/-- Loop of Go `net.xtoi`. -/
def xtoiLoop : List Char → Nat → Nat → Nat × Nat × Bool
  | [], n, i => (n, i, true)
  | c :: cs, n, i =>
    match hexVal c with
    | some d =>
      if n * 16 + d ≥ big then (0, i, false)
      else xtoiLoop cs (n * 16 + d) (i + 1)
    | none => (n, i, true)

/-- Go `net.xtoi`: hexadecimal to integer; number, characters consumed, success. -/
def xtoi (s : List Char) : Nat × Nat × Bool :=
  match xtoiLoop s 0 0 with
  | (n, i, ok) => if !ok then (n, i, false) else if i = 0 then (0, 0, false) else (n, i, true)

/-- Loop of Go `net.parseIPv4` over the octets still to read (`first` is `i == 0`). -/
def parseIPv4Loop : Nat → Bool → List Char → List Nat → Option (List Nat)
  | 0, _, s, p => if s.isEmpty then some p else none
  | k + 1, first, s, p =>
    if s.isEmpty then none
    else
      match (if first then some s else
              match s with
              | '.' :: t => some t
              | _ => none) with
      | none => none
      | some s1 =>
        match dtoi s1 with
        | (n, c, ok) =>
          if !ok || n > 0xFF then none
          else if c > 1 && s1.head? == some '0' then none
          else parseIPv4Loop k false (s1.drop c) (p ++ [n])

/-- Go `net.parseIPv4`: a dotted quad `d.d.d.d`, returned in 16-byte form. -/
def parseIPv4 (s : List Char) : Option IP :=
  match parseIPv4Loop 4 true s [] with
  | some p => some (v4InV6Prefix ++ p)
  | none => none

/-- State of the loop of `parseIPv6`: bytes written so far (`i` is their number),
position of the ellipsis, rest of the input. -/
structure V6State where
  bytes : List Nat
  ellipsis : Option Nat
  rest : List Char

/-- Loop `for i < IPv6len` of Go `net.parseIPv6`.  Every turn that does not leave
the loop writes two bytes, so the loop takes at most eight turns: the first
argument counts the turns left, and zero is `i == IPv6len`. -/
def parseIPv6Loop : Nat → V6State → Option V6State
  | 0, st => some st
  | k + 1, st =>
    match xtoi st.rest with
    | (n, c, ok) =>
      if !ok || n > 0xFFFF then none
      else if c < st.rest.length && st.rest.getD c ' ' == '.' then
        if st.ellipsis.isNone && st.bytes.length ≠ IPv6len - IPv4len then none
        else if st.bytes.length + IPv4len > IPv6len then none
        else
          match parseIPv4 st.rest with
          | none => none
          | some ip4 => some { bytes := st.bytes ++ ip4.drop 12, ellipsis := st.ellipsis, rest := [] }
      else
        let bytes := st.bytes ++ [n / 256 % 256, n % 256]
        match st.rest.drop c with
        | [] => some { bytes := bytes, ellipsis := st.ellipsis, rest := [] }
        | [_] => none
        | c0 :: c1 :: t =>
          if c0 ≠ ':' then none
          else if c1 = ':' then
            if st.ellipsis.isSome then none
            else if t.isEmpty then some { bytes := bytes, ellipsis := some bytes.length, rest := [] }
            else parseIPv6Loop k { bytes := bytes, ellipsis := some bytes.length, rest := t }
          else parseIPv6Loop k { bytes := bytes, ellipsis := st.ellipsis, rest := c1 :: t }

/-- Tail of Go `net.parseIPv6`, after the loop: the whole string must be used, and
a short address is completed at the ellipsis. -/
def parseIPv6Finish (st : V6State) : Option IP :=
  if !st.rest.isEmpty then none
  else if st.bytes.length < IPv6len then
    match st.ellipsis with
    | none => none
    | some e =>
      some (st.bytes.take e ++ List.replicate (IPv6len - st.bytes.length) 0 ++ st.bytes.drop e)
  else if st.ellipsis.isSome then none
  else some st.bytes

/-- Go `net.parseIPv6`: a literal IPv6 address (RFC 4291, RFC 5952). -/
def parseIPv6 (s : List Char) : Option IP :=
  match s with
  | [':', ':'] => some (List.replicate IPv6len 0)
  | ':' :: ':' :: t =>
    match parseIPv6Loop 8 { bytes := [], ellipsis := some 0, rest := t } with
    | none => none
    | some st => parseIPv6Finish st
  | _ =>
    match parseIPv6Loop 8 { bytes := [], ellipsis := none, rest := s } with
    | none => none
    | some st => parseIPv6Finish st

/-- Dispatch of Go `net.ParseIP` on the first `.` or `:` of the string. -/
def ParseIPScan (s : List Char) : List Char → Option IP
  | [] => none
  | c :: cs =>
    if c = '.' then parseIPv4 s
    else if c = ':' then parseIPv6 s
    else ParseIPScan s cs

/-- Go `net.ParseIP`: `none` is the nil result of an invalid address. -/
def ParseIP (s : String) : Option IP := ParseIPScan s.toList s.toList

/-- Loop of Go `net.CIDRMask` over the `l` bytes still to write, `n` one bits left. -/
def CIDRMaskLoop : Nat → Nat → List Nat
  | 0, _ => []
  | l + 1, n =>
    if n ≥ 8 then 0xff :: CIDRMaskLoop l (n - 8)
    else (0xff - 0xff >>> n) :: CIDRMaskLoop l 0

/-- Go `net.CIDRMask(ones, bits)`; the nil mask is the empty list. -/
def CIDRMask (ones bits : Nat) : IPMask :=
  if bits ≠ 8 * IPv4len ∧ bits ≠ 8 * IPv6len then []
  else if ones > bits then []
  else CIDRMaskLoop (bits / 8) ones

/-- Inner loop `for v&0x80 != 0` of Go `net.simpleMaskLength` on one byte: the
byte shifted left past its leading one bits, and their number.  A byte is
exhausted after eight shifts. -/
def leadingOnes : Nat → Nat → Nat → Nat × Nat
  | 0, v, n => (v, n)
  | f + 1, v, n =>
    if v &&& 0x80 ≠ 0 then leadingOnes f (v <<< 1 % 256) (n + 1) else (v, n)

/-- Go `net.simpleMaskLength`; `none` is the result -1 of a non-canonical mask. -/
def simpleMaskLength : IPMask → Option Nat
  | [] => some 0
  | v :: rest =>
    if v = 0xff then
      match simpleMaskLength rest with
      | some n => some (n + 8)
      | none => none
    else
      match leadingOnes 8 v 0 with
      | (v1, n) => if v1 ≠ 0 then none else if rest.all (fun b => b == 0) then some n else none

/-- Go `IPMask.Size`: number of leading ones and total number of bits. -/
def Size (m : IPMask) : Nat × Nat :=
  match simpleMaskLength m with
  | some ones => (ones, m.length * 8)
  | none => (0, 0)

/-- Go `IP.Mask`: the address masked byte by byte, nil on a length mismatch. -/
def Mask (ip : IP) (mask : IPMask) : IP :=
  let mask1 := if mask.length = IPv6len && ip.length = IPv4len && allFF (mask.take 12)
    then mask.drop 12 else mask
  let ip1 := if mask1.length = IPv4len && ip.length = IPv6len && ip.take 12 == v4InV6Prefix
    then ip.drop 12 else ip
  if ip1.length ≠ mask1.length then []
  else List.zipWith (fun a b => a &&& b) ip1 mask1

/-- Go `net.IPNet`. -/
structure IPNet where
  IP : net.IP
  Mask : net.IPMask
deriving DecidableEq, Repr

/-- Go `net.networkNumberAndMask`; the pair of nil slices is `([], [])`. -/
def networkNumberAndMask (n : IPNet) : IP × IPMask :=
  match (match To4 n.IP with
         | some ip => some ip
         | none => if n.IP.length ≠ IPv6len then none else some n.IP) with
  | none => ([], [])
  | some ip =>
    if n.Mask.length = IPv4len then
      if ip.length ≠ IPv4len then ([], []) else (ip, n.Mask)
    else if n.Mask.length = IPv6len then
      if ip.length = IPv4len then (ip, n.Mask.drop 12) else (ip, n.Mask)
    else ([], [])

/-- Loop of Go `IPNet.Contains` over network number, mask and address. -/
def containsLoop : IP → IPMask → IP → Bool
  | n :: nn, m :: ms, x :: ip => if n &&& m ≠ x &&& m then false else containsLoop nn ms ip
  | _, _, _ => true

/-- Go `IPNet.Contains`. -/
def IPNet.Contains (n : IPNet) (ip : net.IP) : Bool :=
  match networkNumberAndMask n with
  | (nn, m) =>
    let ip1 := match To4 ip with
      | some x => x
      | none => ip
    if ip1.length ≠ nn.length then false else containsLoop nn m ip1

/-- Position of the first `/` (Go `bytealg.IndexByteString`), split of the string there. -/
def splitSlash : List Char → Option (List Char × List Char)
  | [] => none
  | c :: cs =>
    if c = '/' then some ([], cs)
    else
      match splitSlash cs with
      | some (a, m) => some (c :: a, m)
      | none => none

/-- Go `net.ParseCIDR`: the address and the network of `addr/len`, `none` on error. -/
def ParseCIDR (s : String) : Option (IP × IPNet) :=
  match splitSlash s.toList with
  | none => none
  | some (addr, mask) =>
    match (match parseIPv4 addr with
           | some ip => some (IPv4len, ip)
           | none =>
             match parseIPv6 addr with
             | some ip => some (IPv6len, ip)
             | none => none) with
    | none => none
    | some (iplen, ip) =>
      match dtoi mask with
      | (n, i, ok) =>
        if !ok || i ≠ mask.length || n > 8 * iplen then none
        else some (ip, { IP := Mask ip (CIDRMask n (8 * iplen)), Mask := CIDRMask n (8 * iplen) })

end net

/-! ## Package `iplib` -/

namespace iplib

/-- Type `iplib.Net4`: an IPv4 netblock; the empty value has nil address and mask. -/
structure Net4 where
  IPNet : net.IPNet
deriving DecidableEq, Repr

/-- Type `iplib.Net6`: an IPv6 netblock.  Its host mask is left out: the plugin
builds networks through `ParseCIDR` only, which sets it to zero. -/
structure Net6 where
  IPNet : net.IPNet
deriving DecidableEq, Repr

/-- Interface `iplib.Net`, implemented by `Net4` and `Net6`. -/
inductive Net where
  | v4 (n : Net4)
  | v6 (n : Net6)
deriving DecidableEq, Repr

/-- Method `Net.IP()`. -/
def Net.IP : Net → net.IP
  | .v4 n => n.IPNet.IP
  | .v6 n => n.IPNet.IP

/-- Method `Net.Mask()`. -/
def Net.Mask : Net → net.IPMask
  | .v4 n => n.IPNet.Mask
  | .v6 n => n.IPNet.Mask

/-- Method `Net.Version()`. -/
def Net.Version : Net → Nat
  | .v4 _ => 4
  | .v6 _ => 6

/-- Method `Net.Contains(ip)`: both implementations defer to `net.IPNet.Contains`. -/
def Net.Contains : Net → net.IP → Bool
  | .v4 n, ip => n.IPNet.Contains ip
  | .v6 n, ip => n.IPNet.Contains ip

/-- Method `Net.ContainsNet(network)`: the mask of the receiver is not longer and
the receiver contains the network address of the argument. -/
def Net.ContainsNet (n network : Net) : Bool :=
  decide ((net.Size n.Mask).1 ≤ (net.Size network.Mask).1) && n.Contains network.IP

/-- Function `iplib.Version`: 4 for a 4-byte address, 6 for a 16-byte one, the
IPv4-mapped range included, 0 for nil. -/
def Version (ip : net.IP) : Nat :=
  if ip.length = 0 then 0
  else if ip.length = net.IPv4len then 4
  else 6

/-- Function `iplib.NewNet4`: the empty network when the mask is longer than 32. -/
def NewNet4 (ip : net.IP) (masklen : Nat) : Net4 :=
  if masklen > 32 then { IPNet := { IP := [], Mask := [] } }
  else { IPNet := { IP := net.Mask ip (net.CIDRMask masklen 32), Mask := net.CIDRMask masklen 32 } }

/-- Function `iplib.NewNet6`: the empty network for an address that is not IPv6
or masks that do not fit in 128 bits. -/
def NewNet6 (ip : net.IP) (netmasklen hostmasklen : Nat) : Net6 :=
  if Version ip ≠ 6 then { IPNet := { IP := [], Mask := [] } }
  else if (netmasklen = 127 ∨ netmasklen = 128) ∧ hostmasklen = 0 then
    { IPNet := { IP := net.Mask ip (net.CIDRMask netmasklen 128),
                 Mask := net.CIDRMask netmasklen 128 } }
  else if netmasklen + hostmasklen ≥ 128 then { IPNet := { IP := [], Mask := [] } }
  else { IPNet := { IP := net.Mask ip (net.CIDRMask netmasklen 128),
                    Mask := net.CIDRMask netmasklen 128 } }

/-- Function `iplib.ParseCIDR`: `net.ParseCIDR`, then `NewNet4` when the string
contains a dot (`strings.Contains(s, ".")`) and `NewNet6` otherwise, with the
prefix length read back from the mask. -/
def ParseCIDR (s : String) : Option Net :=
  match net.ParseCIDR s with
  | none => none
  | some (ip, ipnet) =>
    if s.toList.contains '.' then some (.v4 (NewNet4 ip (net.Size ipnet.Mask).1))
    else some (.v6 (NewNet6 ip (net.Size ipnet.Mask).1 0))

/-- Function `iplib.Net4FromStr`: the empty `Net4` when the string does not parse
as an IPv4 network. -/
def Net4FromStr (s : String) : Net4 :=
  match ParseCIDR s with
  | some (.v4 n) => n
  | _ => { IPNet := { IP := [], Mask := [] } }

/-- Function `iplib.Net6FromStr`: the empty `Net6` when the string does not parse
as an IPv6 network. -/
def Net6FromStr (s : String) : Net6 :=
  match ParseCIDR s with
  | some (.v6 n) => n
  | _ => { IPNet := { IP := [], Mask := [] } }

end iplib

/-! ## Package `setecs`: parsing of ranges (`utils.go`) -/

/-- Go `strings.Contains(d, "/")`. -/
def containsSlash (d : String) : Bool := d.toList.contains '/'

/-- Source `parseIpNet` (`utils.go`): `none` is the error result. -/
def parseIpNet (d : String) : Option iplib.Net :=
  let d1 := if !containsSlash d then d ++ "/32" else d
  let _net := iplib.Net4FromStr d1
  if _net.IPNet.IP = [] then
    let _net6 := iplib.Net6FromStr d1
    if _net6.IPNet.IP = [] then none
    else some (.v6 _net6)
  else some (.v4 _net)

/-- Source `ParseIpNet` (`utils.go`), a second copy of `parseIpNet`. -/
def ParseIpNet (d : String) : Option iplib.Net :=
  let d1 := if !containsSlash d then d ++ "/32" else d
  let _net := iplib.Net4FromStr d1
  if _net.IPNet.IP = [] then
    let _net6 := iplib.Net6FromStr d1
    if _net6.IPNet.IP = [] then none
    else some (.v6 _net6)
  else some (.v4 _net)

/-! ## Package `dns` (`github.com/miekg/dns`) -/

namespace dns

/-- Constant `dns.TypeOPT`. -/
def TypeOPT : Nat := 41

/-- Constant `dns.EDNS0SUBNET`, the option code of the client subnet option. -/
def EDNS0SUBNET : Nat := 8

/-- Constant `dns.MinMsgSize`, the default maximum UDP payload. -/
def MinMsgSize : Nat := 512

/-- Type `dns.RR_Header`. -/
structure RR_Header where
  Name : String
  Rrtype : Nat
  Class : Nat
  Ttl : Nat
  Rdlength : Nat
deriving DecidableEq, Repr

/-- Type `dns.EDNS0_SUBNET`. -/
structure EDNS0_SUBNET where
  Code : Nat
  Family : Nat
  SourceNetmask : Nat
  SourceScope : Nat
  Address : net.IP
deriving DecidableEq, Repr

/-- Interface `dns.EDNS0`: the client subnet option, or an option of another Go
type (its code, as returned by its method `Option()`, and its data). -/
inductive EDNS0 where
  | SUBNET (e : EDNS0_SUBNET)
  | other (code : Nat) (data : List Nat)
deriving DecidableEq, Repr

/-- Method `EDNS0.Option()`: `EDNS0_SUBNET` answers the constant `EDNS0SUBNET`. -/
def EDNS0.Option : EDNS0 → Nat
  | .SUBNET _ => EDNS0SUBNET
  | .other code _ => code

/-- Type `dns.OPT`, the EDNS0 pseudo-record. -/
structure OPT where
  Hdr : RR_Header
  Option : List EDNS0
deriving DecidableEq, Repr

/-- Interface `dns.RR`: an `*OPT`, or a record of another Go type. -/
inductive RR where
  | OPT (o : dns.OPT)
  | other (hdr : RR_Header) (rdata : List Nat)
deriving DecidableEq, Repr

/-- Method `RR.Header()`. -/
def RR.Header : RR → RR_Header
  | .OPT o => o.Hdr
  | .other hdr _ => hdr

/-- Type `dns.Question`. -/
structure Question where
  Name : String
  Qtype : Nat
  Qclass : Nat
deriving DecidableEq, Repr

/-- Type `dns.Msg`: identifier, question and the three record sections. -/
structure Msg where
  Id : Nat
  Question : List dns.Question
  Answer : List RR
  Ns : List RR
  Extra : List RR
deriving DecidableEq, Repr

/-- Loop of `Msg.IsEdns0` over the additional section, last record first: the
position in `Extra` of the last record whose header type is `TypeOPT`, with the
record.  The type assertion `.(*OPT)` panics on a record of another Go type. -/
def IsEdns0Loop : List RR → Except String (Option (Nat × OPT))
  | [] => .ok none
  | rr :: before =>
    if rr.Header.Rrtype = TypeOPT then
      match rr with
      | .OPT o => .ok (some (before.length, o))
      | .other _ _ => .error "interface conversion: dns.RR is not *dns.OPT"
    else IsEdns0Loop before

/-- Method `Msg.IsEdns0`: the OPT record found, as a position in `Extra`, or nil. -/
def IsEdns0 (m : Msg) : Except String (Option (Nat × OPT)) :=
  IsEdns0Loop m.Extra.reverse

/-- Method `OPT.SetUDPSize`. -/
def OPT.SetUDPSize (rr : OPT) (size : Nat) : OPT :=
  { rr with Hdr := { rr.Hdr with Class := size } }

/-- The value `new(dns.OPT)`. -/
def newOPT : OPT :=
  { Hdr := { Name := "", Rrtype := 0, Class := 0, Ttl := 0, Rdlength := 0 }, Option := [] }

end dns

deriving instance DecidableEq for Except

/-! ## Package `setecs`: the ECS option of a message (`utils.go`) -/

/-- Source `newEDNS0Subnet` (`utils.go`). -/
def newEDNS0Subnet (ip : net.IP) (mask : Nat) (v6 : Bool) : dns.EDNS0_SUBNET :=
  { Family := if !v6 then 1 else 2
    SourceNetmask := mask
    Code := dns.EDNS0SUBNET
    Address := ip
    SourceScope := 0 }

/-- Loop `for o := range opt.Option` of `setECS`: the option list with the first
ECS option overwritten, `none` when the loop ends without finding one. -/
def setECSLoop (ecs : dns.EDNS0_SUBNET) : List dns.EDNS0 → Option (List dns.EDNS0)
  | [] => none
  | o :: os =>
    if o.Option = dns.EDNS0SUBNET then some (.SUBNET ecs :: os)
    else
      match setECSLoop ecs os with
      | some os1 => some (o :: os1)
      | none => none

/-- Source `setECS` (`utils.go`).  The OPT record is a pointer held in `m.Extra`:
its update is the update of that position of `Extra`. -/
def setECS (m : dns.Msg) (ecs : dns.EDNS0_SUBNET) : Except String dns.Msg :=
  match dns.IsEdns0 m with
  | .error e => .error e
  | .ok none =>
    let o := dns.newOPT.SetUDPSize dns.MinMsgSize
    let o := { o with Hdr := { o.Hdr with Name := "." } }
    let o := { o with Hdr := { o.Hdr with Rrtype := dns.TypeOPT } }
    let o := { o with Option := [.SUBNET ecs] }
    .ok { m with Extra := m.Extra ++ [.OPT o] }
  | .ok (some (i, opt)) =>
    match setECSLoop ecs opt.Option with
    | some opts => .ok { m with Extra := m.Extra.set i (.OPT { opt with Option := opts }) }
    | none =>
      .ok { m with Extra := m.Extra.set i (.OPT { opt with Option := opt.Option ++ [.SUBNET ecs] }) }

/-- Loop of `getMsgECS`: the first option whose code is `EDNS0SUBNET`; the type
assertion `.(*dns.EDNS0_SUBNET)` panics on an option of another Go type. -/
def getMsgECSLoop : List dns.EDNS0 → Except String (Option dns.EDNS0_SUBNET)
  | [] => .ok none
  | o :: os =>
    if o.Option = dns.EDNS0SUBNET then
      match o with
      | .SUBNET e => .ok (some e)
      | .other _ _ => .error "interface conversion: dns.EDNS0 is not *dns.EDNS0_SUBNET"
    else getMsgECSLoop os

/-- Source `getMsgECS` (`utils.go`). -/
def getMsgECS (m : dns.Msg) : Except String (Option dns.EDNS0_SUBNET) :=
  match dns.IsEdns0 m with
  | .error e => .error e
  | .ok none => .ok none
  | .ok (some (_, opt)) => getMsgECSLoop opt.Option

/-- Loop of `removeECS`: the first option whose code is `EDNS0SUBNET` is cut out of
the list and returned (the type assertion panics on an option of another Go
type); `none` when the loop ends without finding one. -/
def removeECSLoop : List dns.EDNS0 →
    Except String (Option (dns.EDNS0_SUBNET × List dns.EDNS0))
  | [] => .ok none
  | o :: os =>
    if o.Option = dns.EDNS0SUBNET then
      match o with
      | .SUBNET e => .ok (some (e, os))
      | .other _ _ => .error "interface conversion: dns.EDNS0 is not *dns.EDNS0_SUBNET"
    else
      match removeECSLoop os with
      | .error e => .error e
      | .ok none => .ok none
      | .ok (some (e, os1)) => .ok (some (e, o :: os1))

/-- Source `removeECS` (`utils.go`): the message after the call and the option
removed (`none` is nil). -/
def removeECS (m : dns.Msg) : Except String (dns.Msg × Option dns.EDNS0_SUBNET) :=
  match dns.IsEdns0 m with
  | .error e => .error e
  | .ok none => .ok (m, none)
  | .ok (some (i, opt)) =>
    match removeECSLoop opt.Option with
    | .error e => .error e
    | .ok none => .ok (m, none)
    | .ok (some (e, opts)) =>
      .ok ({ m with Extra := m.Extra.set i (.OPT { opt with Option := opts }) }, some e)

/-! ## Package `setecs`: bindings, tables and the resolver -/

/-- Constant `ItemTypePath`. -/
def ItemTypePath : Nat := 0

/-- Constant `ItemTypeUrl`. -/
def ItemTypeUrl : Nat := 1

/-- Constant `ItemTypeInline`. -/
def ItemTypeInline : Nat := 2

/-- Type `ecsBinding` (`ecsbinding.go`).  Its own lock is left out: every method
that takes it releases it on return. -/
structure ecsBinding where
  whichType : Nat
  path : String
  mtime : Nat
  size : Nat
  url : String
  contentHash : Nat
  ecsip : net.IP
  clients : List iplib.Net
  inline : List iplib.Net
deriving DecidableEq, Repr

/-- Type `ecsTable` (`ecstable.go`); the map `dict` is an association list read
by its first entry for a key. -/
structure ecsTable where
  whichType : Nat
  path : String
  mtime : Nat
  size : Nat
  url : String
  contentHash : Nat
  dict : List (String × net.IP)
deriving DecidableEq, Repr

/-- Source `newEcsBinding`. -/
def newEcsBinding (wtype : Nat) (ecsip : net.IP) (path url : String) : ecsBinding :=
  { whichType := wtype, path := path, mtime := 0, size := 0, url := url, contentHash := 0,
    ecsip := ecsip, clients := [], inline := [] }

/-- Source `newEcsTable`. -/
def newEcsTable (wtype : Nat) (path url : String) : ecsTable :=
  { whichType := wtype, path := path, mtime := 0, size := 0, url := url, contentHash := 0,
    dict := [] }

/-- Loop of `ecsBinding.existIpNet` and `ecsBinding.parentIpNet` over `clients`. -/
def existIpNetLoop (inet : iplib.Net) : List iplib.Net → Bool
  | [] => false
  | ipnet :: rest => if ipnet.ContainsNet inet then true else existIpNetLoop inet rest

/-- Source `ecsBinding.existIpNet`. -/
def ecsBinding.existIpNet (eb : ecsBinding) (inet : iplib.Net) : Bool :=
  existIpNetLoop inet eb.clients

/-- Loop of `ecsBinding.existIp` over `clients`. -/
def existIpLoop (ip : net.IP) : List iplib.Net → Bool
  | [] => false
  | ipnet :: rest => if ipnet.Contains ip then true else existIpLoop ip rest

/-- Source `ecsBinding.existIp`. -/
def ecsBinding.existIp (eb : ecsBinding) (ip : net.IP) : Bool :=
  existIpLoop ip eb.clients

/-- Source `ecsBinding.addInline`: the binding after the call and the result. -/
def ecsBinding.addInline (eb : ecsBinding) (client : iplib.Net) : ecsBinding × Bool :=
  if eb.existIpNet client then (eb, false)
  else ({ eb with inline := eb.inline ++ [client] }, true)

/-- Type `SetEcs` (`setecs.go`).  The two registry locks are counted: the fields
are the numbers of read locks held on `ecsTablesLock` and `ecsBindingsLock`. -/
structure SetEcs where
  ecsTablesLock : Nat
  ecsBindingsLock : Nat
  debug : Bool
  reload : Nat
  ecsBindings : List ecsBinding
  ecsTables : List ecsTable
deriving DecidableEq, Repr

/-- Source `NewSetEcs`. -/
def NewSetEcs : SetEcs :=
  { ecsTablesLock := 0, ecsBindingsLock := 0, debug := false, reload := 0,
    ecsBindings := [], ecsTables := [] }

/-- Loop of `SetEcs.MatchEcsTable` over the tables: the value returned from inside
the loop, `none` when the loop ends. -/
def MatchEcsTableLoop (ipstr : String) : List ecsTable → Option net.IP
  | [] => none
  | table :: rest =>
    match table.dict.lookup ipstr with
    | some ecsip => some ecsip
    | none => MatchEcsTableLoop ipstr rest

/-- Source `SetEcs.MatchEcsTable`: the result (`none` is nil) and the resolver
after the call.  The return inside the loop does not release the read lock. -/
def SetEcs.MatchEcsTable (se : SetEcs) (ipstr : String) : Option net.IP × SetEcs :=
  let se1 := { se with ecsTablesLock := se.ecsTablesLock + 1 }
  match MatchEcsTableLoop ipstr se1.ecsTables with
  | some ecsip => (some ecsip, se1)
  | none => (none, { se1 with ecsTablesLock := se1.ecsTablesLock - 1 })

/-- Loop of `SetEcs.MatchEcsBinding` over the bindings. -/
def MatchEcsBindingLoop (ip : net.IP) : List ecsBinding → Option net.IP
  | [] => none
  | bind :: rest => if bind.existIp ip then some bind.ecsip else MatchEcsBindingLoop ip rest

/-- Source `SetEcs.MatchEcsBinding`: the result and the resolver after the call. -/
def SetEcs.MatchEcsBinding (se : SetEcs) (ip : net.IP) : Option net.IP × SetEcs :=
  let se1 := { se with ecsBindingsLock := se.ecsBindingsLock + 1 }
  match MatchEcsBindingLoop ip se1.ecsBindings with
  | some ecsip => (some ecsip, se1)
  | none => (none, { se1 with ecsBindingsLock := se1.ecsBindingsLock - 1 })

/-- Source `SetEcs.addEcsTable`. -/
def SetEcs.addEcsTable (se : SetEcs) (t : ecsTable) : SetEcs :=
  { se with ecsTables := se.ecsTables ++ [t] }

/-- Source `SetEcs.addEcsBinding`. -/
def SetEcs.addEcsBinding (se : SetEcs) (b : ecsBinding) : SetEcs :=
  { se with ecsBindings := se.ecsBindings ++ [b] }

/-- Lines 83 to 86 of `SetEcs.ServeDNS`: the table lookup on the client address
string, then, only after a table hit, the binding lookup on the parsed address. -/
def SetEcs.resolve (se : SetEcs) (stateIP : String) (clientIp : net.IP) :
    Option net.IP × SetEcs :=
  match se.MatchEcsTable stateIP with
  | (some _, se1) => se1.MatchEcsBinding clientIp
  | (none, se1) => (none, se1)

/-- Lines 88 to 96 of `SetEcs.ServeDNS`: the option synthesized for the resolved
address, `none` when there is no address (or its length is neither 4 nor 16). -/
def synthesize (ecsip : Option net.IP) : Option dns.EDNS0_SUBNET :=
  match ecsip with
  | none => none
  | some a =>
    match net.To4 a with
    | some ip4 => some (newEDNS0Subnet ip4 24 false)
    | none =>
      match net.To16 a with
      | some ip6 => some (newEDNS0Subnet ip6 48 true)
      | none => none

/-- Modelled from the spec: the response wrapper built by `NewResponseReverter`,
whose source file is not part of the repository sources at hand.  It carries the
flag `removeEcs` (strip the ECS option from the response before it is written),
false for a new wrapper. -/
structure ResponseReverter where
  removeEcs : Bool
deriving DecidableEq, Repr

/-- Modelled from the spec: `NewResponseReverter(w)`, a wrapper with its flag unset. -/
def NewResponseReverter : ResponseReverter := { removeEcs := false }

/-- What `ServeDNS` hands to the next handler: the resolver after the call, the
query, and the response wrapper (`none` when the original writer is passed). -/
structure Served where
  se : SetEcs
  r : dns.Msg
  wr : Option ResponseReverter
deriving DecidableEq, Repr

/-- Source `SetEcs.ServeDNS`, up to the call of the next handler; `stateIP` is
`state.IP()`, the client address of the request. -/
def SetEcs.ServeDNS (se : SetEcs) (stateIP : String) (r : dns.Msg) : Except String Served :=
  match net.ParseIP stateIP with
  | none => .ok { se := se, r := r, wr := none }
  | some clientIp =>
    match getMsgECS r with
    | .error e => .error e
    | .ok q =>
      let qHasECS := q.isSome
      let wr := NewResponseReverter
      match se.resolve stateIP clientIp with
      | (ecsip, se1) =>
        match synthesize ecsip with
        | some ecs =>
          match setECS r ecs with
          | .error e => .error e
          | .ok r1 => .ok { se := se1, r := r1, wr := some { wr with removeEcs := qHasECS } }
        | none => .ok { se := se1, r := r, wr := some wr }

/-! ## Package `setecs`: validation by regular expressions (`validutil.go`)

Go's `regexp` package is modelled by regular expressions over character ranges,
matched with derivatives. -/

/-- Regular expressions: the subset of the RE2 syntax that `validutil.go` uses. -/
inductive Re where
  | empty
  | eps
  | cls (ranges : List (Nat × Nat))
  | seq (a b : Re)
  | alt (a b : Re)
  | star (a : Re)
deriving Repr

namespace Re

/-- A character belongs to a class when its code lies in one of the ranges. -/
def inClass (ranges : List (Nat × Nat)) (c : Char) : Bool :=
  ranges.any (fun r => decide (r.1 ≤ c.toNat) && decide (c.toNat ≤ r.2))

/-- The expression matches the empty string. -/
def nullable : Re → Bool
  | empty => false
  | eps => true
  | cls _ => false
  | seq a b => nullable a && nullable b
  | alt a b => nullable a || nullable b
  | star _ => true

/-- Concatenation, simplified when a side is `empty` or `eps`. -/
def mkSeq : Re → Re → Re
  | empty, _ => empty
  | eps, b => b
  | a, b => seq a b

/-- Alternation, simplified when a side is `empty`. -/
def mkAlt : Re → Re → Re
  | empty, b => b
  | a, empty => a
  | a, b => alt a b

/-- Derivative of an expression by a character. -/
def deriv (c : Char) : Re → Re
  | empty => empty
  | eps => empty
  | cls ranges => if inClass ranges c then eps else empty
  | seq a b => if nullable a then mkAlt (mkSeq (deriv c a) b) (deriv c b) else mkSeq (deriv c a) b
  | alt a b => mkAlt (deriv c a) (deriv c b)
  | star a => mkSeq (deriv c a) (star a)

/-- The whole string matches the expression (`^r$`). -/
def fullMatch : Re → List Char → Bool
  | r, [] => nullable r
  | r, c :: cs => fullMatch (deriv c r) cs

/-- Some prefix of the string matches the expression (`^r`, found by a search). -/
def prefixMatch : Re → List Char → Bool
  | r, [] => nullable r
  | r, c :: cs => nullable r || prefixMatch (deriv c r) cs

/-- Some suffix of the string matches the expression (`r$`, found by a search). -/
def suffixMatch (r : Re) : List Char → Bool
  | [] => nullable r
  | c :: cs => fullMatch r (c :: cs) || suffixMatch r cs

/-- A single character. -/
def chr (c : Char) : Re := cls [(c.toNat, c.toNat)]

/-- A literal string. -/
def lit : List Char → Re
  | [] => eps
  | [c] => chr c
  | c :: cs => seq (chr c) (lit cs)

/-- Syntax `r?`. -/
def opt (r : Re) : Re := alt r eps

/-- Syntax `r+`. -/
def plus (r : Re) : Re := seq r (star r)

/-- Syntax `r{0,k}`. -/
def upTo : Nat → Re → Re
  | 0, _ => eps
  | k + 1, r => opt (seq r (upTo k r))

/-- Syntax `r{n,n+k}`. -/
def rep : Nat → Nat → Re → Re
  | 0, k, r => upTo k r
  | n + 1, k, r => seq r (rep n k r)

/-- Alternation of a list of expressions, in order. -/
def alts : List Re → Re
  | [] => empty
  | [r] => r
  | r :: rs => alt r (alts rs)

/-- Concatenation of a list of expressions. -/
def seqs : List Re → Re
  | [] => eps
  | [r] => r
  | r :: rs => seq r (seqs rs)

end Re

/-- Class `\d`. -/
def reDigit : Re := .cls [(48, 57)]

/-- Sub-expression `(25[0-5]|2[0-4]\d|[01]?\d\d?)` of `ip4Str`. -/
def reOctet4 : Re :=
  Re.alts [Re.seqs [Re.lit ['2', '5'], .cls [(48, 53)]],
           Re.seqs [Re.chr '2', .cls [(48, 52)], reDigit],
           Re.seqs [Re.opt (.cls [(48, 49)]), reDigit, Re.opt reDigit]]

/-- Constant `ip4Str`: `((25[0-5]|2[0-4]\d|[01]?\d\d?)\.){3}(25[0-5]|2[0-4]\d|[01]?\d\d?)`. -/
def ip4Str : Re := .seq (Re.rep 3 0 (.seq reOctet4 (Re.chr '.'))) reOctet4

/-- Sub-expression `(25[0-5]|2[0-4]\d|1\d\d|[1-9]?\d)` of `ip6Str`. -/
def reOctet6 : Re :=
  Re.alts [Re.seqs [Re.lit ['2', '5'], .cls [(48, 53)]],
           Re.seqs [Re.chr '2', .cls [(48, 52)], reDigit],
           Re.seqs [Re.chr '1', reDigit, reDigit],
           Re.seqs [Re.opt (.cls [(49, 57)]), reDigit]]

/-- Sub-expression `((25[0-5]|...)(\.(25[0-5]|...)){3})` of `ip6Str`: a dotted quad. -/
def reQuad6 : Re := .seq reOctet6 (Re.rep 3 0 (.seq (Re.chr '.') reOctet6))

/-- Sub-expression `[0-9A-Fa-f]{1,4}`. -/
def reHex4 : Re := Re.rep 1 3 (.cls [(48, 57), (65, 70), (97, 102)])

/-- Sub-expression `([0-9A-Fa-f]{1,4}:)`. -/
def reHexColon : Re := .seq reHex4 (Re.chr ':')

/-- Sub-expression `(:[0-9A-Fa-f]{1,4})`. -/
def reColonHex : Re := .seq (Re.chr ':') reHex4

/-- Constant `ip6Str`: its eight alternatives, by the number of leading groups. -/
def ip6Str : Re :=
  Re.alts [
    .seq (Re.rep 7 0 reHexColon) (Re.alts [reHex4, Re.chr ':']),
    .seq (Re.rep 6 0 reHexColon) (Re.alts [reColonHex, reQuad6, Re.chr ':']),
    .seq (Re.rep 5 0 reHexColon)
      (Re.alts [Re.rep 1 1 reColonHex, .seq (Re.chr ':') reQuad6, Re.chr ':']),
    .seq (Re.rep 4 0 reHexColon)
      (Re.alts [Re.rep 1 2 reColonHex,
                Re.seqs [Re.opt reColonHex, Re.chr ':', reQuad6], Re.chr ':']),
    .seq (Re.rep 3 0 reHexColon)
      (Re.alts [Re.rep 1 3 reColonHex,
                Re.seqs [Re.rep 0 2 reColonHex, Re.chr ':', reQuad6], Re.chr ':']),
    .seq (Re.rep 2 0 reHexColon)
      (Re.alts [Re.rep 1 4 reColonHex,
                Re.seqs [Re.rep 0 3 reColonHex, Re.chr ':', reQuad6], Re.chr ':']),
    .seq (Re.rep 1 0 reHexColon)
      (Re.alts [Re.rep 1 5 reColonHex,
                Re.seqs [Re.rep 0 4 reColonHex, Re.chr ':', reQuad6], Re.chr ':']),
    .seq (Re.chr ':')
      (Re.alts [Re.rep 1 6 reColonHex,
                Re.seqs [Re.rep 0 5 reColonHex, Re.chr ':', reQuad6], Re.chr ':'])]

/-- Constant `ipStr`, `(ip4Str)|(ip6Str)`, where it stands inside a group. -/
def ipStr : Re := .alt ip4Str ip6Str

/-- Class `[a-zA-Z0-9]`. -/
def reAlnum : Re := .cls [(97, 122), (65, 90), (48, 57)]

/-- Class `[a-zA-Z0-9_-]`. -/
def reAlnumDash : Re := .cls [(97, 122), (65, 90), (48, 57), (95, 95), (45, 45)]

/-- Constant `domainStr`. -/
def domainStr : Re :=
  Re.seqs [reAlnum, Re.rep 0 62 reAlnumDash,
           .star (Re.seqs [Re.chr '.', reAlnum, Re.rep 0 62 reAlnumDash]),
           Re.seqs [Re.chr '.', .cls [(97, 122), (65, 90)], Re.rep 0 10 reAlnum]]

/-- Constant `urlStr`: protocol, user, host, port, path and query. -/
def urlStr : Re :=
  Re.seqs [
    .seq (Re.opt (Re.alts [Re.lit "https".toList, Re.lit "http".toList, Re.lit "ftp".toList,
                           Re.lit "rtsp".toList, Re.lit "mms".toList]))
         (Re.lit "://".toList),
    Re.opt (Re.seqs [Re.opt (.seq (Re.plus (.cls [(48, 57), (97, 122), (65, 90)])) (Re.chr ':')),
                     Re.plus (.cls [(48, 57), (97, 122), (65, 90), (95, 95), (45, 45)]),
                     Re.chr '@']),
    Re.alts [ip4Str, ip6Str, domainStr],
    Re.opt (.seq (Re.chr ':') (Re.rep 1 3 reDigit)),
    .star (Re.seqs [Re.plus (Re.chr '/'), reAlnum,
                    .star (.cls [(97, 122), (65, 90), (48, 57), (95, 95), (46, 46), (45, 45)]),
                    .star (Re.chr '/')]),
    .star (.seq (Re.chr '?')
             (.star (.seq (Re.plus reAlnumDash)
                          (.star (.seq (Re.chr '=') (.star reAlnumDash))))))]

/-- Source `IsURL`: the expression `^urlStr$`; `urlStr` is a concatenation, so the
two anchors bind the whole of it. -/
def IsURL (val : String) : Bool := Re.fullMatch urlStr val.toList

/-- Source `IsIP`: the expression `ip` is compiled from `"^" + ipStr + "$"`, that is
`^(ip4Str)|(ip6Str)$`.  Alternation binds weaker than concatenation, so the
expression is `^(ip4Str)`, or `(ip6Str)$`: a search finds a match when a prefix of
the value matches `ip4Str` or a suffix of it matches `ip6Str`. -/
def IsIP (val : String) : Bool :=
  Re.prefixMatch ip4Str val.toList || Re.suffixMatch ip6Str val.toList

/-! ## Package `setecs`: loading of sources (`ecsbinding.go`, `ecstable.go`) -/

/-- A line up to its first `#`: `if i := strings.IndexByte(line, '#'); i >= 0`. -/
def stripComment (line : String) : String :=
  String.mk (line.toList.takeWhile (fun c => c ≠ '#'))

/-- Go `strings.Split(s, sep)` for a separator of one character, on a list of
characters: the fields between the separators, one more than there are separators. -/
def splitOnChar (sep : Char) : List Char → List (List Char)
  | [] => [[]]
  | c :: cs =>
    if c = sep then [] :: splitOnChar sep cs
    else
      match splitOnChar sep cs with
      | [] => [[c]]
      | f :: fs => (c :: f) :: fs

/-- Go `strings.Split(s, sep)` for a separator of one character. -/
def stringsSplit (s : String) (sep : Char) : List String :=
  (splitOnChar sep s.toList).map String.mk

/-- The lines a `bufio.Scanner` yields for a text: the text is cut at every newline,
one carriage return before the newline is dropped, and an empty last line is not
yielded.  (Lines are taken to fit the scanner's buffer of 64 KiB.) -/
def scanLines (content : String) : List String :=
  let fields := splitOnChar '\n' content.toList
  let fields := if fields.getLast? = some [] then fields.dropLast else fields
  fields.map (fun l => String.mk (if l.getLast? = some '\r' then l.dropLast else l))

/-- Go `hash/fnv`, 64-bit FNV-1a over the bytes of the string: source `StringHash`. -/
def StringHash (str : String) : Nat :=
  (str.toList.flatMap String.utf8EncodeChar).foldl
    (fun h b => (h ^^^ b.toNat) * 1099511628211 % 2 ^ 64) 14695981039346656037

/-- What the file system answers for a path that names a regular file. -/
structure FileInfo where
  mtime : Nat
  size : Nat
  content : String
deriving DecidableEq, Repr

/-- The outside of the plugin at one moment: the regular files, by path, and the
bodies that `HttpGet` fetches, by URL (`none` is an error of `os.Open` or of the
fetch). -/
structure World where
  files : String → Option FileInfo
  fetch : String → Option String

/-- Source `FileExists`: `os.Stat` succeeds and the path is not a directory. -/
def FileExists (w : World) (file : String) : Bool := (w.files file).isSome

/-- Inner loop `for _, inet := range addrs` of `ecsBinding.parse`.  Its body logs a
warning when the new range contains an accepted one, and its `continue` goes on
with this inner loop: the number of warnings is all the loop computes. -/
def containsNetWarnings (addr : iplib.Net) : List iplib.Net → Nat
  | [] => 0
  | inet :: rest =>
    if addr.ContainsNet inet then 1 + containsNetWarnings addr rest
    else containsNetWarnings addr rest

/-- Loop over the lines of `ecsBinding.parse`, which is also the loop over the lines
of `ecsBinding.loadFromUrl`: ranges accepted, lines read, warnings logged. -/
def ecsBinding.parseLoop : List String → List iplib.Net → Nat → Nat → List iplib.Net × Nat × Nat
  | [], addrs, totalLines, warnings => (addrs, totalLines, warnings)
  | line :: rest, addrs, totalLines, warnings =>
    match ParseIpNet (stripComment line) with
    | none => ecsBinding.parseLoop rest addrs (totalLines + 1) warnings
    | some addr =>
      ecsBinding.parseLoop rest (addrs ++ [addr]) (totalLines + 1)
        (warnings + containsNetWarnings addr addrs)

/-- Source `ecsBinding.parse`, on the lines of the reader. -/
def ecsBinding.parse (lines : List String) : List iplib.Net × Nat :=
  match ecsBinding.parseLoop lines [] 0 0 with
  | (addrs, totalLines, _) => (addrs, totalLines)

/-- Source `ecsBinding.loadFromFile`. -/
def ecsBinding.loadFromFile (eb : ecsBinding) (w : World) : ecsBinding :=
  if eb.whichType ≠ ItemTypePath ∨ eb.path.length = 0 then eb
  else
    match w.files eb.path with
    | none => eb
    | some stat =>
      if stat.mtime = eb.mtime ∧ stat.size = eb.size then eb
      else
        match ecsBinding.parse (scanLines stat.content) with
        | (addrs, _) => { eb with clients := addrs, mtime := stat.mtime, size := stat.size }

/-- Source `ecsBinding.loadFromUrl`. -/
def ecsBinding.loadFromUrl (eb : ecsBinding) (w : World) : ecsBinding :=
  if eb.whichType ≠ ItemTypeUrl ∨ eb.url.length = 0 then eb
  else
    match w.fetch eb.url with
    | none => eb
    | some contentStr =>
      if StringHash contentStr = eb.contentHash then eb
      else
        match ecsBinding.parseLoop (stringsSplit contentStr '\n') [] 0 0 with
        | (addrs, _, _) => { eb with clients := addrs, contentHash := StringHash contentStr }

/-- Assignment `dict[key] = ip` on the association list: the entry of the key is
overwritten where it stands, a new key is added at the end. -/
def dictSet : List (String × net.IP) → String → net.IP → List (String × net.IP)
  | [], key, ip => [(key, ip)]
  | (k, v) :: rest, key, ip =>
    if k = key then (k, ip) :: rest else (k, v) :: dictSet rest key ip

/-- Body of the loop over the lines of `ecsTable.parse`: the dictionary after one line. -/
def ecsTable.parseLine (dict : List (String × net.IP)) (line : String) :
    List (String × net.IP) :=
  match stringsSplit (stripComment line) ':' with
  | [key, value] =>
    if !IsIP key then dict
    else
      match net.ParseIP value with
      | some ip => dictSet dict key ip
      | none => dict
  | _ => dict

/-- The entry that a table line contributes, `none` for a line that the loop of
`ecsTable.parse` skips: the conditions under which the body of the loop reaches
the assignment `dict[attrs[0]] = ip`. -/
def tableLineEntry (line : String) : Option (String × net.IP) :=
  match stringsSplit (stripComment line) ':' with
  | [key, value] =>
    if !IsIP key then none
    else
      match net.ParseIP value with
      | some ip => some (key, ip)
      | none => none
  | _ => none

/-- Loop over the lines of `ecsTable.parse`, which is also the loop over the lines
of `ecsTable.loadFromUrl`: dictionary and lines read. -/
def ecsTable.parseLoop : List String → List (String × net.IP) → Nat →
    List (String × net.IP) × Nat
  | [], dict, totalLines => (dict, totalLines)
  | line :: rest, dict, totalLines =>
    ecsTable.parseLoop rest (ecsTable.parseLine dict line) (totalLines + 1)

/-- Source `ecsTable.parse`, on the lines of the reader. -/
def ecsTable.parse (lines : List String) : List (String × net.IP) × Nat :=
  ecsTable.parseLoop lines [] 0

/-- Source `ecsTable.loadFromFile`. -/
def ecsTable.loadFromFile (eb : ecsTable) (w : World) : ecsTable :=
  if eb.whichType ≠ ItemTypePath ∨ eb.path.length = 0 then eb
  else
    match w.files eb.path with
    | none => eb
    | some stat =>
      if stat.mtime = eb.mtime ∧ stat.size = eb.size then eb
      else
        match ecsTable.parse (scanLines stat.content) with
        | (dict, _) => { eb with dict := dict, mtime := stat.mtime, size := stat.size }

/-- Source `ecsTable.loadFromUrl`. -/
def ecsTable.loadFromUrl (eb : ecsTable) (w : World) : ecsTable :=
  if eb.whichType ≠ ItemTypeUrl ∨ eb.url.length = 0 then eb
  else
    match w.fetch eb.url with
    | none => eb
    | some contentStr =>
      if StringHash contentStr = eb.contentHash then eb
      else
        match ecsTable.parseLoop (stringsSplit contentStr '\n') [] 0 with
        | (dict, _) => { eb with dict := dict, contentHash := StringHash contentStr }

/-! ## Package `setecs`: configuration (`setecs.go`) -/

/-- Loop of `SetEcs.InlineEcsBinding`: the position of the first binding of type
`ItemTypeInline` (the source returns the pointer held at that position). -/
def InlineEcsBindingLoop : List ecsBinding → Nat → Option Nat
  | [], _ => none
  | binding :: rest, i =>
    if binding.whichType = ItemTypeInline then some i else InlineEcsBindingLoop rest (i + 1)

/-- Source `SetEcs.InlineEcsBinding`. -/
def SetEcs.InlineEcsBinding (se : SetEcs) : Option Nat :=
  InlineEcsBindingLoop se.ecsBindings 0

/-- The call `eb.addInline(ipn)` on the binding held at a position of the registry. -/
def SetEcs.addInlineAt (se : SetEcs) (i : Nat) (ipn : iplib.Net) : SetEcs :=
  match se.ecsBindings.get? i with
  | some eb => { se with ecsBindings := se.ecsBindings.set i (eb.addInline ipn).1 }
  | none => se

/-- Body of the loop over the items of `SetEcs.parseEcsBinding`. -/
def SetEcs.parseEcsBindingItem (w : World) (ecsipb : net.IP) (se : SetEcs) (item : String) :
    SetEcs :=
  if FileExists w item then
    se.addEcsBinding ((newEcsBinding ItemTypePath ecsipb item "").loadFromFile w)
  else if IsURL item then
    se.addEcsBinding ((newEcsBinding ItemTypeUrl ecsipb "" item).loadFromUrl w)
  else
    match parseIpNet item with
    | none => se
    | some ipn =>
      match se.InlineEcsBinding with
      | some i => se.addInlineAt i ipn
      | none =>
        (se.addEcsBinding (newEcsBinding ItemTypeInline ecsipb "" "")).addInlineAt
          se.ecsBindings.length ipn

/-- Source `SetEcs.parseEcsBinding`: the resolver after the call (the method works
on the resolver in place) and the error returned (`none` is nil). -/
def SetEcs.parseEcsBinding (se : SetEcs) (w : World) (ecsip : String) (items : List String) :
    SetEcs × Option String :=
  match net.ParseIP ecsip with
  | none => (se, some ("error ecsip " ++ ecsip))
  | some ecsipb => (items.foldl (SetEcs.parseEcsBindingItem w ecsipb) se, none)

/-- The calls of `parseEcsBinding` that `parseSetEcs` makes for the `ecs-binding`
directives of a configuration, one after the other, each with its substitute
address, its items and the world of its moment; `parseSetEcs` returns at the
first error. -/
def parseEcsBindingCalls : SetEcs → List (World × String × List String) →
    SetEcs × Option String
  | se, [] => (se, none)
  | se, (w, ecsip, items) :: rest =>
    match se.parseEcsBinding w ecsip items with
    | (se1, none) => parseEcsBindingCalls se1 rest
    | (se1, some e) => (se1, some e)

/-- A sequence of calls of `parseEcsBinding` on a resolver, each with its world, its
substitute address and its items, and each made whatever the calls before it
returned: the resolver after the last call. -/
def parseEcsBindingSeq : SetEcs → List (World × String × List String) → SetEcs
  | se, [] => se
  | se, (w, ecsip, items) :: rest =>
    parseEcsBindingSeq (se.parseEcsBinding w ecsip items).1 rest

/-- Body of the loop over the items of `SetEcs.parseEcsTable`. -/
def SetEcs.parseEcsTableItem (w : World) (se : SetEcs) (item : String) : SetEcs :=
  if FileExists w item then
    se.addEcsTable ((newEcsTable ItemTypePath item "").loadFromFile w)
  else if IsURL item then
    se.addEcsTable ((newEcsTable ItemTypePath "" item).loadFromFile w)
  else se

/-- Source `SetEcs.parseEcsTable`: the resolver after the call and the error
returned, which is always nil. -/
def SetEcs.parseEcsTable (se : SetEcs) (w : World) (items : List String) :
    SetEcs × Option String :=
  (items.foldl (SetEcs.parseEcsTableItem w) se, none)

/-- Body of the first loop of `SetEcs.updateList`. -/
def updateTable (w : World) (item : ecsTable) : ecsTable :=
  if item.whichType = ItemTypePath then item.loadFromFile w
  else if item.whichType = ItemTypeUrl then item.loadFromUrl w
  else item

/-- Body of the second loop of `SetEcs.updateList`. -/
def updateBinding (w : World) (item : ecsBinding) : ecsBinding :=
  if item.whichType = ItemTypePath then item.loadFromFile w
  else if item.whichType = ItemTypeUrl then item.loadFromUrl w
  else item

/-- Source `SetEcs.updateList`. -/
def SetEcs.updateList (se : SetEcs) (w : World) : SetEcs :=
  { se with ecsTables := se.ecsTables.map (updateTable w),
            ecsBindings := se.ecsBindings.map (updateBinding w) }

/-! ## Configuration of bindings: the literal items -/

/-- The range that an item of `parseEcsBinding` declares as a literal, if any. -/
def literalOf (w : World) (item : String) : Option iplib.Net :=
  if FileExists w item || IsURL item then none else parseIpNet item

/-- The ranges that the literal items of a sequence of `parseEcsBinding` calls
declare, in declaration order: an item is a literal when it is neither an
existing file nor a URL, and it declares a range when `parseIpNet` accepts it. -/
def inlineLiterals (calls : List (World × String × List String)) : List iplib.Net :=
  calls.flatMap (fun c => c.2.2.filterMap (literalOf c.1))

/-- The calls of a sequence whose substitute address `net.ParseIP` accepts: the
calls that reach the loop over their items. -/
def acceptedCalls (calls : List (World × String × List String)) :
    List (World × String × List String) :=
  calls.filter (fun c => (net.ParseIP c.2.1).isSome)

/-- The bindings of type `ItemTypeInline` of a resolver, in registration order. -/
def SetEcs.inlineBindings (se : SetEcs) : List ecsBinding :=
  se.ecsBindings.filter (fun b => decide (b.whichType = ItemTypeInline))

/-- The state that the configuration of bindings keeps: no binding of type
`ItemTypeInline` and no literal declared so far, or one such binding, without
loaded ranges, whose inline set is the list of the literals declared so far. -/
def inlineInvariant (se : SetEcs) (lits : List iplib.Net) : Prop :=
  (se.inlineBindings = [] ∧ lits = []) ∨
    (∃ ip0, se.inlineBindings =
        [{ newEcsBinding ItemTypeInline ip0 "" "" with inline := lits }] ∧ lits ≠ [])

/-! ## Prefixes of addresses -/

/-- Bit `j` of an address, counted from the most significant bit of its first byte. -/
def bitAt (ip : List Nat) (j : Nat) : Bool := (ip.getD (j / 8) 0).testBit (7 - j % 8)

/-- The first `n` bits of two addresses are equal. -/
def samePrefix (n : Nat) (x a : List Nat) : Prop := ∀ j, j < n → bitAt x j = bitAt a j

/-! ## Example inputs -/

/-- The table of the specification's example: the entry `10.0.0.5:203.0.113.9`. -/
def exampleTable : ecsTable :=
  { newEcsTable ItemTypePath "ecs-tables.txt" "" with
    dict := [("10.0.0.5", net.IPv4 203 0 113 9)] }

/-- The binding of the specification's example: substitute `203.0.113.9` for the
clients of `10.0.0.0/24`. -/
def exampleBinding : ecsBinding :=
  { newEcsBinding ItemTypePath (net.IPv4 203 0 113 9) "clients.txt" "" with
    clients := [.v4 { IPNet := { IP := [10, 0, 0, 0], Mask := [255, 255, 255, 0] } }] }

/-- The resolver of the specification's example. -/
def exampleState : SetEcs :=
  { NewSetEcs with ecsBindings := [exampleBinding], ecsTables := [exampleTable] }

/-- A query without an OPT record. -/
def exampleQuery : dns.Msg :=
  { Id := 1, Question := [{ Name := "example.org.", Qtype := 1, Qclass := 1 }],
    Answer := [], Ns := [], Extra := [] }

/-- A query whose OPT record carries a cookie option, a client subnet option and a
padding option. -/
def exampleQueryECS : dns.Msg :=
  { Id := 2, Question := [{ Name := "example.org.", Qtype := 1, Qclass := 1 }],
    Answer := [], Ns := [],
    Extra := [.other { Name := "k.", Rrtype := 250, Class := 255, Ttl := 0, Rdlength := 0 } [],
              .OPT { Hdr := { Name := ".", Rrtype := dns.TypeOPT, Class := 1232, Ttl := 0,
                              Rdlength := 0 },
                     Option := [.other 10 [1, 2, 3, 4, 5, 6, 7, 8],
                                .SUBNET { Code := 8, Family := 1, SourceNetmask := 32,
                                          SourceScope := 0, Address := [10, 0, 0, 5] },
                                .other 12 [0, 0]] }] }

/-- A query whose OPT record carries a cookie option only. -/
def exampleQueryOPT : dns.Msg :=
  { Id := 3, Question := [{ Name := "example.org.", Qtype := 1, Qclass := 1 }],
    Answer := [], Ns := [],
    Extra := [.OPT { Hdr := { Name := ".", Rrtype := dns.TypeOPT, Class := 1232, Ttl := 0,
                              Rdlength := 0 },
                     Option := [.other 10 [1, 2, 3, 4, 5, 6, 7, 8]] }] }

/-- The option synthesized for the substitute address `203.0.113.9`. -/
def exampleECS : dns.EDNS0_SUBNET := newEDNS0Subnet [203, 0, 113, 9] 24 false

/-- A world without files and without reachable URLs. -/
def emptyWorld : World := { files := fun _ => none, fetch := fun _ => none }

/-- The resolver after the directive of `setup_test.go`,
`ecs-binding 1.1.1.1 clients 127.0.0.1 172.21.66.0/24`, and a table that holds
the client `127.0.0.1`. -/
def inlineState : Except String SetEcs :=
  match NewSetEcs.parseEcsBinding emptyWorld "1.1.1.1" ["127.0.0.1", "172.21.66.0/24"] with
  | (se, none) =>
    .ok (se.addEcsTable { newEcsTable ItemTypePath "ecs-tables.txt" "" with
                          dict := [("127.0.0.1", net.IPv4 1 1 1 1)] })
  | (_, some e) => .error e

/-- A response whose OPT record carries two client subnet options. -/
def exampleResponseTwoECS : dns.Msg :=
  { Id := 4, Question := [{ Name := "example.org.", Qtype := 1, Qclass := 1 }],
    Answer := [.other { Name := "example.org.", Rrtype := 1, Class := 1, Ttl := 60,
                        Rdlength := 4 } [93, 184, 216, 34]],
    Ns := [],
    Extra := [.OPT { Hdr := { Name := ".", Rrtype := dns.TypeOPT, Class := 1232, Ttl := 0,
                              Rdlength := 0 },
                     Option := [.SUBNET { Code := 8, Family := 1, SourceNetmask := 24,
                                          SourceScope := 24, Address := [203, 0, 113, 0] },
                                .other 10 [1, 2, 3, 4, 5, 6, 7, 8],
                                .SUBNET { Code := 8, Family := 1, SourceNetmask := 32,
                                          SourceScope := 0, Address := [10, 0, 0, 5] }] }] }

/-- A world in which `http://example.com/ecs-table.txt` serves a table of one line
and `http://example.com/clients.txt` a subnet list of one line; no files. -/
def urlWorld : World :=
  { files := fun _ => none,
    fetch := fun u =>
      if u = "http://example.com/ecs-table.txt" then some "10.0.0.5:203.0.113.9"
      else if u = "http://example.com/clients.txt" then some "10.0.0.0/24"
      else none }

/-- A world in which the file `clients.txt` holds a subnet list and the file
`ecs-tables.txt` a table; no reachable URLs. -/
def fileWorld : World :=
  { files := fun p =>
      if p = "clients.txt" then some { mtime := 1700000000, size := 12, content := "10.0.0.0/24\n" }
      else if p = "ecs-tables.txt" then
        some { mtime := 1700000001, size := 21, content := "10.0.0.5:203.0.113.9\n" }
      else none,
    fetch := fun _ => none }

/-- The binding for `clients.txt` after its first load in `fileWorld`. -/
def loadedBinding : ecsBinding :=
  (newEcsBinding ItemTypePath (net.IPv4 203 0 113 9) "clients.txt" "").loadFromFile fileWorld

/-- A table of type `ItemTypeUrl` after its first load in `urlWorld`. -/
def loadedUrlTable : ecsTable :=
  (newEcsTable ItemTypeUrl "" "http://example.com/ecs-table.txt").loadFromUrl urlWorld

/-- Two `ecs-binding` directives with literal, file and URL items, in `fileWorld`. -/
def twoCalls : List (World × String × List String) :=
  [(fileWorld, "1.1.1.1", ["127.0.0.1", "clients.txt", "nonsense"]),
   (fileWorld, "2.2.2.2", ["172.21.66.0/24", "http://example.com/clients.txt"])]

/-- Two calls of which the first has a substitute address that is not an address. -/
def failingCalls : List (World × String × List String) :=
  [(emptyWorld, "bad", ["1.2.3.4"]), (emptyWorld, "1.1.1.1", ["5.6.7.8"])]

/-- Two calls of which the last has a substitute address that is not an address. -/
def endFailingCalls : List (World × String × List String) :=
  [(emptyWorld, "1.1.1.1", ["5.6.7.8"]), (emptyWorld, "bad", ["1.2.3.4"])]

/-- Table lines of which the second has a key and the third and fourth a substitute
written as an IPv6 address. -/
def ipv6Lines : List String :=
  ["10.0.0.5:203.0.113.9", "::1:203.0.113.9", "10.0.0.6:2001:db8::1", "10.0.0.7:::1"]

/-! ## Resolution (`SetEcs.ServeDNS`, lines 83 to 86) -/

theorem lookup_eq_none_of_no_key (k : String) (d : List (String × net.IP))
    (h : ∀ kv ∈ d, kv.1 ≠ k) : d.lookup k = none := by
  induction d with
  | nil => rfl
  | cons kv rest ih =>
    obtain ⟨k1, v1⟩ := kv
    have hk : k1 ≠ k := h (k1, v1) (List.mem_cons_self _ _)
    have hk2 : (k == k1) = false := by
      simp only [beq_eq_false_iff_ne, ne_eq]
      exact fun e => hk e.symm
    rw [List.lookup_cons, hk2]
    exact ih (fun kv hkv => h kv (List.mem_cons_of_mem _ hkv))

theorem MatchEcsTableLoop_none (ipstr : String) (ts : List ecsTable)
    (h : ∀ t ∈ ts, ∀ kv ∈ t.dict, kv.1 ≠ ipstr) : MatchEcsTableLoop ipstr ts = none := by
  induction ts with
  | nil => rfl
  | cons t rest ih =>
    unfold MatchEcsTableLoop
    rw [lookup_eq_none_of_no_key ipstr t.dict (h t (List.mem_cons_self _ _))]
    exact ih (fun t1 ht1 => h t1 (List.mem_cons_of_mem _ ht1))

theorem existIpLoop_eq_any (ip : net.IP) (cs : List iplib.Net) :
    existIpLoop ip cs = cs.any (fun r => r.Contains ip) := by
  induction cs with
  | nil => rfl
  | cons c rest ih =>
    unfold existIpLoop
    rw [List.any_cons]
    cases c.Contains ip <;> simp [ih]

theorem MatchEcsBindingLoop_eq_find (ip : net.IP) (bs : List ecsBinding) :
    MatchEcsBindingLoop ip bs =
      (bs.find? (fun b => b.clients.any (fun r => r.Contains ip))).map (fun b => b.ecsip) := by
  induction bs with
  | nil => rfl
  | cons b rest ih =>
    unfold MatchEcsBindingLoop
    rw [List.find?_cons]
    simp only [ecsBinding.existIp, existIpLoop_eq_any]
    cases b.clients.any (fun r => r.Contains ip) <;> simp [ih]

theorem MatchEcsBinding_fst (se : SetEcs) (ip : net.IP) :
    (se.MatchEcsBinding ip).1 = MatchEcsBindingLoop ip se.ecsBindings := by
  unfold SetEcs.MatchEcsBinding
  simp only
  cases MatchEcsBindingLoop ip se.ecsBindings <;> rfl

theorem MatchEcsTable_fst (se : SetEcs) (ipstr : String) :
    (se.MatchEcsTable ipstr).1 = MatchEcsTableLoop ipstr se.ecsTables := by
  unfold SetEcs.MatchEcsTable
  simp only
  cases MatchEcsTableLoop ipstr se.ecsTables <;> rfl

theorem MatchEcsTable_bindings (se : SetEcs) (ipstr : String) :
    (se.MatchEcsTable ipstr).2.ecsBindings = se.ecsBindings := by
  unfold SetEcs.MatchEcsTable
  simp only
  cases MatchEcsTableLoop ipstr se.ecsTables <;> rfl

theorem resolve_fst (se : SetEcs) (stateIP : String) (clientIp : net.IP) :
    (se.resolve stateIP clientIp).1 =
      match MatchEcsTableLoop stateIP se.ecsTables with
      | some _ => MatchEcsBindingLoop clientIp se.ecsBindings
      | none => none := by
  have h1 := MatchEcsTable_fst se stateIP
  have h2 := MatchEcsTable_bindings se stateIP
  unfold SetEcs.resolve
  rcases hm : se.MatchEcsTable stateIP with ⟨r, se1⟩
  rw [hm] at h1 h2
  simp only at h1 h2
  rw [← h1]
  cases r with
  | none => rfl
  | some v =>
    simp only
    rw [MatchEcsBinding_fst, h2]

/-- C1: when no registered table has the client address string as a key, the
resolution of `ServeDNS` yields no substitute address, whatever the bindings are,
and no option is synthesized. -/
theorem C1_no_table_key_yields_none (se : SetEcs) (stateIP : String) (clientIp : net.IP)
    (h : ∀ t ∈ se.ecsTables, ∀ kv ∈ t.dict, kv.1 ≠ stateIP) :
    (se.resolve stateIP clientIp).1 = none ∧
      synthesize (se.resolve stateIP clientIp).1 = none := by
  have h1 : (se.resolve stateIP clientIp).1 = none := by
    rw [resolve_fst, MatchEcsTableLoop_none stateIP se.ecsTables h]
  exact ⟨h1, by rw [h1]; rfl⟩

theorem C1_witness :
    (∀ t ∈ exampleState.ecsTables, ∀ kv ∈ t.dict, kv.1 ≠ "10.0.0.6") ∧
      (exampleState.resolve "10.0.0.6" (net.IPv4 10 0 0 6)).1 = none ∧
      synthesize (exampleState.resolve "10.0.0.6" (net.IPv4 10 0 0 6)).1 = none :=
  ⟨by decide, C1_no_table_key_yields_none exampleState "10.0.0.6" (net.IPv4 10 0 0 6) (by decide)⟩

theorem MatchEcsBindingLoop_inline (ip : net.IP) (f : ecsBinding → List iplib.Net)
    (bs : List ecsBinding) :
    MatchEcsBindingLoop ip (bs.map (fun b => { b with inline := f b })) =
      MatchEcsBindingLoop ip bs := by
  induction bs with
  | nil => rfl
  | cons b rest ih =>
    simp only [List.map_cons, MatchEcsBindingLoop, ecsBinding.existIp, ih]

/-- Resolution does not read the inline subnet sets: replacing them by any others
leaves the result of every resolution unchanged. -/
theorem resolve_ignores_inline (se : SetEcs) (f : ecsBinding → List iplib.Net)
    (stateIP : String) (clientIp : net.IP) :
    (SetEcs.resolve { se with ecsBindings := se.ecsBindings.map (fun b => { b with inline := f b }) }
        stateIP clientIp).1 = (se.resolve stateIP clientIp).1 := by
  rw [resolve_fst, resolve_fst]
  simp only [MatchEcsBindingLoop_inline]

/-- C3: on the resolver built from the directive of `setup_test.go`, the client
`127.0.0.1` is a table key and lies in a range of the inline subnet set of the
binding for `1.1.1.1`, and yet resolution yields no substitute: `existIp` reads
`clients` only. -/
theorem C3_inline_set_not_consulted :
    ∃ se : SetEcs, inlineState = .ok se ∧
      net.ParseIP "127.0.0.1" = some (net.IPv4 127 0 0 1) ∧
      (∃ t ∈ se.ecsTables, ∃ kv ∈ t.dict, kv.1 = "127.0.0.1") ∧
      (∃ b ∈ se.ecsBindings, b.whichType = ItemTypeInline ∧ b.ecsip = net.IPv4 1 1 1 1 ∧
        ∃ r ∈ b.inline, r.Contains (net.IPv4 127 0 0 1) = true) ∧
      (se.resolve "127.0.0.1" (net.IPv4 127 0 0 1)).1 = none := by
  refine ⟨{ NewSetEcs with
            ecsBindings := [{ newEcsBinding ItemTypeInline (net.IPv4 1 1 1 1) "" "" with
              inline := [.v4 { IPNet := { IP := [127, 0, 0, 1], Mask := [255, 255, 255, 255] } },
                         .v4 { IPNet := { IP := [172, 21, 66, 0], Mask := [255, 255, 255, 0] } }] }],
            ecsTables := [{ newEcsTable ItemTypePath "ecs-tables.txt" "" with
                            dict := [("127.0.0.1", net.IPv4 1 1 1 1)] }] }, ?_, ?_, ?_, ?_, ?_⟩
  · decide
  · decide
  · decide
  · decide
  · decide

/-! ## Loading a subnet list (`ecsBinding.parse`, `ecsBinding.loadFromUrl`) -/

/-- C4: a source that lists `10.0.0.0/8` and then `10.1.0.0/16`, a range fully
contained in the first, loads as a subnet set that holds both ranges, through
`ecsBinding.parse` and through the line loop of `ecsBinding.loadFromUrl` alike,
and no warning is logged. -/
theorem C4_contained_range_is_kept :
    ecsBinding.parse ["10.0.0.0/8", "10.1.0.0/16"] =
        ([.v4 { IPNet := { IP := [10, 0, 0, 0], Mask := [255, 0, 0, 0] } },
          .v4 { IPNet := { IP := [10, 1, 0, 0], Mask := [255, 255, 0, 0] } }], 2) ∧
      ecsBinding.parseLoop (stringsSplit "10.0.0.0/8\n10.1.0.0/16" '\n') [] 0 0 =
        ([.v4 { IPNet := { IP := [10, 0, 0, 0], Mask := [255, 0, 0, 0] } },
          .v4 { IPNet := { IP := [10, 1, 0, 0], Mask := [255, 255, 0, 0] } }], 2, 0) ∧
      iplib.Net.ContainsNet (.v4 { IPNet := { IP := [10, 0, 0, 0], Mask := [255, 0, 0, 0] } })
        (.v4 { IPNet := { IP := [10, 1, 0, 0], Mask := [255, 255, 0, 0] } }) = true := by
  refine ⟨?_, ?_, ?_⟩
  · decide
  · decide
  · decide

/-! ## Parsing a range (`parseIpNet`, `ParseIpNet`) -/

theorem ParseIpNet_eq_parseIpNet (d : String) : ParseIpNet d = parseIpNet d := rfl

/-- C5: for the bare IPv6 address `2001:db8::1` both parsers return the range
`2001:db8::/32`, whose mask has 32 leading ones of 128 bits, and which contains
the other address `2001:db8:ffff::2`: not a singleton `/128`. -/
theorem C5_bare_ipv6_is_not_a_singleton :
    parseIpNet "2001:db8::1" =
        some (.v6 { IPNet := { IP := [0x20, 0x01, 0x0d, 0xb8, 0, 0, 0, 0, 0, 0, 0, 0, 0, 0, 0, 0],
                               Mask := [255, 255, 255, 255, 0, 0, 0, 0, 0, 0, 0, 0, 0, 0, 0, 0] } }) ∧
      ParseIpNet "2001:db8::1" = parseIpNet "2001:db8::1" ∧
      (parseIpNet "2001:db8::1").map (fun r => net.Size r.Mask) = some (32, 128) ∧
      net.ParseIP "2001:db8:ffff::2" =
        some [0x20, 0x01, 0x0d, 0xb8, 0xff, 0xff, 0, 0, 0, 0, 0, 0, 0, 0, 0, 2] ∧
      (parseIpNet "2001:db8::1").map
        (fun r => r.Contains [0x20, 0x01, 0x0d, 0xb8, 0xff, 0xff, 0, 0, 0, 0, 0, 0, 0, 0, 0, 2]) =
        some true := by
  refine ⟨?_, rfl, ?_, ?_, ?_⟩
  · decide
  · decide
  · decide
  · decide

/-! ## Ranges in CIDR notation (`parseIpNet`) -/

theorem list_length_four (l : List Nat) (h : l.length = 4) :
    ∃ a b c d, l = [a, b, c, d] := by
  match l, h with
  | [a, b, c, d], _ => exact ⟨a, b, c, d, rfl⟩

theorem list_length_sixteen (l : List Nat) (h : l.length = 16) :
    ∃ a0 a1 a2 a3 a4 a5 a6 a7 a8 a9 a10 a11 a12 a13 a14 a15,
      l = [a0, a1, a2, a3, a4, a5, a6, a7, a8, a9, a10, a11, a12, a13, a14, a15] := by
  match l, h with
  | [a0, a1, a2, a3, a4, a5, a6, a7, a8, a9, a10, a11, a12, a13, a14, a15], _ =>
    exact ⟨a0, a1, a2, a3, a4, a5, a6, a7, a8, a9, a10, a11, a12, a13, a14, a15, rfl⟩

theorem CIDRMaskLoop_length (l n : Nat) : (net.CIDRMaskLoop l n).length = l := by
  induction l generalizing n with
  | zero => rfl
  | succ l ih =>
    unfold net.CIDRMaskLoop
    split <;> simp [ih]

theorem Size_CIDRMask_32 (n : Nat) (h : n ≤ 32) : net.Size (net.CIDRMask n 32) = (n, 32) := by
  have key : ∀ k, k < 33 → net.Size (net.CIDRMask k 32) = (k, 32) := by decide
  exact key n (by omega)

theorem Size_CIDRMask_128 (n : Nat) (h : n ≤ 128) :
    net.Size (net.CIDRMask n 128) = (n, 128) := by
  have key : ∀ k, k < 129 → net.Size (net.CIDRMask k 128) = (k, 128) := by decide
  exact key n (by omega)

theorem maskByte_testBit (n : Nat) (hn : n < 8) (i : Nat) :
    (0xff - 0xff >>> n).testBit i = decide (8 - n ≤ i ∧ i < 8) := by
  rcases Nat.lt_or_ge i 8 with h | h
  · interval_cases n <;> interval_cases i <;> decide
  · have hlt : 0xff - 0xff >>> n < 2 ^ i := by
      have h1 : 0xff - 0xff >>> n ≤ 255 := Nat.sub_le _ _
      have h2 : 2 ^ 8 ≤ 2 ^ i := Nat.pow_le_pow_right (by decide) h
      omega
    rw [Nat.testBit_lt_two_pow hlt]
    simp
    omega

theorem ff_testBit (i : Nat) : (0xff : Nat).testBit i = decide (i < 8) := by
  rcases Nat.lt_or_ge i 8 with h | h
  · interval_cases i <;> decide
  · have hlt : (0xff : Nat) < 2 ^ i := by
      have h2 : 2 ^ 8 ≤ 2 ^ i := Nat.pow_le_pow_right (by decide) h
      omega
    rw [Nat.testBit_lt_two_pow hlt]
    simp
    omega

theorem and_eq_iff_bits (a x m : Nat) :
    a &&& m = x &&& m ↔ ∀ i, m.testBit i = true → a.testBit i = x.testBit i := by
  constructor
  · intro h i hm
    have h1 : (a &&& m).testBit i = (x &&& m).testBit i := by rw [h]
    rw [Nat.testBit_and, Nat.testBit_and, hm] at h1
    simpa using h1
  · intro h
    apply Nat.eq_of_testBit_eq
    intro i
    rw [Nat.testBit_and, Nat.testBit_and]
    cases hm : m.testBit i
    · simp
    · rw [h i hm]

theorem bitAt_cons_lt (a : Nat) (as : List Nat) (j : Nat) (h : j < 8) :
    bitAt (a :: as) j = a.testBit (7 - j) := by
  unfold bitAt
  have h1 : j / 8 = 0 := by omega
  have h2 : j % 8 = j := by omega
  rw [h1, h2]
  rfl

theorem bitAt_cons_ge (a : Nat) (as : List Nat) (j : Nat) :
    bitAt (a :: as) (j + 8) = bitAt as j := by
  unfold bitAt
  have h1 : (j + 8) / 8 = j / 8 + 1 := by omega
  have h2 : (j + 8) % 8 = j % 8 := by omega
  rw [h1, h2]
  rfl

theorem containsLoop_zero_mask (l : Nat) (a x : List Nat) :
    net.containsLoop a (net.CIDRMaskLoop l 0) x = true := by
  induction l generalizing a x with
  | zero =>
    cases a <;> cases x <;> simp [net.containsLoop, net.CIDRMaskLoop]
  | succ l ih =>
    cases a with
    | nil => simp [net.containsLoop]
    | cons a0 as =>
      cases x with
      | nil => simp [net.containsLoop]
      | cons x0 xs =>
        simp [net.containsLoop, net.CIDRMaskLoop, ih]

theorem containsLoop_iff (a x : List Nat) (n : Nat) (hlen : x.length = a.length) :
    net.containsLoop a (net.CIDRMaskLoop a.length n) x = true ↔
      ∀ j, j < n → j < 8 * a.length → bitAt x j = bitAt a j := by
  induction a generalizing x n with
  | nil =>
    cases x with
    | nil => simp [net.containsLoop]
    | cons x0 xs => simp at hlen
  | cons a0 as ih =>
    cases x with
    | nil => simp at hlen
    | cons x0 xs =>
      have hl : xs.length = as.length := by simpa using hlen
      rw [List.length_cons]
      unfold net.CIDRMaskLoop
      by_cases h8 : n ≥ 8
      · rw [if_pos h8]
        simp only [net.containsLoop]
        rw [show (if a0 &&& 255 ≠ x0 &&& 255 then false
              else net.containsLoop as (net.CIDRMaskLoop as.length (n - 8)) xs) = true ↔
            (a0 &&& 255 = x0 &&& 255 ∧
              net.containsLoop as (net.CIDRMaskLoop as.length (n - 8)) xs = true) by
          by_cases hb : a0 &&& 255 = x0 &&& 255 <;> simp [hb]]
        rw [ih xs (n - 8) hl, and_eq_iff_bits]
        constructor
        · rintro ⟨hfirst, hrest⟩ j hj hj2
          rcases Nat.lt_or_ge j 8 with hlt | hge
          · rw [bitAt_cons_lt _ _ _ hlt, bitAt_cons_lt _ _ _ hlt]
            exact (hfirst (7 - j) (by rw [ff_testBit]; simp; omega)).symm
          · obtain ⟨k, rfl⟩ : ∃ k, j = k + 8 := ⟨j - 8, by omega⟩
            rw [bitAt_cons_ge, bitAt_cons_ge]
            exact hrest k (by omega) (by omega)
        · intro h
          constructor
          · intro i hi
            rw [ff_testBit] at hi
            have hi8 : i < 8 := by simpa using hi
            have := h (7 - i) (by omega) (by omega)
            rw [bitAt_cons_lt _ _ _ (by omega), bitAt_cons_lt _ _ _ (by omega)] at this
            have e : 7 - (7 - i) = i := by omega
            rw [e] at this
            exact this.symm
          · intro j hj hj2
            have := h (j + 8) (by omega) (by omega)
            rw [bitAt_cons_ge, bitAt_cons_ge] at this
            exact this
      · rw [if_neg h8]
        have hn : n < 8 := by omega
        simp only [net.containsLoop]
        rw [containsLoop_zero_mask]
        rw [show (if a0 &&& (255 - 255 >>> n) ≠ x0 &&& (255 - 255 >>> n) then false else true)
              = true ↔ a0 &&& (255 - 255 >>> n) = x0 &&& (255 - 255 >>> n) by
          by_cases hb : a0 &&& (255 - 255 >>> n) = x0 &&& (255 - 255 >>> n) <;> simp [hb]]
        rw [and_eq_iff_bits]
        constructor
        · intro hfirst j hj hj2
          have hlt : j < 8 := by omega
          rw [bitAt_cons_lt _ _ _ hlt, bitAt_cons_lt _ _ _ hlt]
          exact (hfirst (7 - j) (by rw [maskByte_testBit n hn]; simp; omega)).symm
        · intro h i hi
          rw [maskByte_testBit n hn] at hi
          have hi8 : 8 - n ≤ i ∧ i < 8 := by simpa using hi
          have := h (7 - i) (by omega) (by omega)
          rw [bitAt_cons_lt _ _ _ (by omega), bitAt_cons_lt _ _ _ (by omega)] at this
          have e : 7 - (7 - i) = i := by omega
          rw [e] at this
          exact this.symm

theorem containsLoop_masked (a m x : List Nat) :
    net.containsLoop (List.zipWith (fun p q => p &&& q) a m) m x = net.containsLoop a m x := by
  induction a generalizing m x with
  | nil => cases m <;> cases x <;> simp [net.containsLoop]
  | cons a0 as ih =>
    cases m with
    | nil => cases x <;> simp [net.containsLoop]
    | cons m0 ms =>
      cases x with
      | nil => simp [net.containsLoop]
      | cons x0 xs =>
        simp only [List.zipWith_cons_cons, net.containsLoop, ih]
        rw [Nat.land_assoc, Nat.and_self]

theorem parseIPv4Loop_zero (first : Bool) (s : List Char) (p : List Nat) :
    net.parseIPv4Loop 0 first s p = if s.isEmpty then some p else none := rfl

theorem parseIPv4Loop_succ (k : Nat) (first : Bool) (s : List Char) (p : List Nat) :
    net.parseIPv4Loop (k + 1) first s p =
      if s.isEmpty then none
      else
        match (if first then some s else
                match s with
                | '.' :: t => some t
                | _ => none) with
        | none => none
        | some s1 =>
          match net.dtoi s1 with
          | (n, c, ok) =>
            if !ok || n > 0xFF then none
            else if c > 1 && s1.head? == some '0' then none
            else net.parseIPv4Loop k false (s1.drop c) (p ++ [n]) := rfl

theorem parseIPv4Loop_length (k : Nat) (first : Bool) (s : List Char) (p q : List Nat)
    (h : net.parseIPv4Loop k first s p = some q) : q.length = p.length + k := by
  induction k generalizing first s p with
  | zero =>
    rw [parseIPv4Loop_zero] at h
    split at h
    · cases h; rfl
    · cases h
  | succ k ih =>
    rw [parseIPv4Loop_succ] at h
    split at h
    · cases h
    · split at h
      · cases h
      · split at h
        split at h
        · cases h
        · split at h
          · cases h
          · have := ih _ _ _ h
            simp at this
            omega

theorem parseIPv4Loop_dot (k : Nat) (s : List Char) (p q : List Nat)
    (h : net.parseIPv4Loop (k + 1) false s p = some q) : '.' ∈ s := by
  rw [parseIPv4Loop_succ] at h
  split at h
  · cases h
  · split at h
    · cases h
    · rename_i s1 hs1
      simp only [Bool.false_eq_true, if_false] at hs1
      split at hs1
      · simp
      · cases hs1

theorem parseIPv4_some (s : List Char) (ip : net.IP) (h : net.parseIPv4 s = some ip) :
    (∃ p, ip = net.v4InV6Prefix ++ p ∧ p.length = 4) ∧ '.' ∈ s := by
  unfold net.parseIPv4 at h
  split at h
  · rename_i p hp
    cases h
    refine ⟨⟨p, rfl, ?_⟩, ?_⟩
    · have := parseIPv4Loop_length _ _ _ _ _ hp
      simpa using this
    · rw [parseIPv4Loop_succ] at hp
      split at hp
      · cases hp
      · split at hp
        · cases hp
        · rename_i s1 hs1
          simp only [if_true] at hs1
          cases hs1
          split at hp
          split at hp
          · cases hp
          · split at hp
            · cases hp
            · exact List.mem_of_mem_drop (parseIPv4Loop_dot _ _ _ _ hp)
  · cases h

theorem parseIPv4Loop_bytes (k : Nat) (first : Bool) (s : List Char) (p q : List Nat)
    (h : net.parseIPv4Loop k first s p = some q) (hp : ∀ b ∈ p, b < 256) :
    ∀ b ∈ q, b < 256 := by
  induction k generalizing first s p with
  | zero =>
    rw [parseIPv4Loop_zero] at h
    split at h
    · cases h; exact hp
    · cases h
  | succ k ih =>
    rw [parseIPv4Loop_succ] at h
    split at h
    · cases h
    · split at h
      · cases h
      · split at h
        rename_i n c ok hd
        split at h
        · cases h
        · rename_i hok
          split at h
          · cases h
          · apply ih _ _ _ h
            intro b hb
            rcases List.mem_append.mp hb with hb | hb
            · exact hp b hb
            · simp only [List.mem_singleton] at hb
              subst hb
              simp only [Bool.or_eq_true, Bool.not_eq_true', decide_eq_true_eq, not_or] at hok
              omega

theorem parseIPv4_bytes (s : List Char) (ip : net.IP) (h : net.parseIPv4 s = some ip) :
    ∀ b ∈ ip, b < 256 := by
  unfold net.parseIPv4 at h
  split at h
  · rename_i p hp
    cases h
    intro b hb
    rcases List.mem_append.mp hb with hb | hb
    · have hpre : ∀ c ∈ net.v4InV6Prefix, c < 256 := by decide
      exact hpre b hb
    · exact parseIPv4Loop_bytes _ _ _ _ _ hp (by simp) b hb
  · cases h

theorem parseIPv6Loop_zero (st : net.V6State) : net.parseIPv6Loop 0 st = some st := rfl

theorem parseIPv6Loop_succ (k : Nat) (st : net.V6State) :
    net.parseIPv6Loop (k + 1) st =
      match net.xtoi st.rest with
      | (n, c, ok) =>
        if !ok || n > 0xFFFF then none
        else if c < st.rest.length && st.rest.getD c ' ' == '.' then
          if st.ellipsis.isNone && st.bytes.length ≠ net.IPv6len - net.IPv4len then none
          else if st.bytes.length + net.IPv4len > net.IPv6len then none
          else
            match net.parseIPv4 st.rest with
            | none => none
            | some ip4 =>
              some { bytes := st.bytes ++ ip4.drop 12, ellipsis := st.ellipsis, rest := [] }
        else
          let bytes := st.bytes ++ [n / 256 % 256, n % 256]
          match st.rest.drop c with
          | [] => some { bytes := bytes, ellipsis := st.ellipsis, rest := [] }
          | [_] => none
          | c0 :: c1 :: t =>
            if c0 ≠ ':' then none
            else if c1 = ':' then
              if st.ellipsis.isSome then none
              else if t.isEmpty then
                some { bytes := bytes, ellipsis := some bytes.length, rest := [] }
              else net.parseIPv6Loop k { bytes := bytes, ellipsis := some bytes.length, rest := t }
            else net.parseIPv6Loop k { bytes := bytes, ellipsis := st.ellipsis, rest := c1 :: t } :=
  rfl

theorem parseIPv6Loop_inv (k : Nat) (st st1 : net.V6State)
    (h : net.parseIPv6Loop k st = some st1)
    (hlen : st.bytes.length + 2 * k ≤ 16) (hb : ∀ b ∈ st.bytes, b < 256) :
    st1.bytes.length ≤ 16 ∧ ∀ b ∈ st1.bytes, b < 256 := by
  induction k generalizing st with
  | zero =>
    rw [parseIPv6Loop_zero] at h
    cases h
    exact ⟨by omega, hb⟩
  | succ k ih =>
    rw [parseIPv6Loop_succ] at h
    split at h
    rename_i n c ok hx
    split at h
    · cases h
    · split at h
      · split at h
        · cases h
        · split at h
          · cases h
          · rename_i hroom
            split at h
            · cases h
            · rename_i ip4 hip4
              cases h
              obtain ⟨⟨p, rfl, hp4⟩, _⟩ := parseIPv4_some _ _ hip4
              have hbytes := parseIPv4_bytes _ _ hip4
              simp only [net.IPv4len, net.IPv6len, gt_iff_lt, not_lt] at hroom
              have hd : (net.v4InV6Prefix ++ p).drop 12 = p := by
                simp [net.v4InV6Prefix]
              rw [hd]
              refine ⟨by simp; omega, ?_⟩
              intro b hbm
              rcases List.mem_append.mp hbm with hbm | hbm
              · exact hb b hbm
              · exact hbytes b (List.mem_append_right _ hbm)
      · have hb2 : ∀ b ∈ st.bytes ++ [n / 256 % 256, n % 256], b < 256 := by
          intro b hbm
          rcases List.mem_append.mp hbm with hbm | hbm
          · exact hb b hbm
          · simp only [List.mem_cons, List.mem_singleton, List.not_mem_nil, or_false] at hbm
            rcases hbm with rfl | rfl <;> omega
        have hl2 : (st.bytes ++ [n / 256 % 256, n % 256]).length + 2 * k ≤ 16 := by
          simp
          omega
        simp only at h
        split at h
        · cases h
          exact ⟨by simp; omega, hb2⟩
        · cases h
        · split at h
          · cases h
          · split at h
            · split at h
              · cases h
              · split at h
                · cases h
                  exact ⟨by simp; omega, hb2⟩
                · exact ih _ h hl2 hb2
            · exact ih _ h hl2 hb2

theorem parseIPv6Finish_some (st : net.V6State) (ip : net.IP)
    (h : net.parseIPv6Finish st = some ip)
    (hlen : st.bytes.length ≤ 16) (hb : ∀ b ∈ st.bytes, b < 256) :
    ip.length = 16 ∧ ∀ b ∈ ip, b < 256 := by
  unfold net.parseIPv6Finish at h
  split at h
  · cases h
  · split at h
    · rename_i hlt
      split at h
      · cases h
      · rename_i e he
        cases h
        simp only [net.IPv6len] at hlt ⊢
        constructor
        · have h1 := List.length_take (i := e) (l := st.bytes)
          have h2 := List.length_drop (i := e) (l := st.bytes)
          simp only [List.length_append, List.length_replicate, h1, h2]
          omega
        · intro b hbm
          rcases List.mem_append.mp hbm with hbm | hbm
          · rcases List.mem_append.mp hbm with hbm | hbm
            · exact hb b (List.mem_of_mem_take hbm)
            · rw [List.mem_replicate] at hbm
              omega
          · exact hb b (List.mem_of_mem_drop hbm)
    · rename_i hge
      split at h
      · cases h
      · cases h
        simp only [net.IPv6len, not_lt] at hge
        exact ⟨by omega, hb⟩

theorem parseIPv6_some (s : List Char) (ip : net.IP) (h : net.parseIPv6 s = some ip) :
    ip.length = 16 ∧ ∀ b ∈ ip, b < 256 := by
  unfold net.parseIPv6 at h
  split at h
  · cases h
    refine ⟨rfl, ?_⟩
    intro b hbm
    rw [List.mem_replicate] at hbm
    omega
  · split at h
    · cases h
    · rename_i st hst
      have := parseIPv6Loop_inv 8 _ st hst (by simp) (by simp)
      exact parseIPv6Finish_some st ip h this.1 this.2
  · split at h
    · cases h
    · rename_i st hst
      have := parseIPv6Loop_inv 8 _ st hst (by simp) (by simp)
      exact parseIPv6Finish_some st ip h this.1 this.2

theorem splitSlash_some (l a m : List Char) (h : net.splitSlash l = some (a, m)) :
    l = a ++ '/' :: m := by
  induction l generalizing a with
  | nil => simp [net.splitSlash] at h
  | cons c cs ih =>
    unfold net.splitSlash at h
    split at h
    · rename_i hc
      cases h
      simp [hc]
    · split at h
      · rename_i a1 m1 hrec
        cases h
        rw [ih a1 hrec]
        rfl
      · cases h

theorem splitSlash_append (l m : List Char) (h : '/' ∉ l) :
    net.splitSlash (l ++ '/' :: m) = some (l, m) := by
  induction l with
  | nil => simp [net.splitSlash]
  | cons c cs ih =>
    have hc : c ≠ '/' := fun e => h (by simp [e])
    have hcs : '/' ∉ cs := fun e => h (List.mem_cons_of_mem _ e)
    rw [List.cons_append]
    unfold net.splitSlash
    rw [if_neg hc, ih hcs]

theorem containsSlash_of_split (s : String) (a m : List Char)
    (h : net.splitSlash s.toList = some (a, m)) : containsSlash s = true := by
  unfold containsSlash
  rw [splitSlash_some _ _ _ h]
  simp

theorem Mask_v4 (p m : List Nat) (hp : p.length = 4) (hm : m.length = 4) :
    net.Mask (net.v4InV6Prefix ++ p) m = List.zipWith (fun a b => a &&& b) p m := by
  obtain ⟨a, b, c, d, rfl⟩ := list_length_four p hp
  obtain ⟨e, f, g, h, rfl⟩ := list_length_four m hm
  simp [net.Mask, net.v4InV6Prefix, net.IPv4len, net.IPv6len]

theorem Mask_v6 (ip m : List Nat) (hp : ip.length = 16) (hm : m.length = 16) :
    net.Mask ip m = List.zipWith (fun a b => a &&& b) ip m := by
  simp [net.Mask, net.IPv4len, net.IPv6len, hp, hm]

theorem CIDRMask_32 (n : Nat) (h : n ≤ 32) : net.CIDRMask n 32 = net.CIDRMaskLoop 4 n := by
  unfold net.CIDRMask
  simp [net.IPv4len, net.IPv6len]
  omega

theorem CIDRMask_128 (n : Nat) (h : n ≤ 128) : net.CIDRMask n 128 = net.CIDRMaskLoop 16 n := by
  unfold net.CIDRMask
  simp [net.IPv4len, net.IPv6len]
  omega

theorem To4_length (x x4 : net.IP) (h : net.To4 x = some x4) : x4.length = 4 := by
  unfold net.To4 at h
  split at h
  · rename_i h4
    cases h
    exact h4
  · split at h
    · rename_i h16
      cases h
      simp only [Bool.and_eq_true, decide_eq_true_eq] at h16
      have := h16.1.1.1
      simp only [net.IPv6len] at this
      simp [this]
    · cases h

theorem To4_none_length (x : net.IP) (h : net.To4 x = none) : x.length ≠ 4 := by
  intro h4
  simp [net.To4, net.IPv4len, h4] at h

/-- A dotted-quad range `addr/n`: the value `parseIpNet` returns and its containment test. -/
theorem parseIpNet_v4 (s : String) (addr mask : List Char) (ip : net.IP) (n : Nat)
    (hs : net.splitSlash s.toList = some (addr, mask))
    (hip : net.parseIPv4 addr = some ip)
    (hn : net.dtoi mask = (n, mask.length, true))
    (hle : n ≤ 32) :
    ∃ r : iplib.Net, parseIpNet s = some r ∧ r.Version = 4 ∧ net.Size r.Mask = (n, 32) ∧
      (∀ x x4, net.To4 x = some x4 → (r.Contains x = true ↔ samePrefix n x4 (ip.drop 12))) ∧
      (∀ x, net.To4 x = none → r.Contains x = false) := by
  obtain ⟨⟨p, rfl, hp4⟩, hdot⟩ := parseIPv4_some addr ip hip
  have hm4 : (net.CIDRMask n 32).length = 4 := by
    rw [CIDRMask_32 n hle, CIDRMaskLoop_length]
  have hcs : containsSlash s = true := containsSlash_of_split s addr mask hs
  have hpc : net.ParseCIDR s = some (net.v4InV6Prefix ++ p,
      { IP := net.Mask (net.v4InV6Prefix ++ p) (net.CIDRMask n 32),
        Mask := net.CIDRMask n 32 }) := by
    unfold net.ParseCIDR
    rw [hs]
    simp only [hip, hn, net.IPv4len]
    simp
    omega
  have hd : s.toList.contains '.' = true := by
    rw [splitSlash_some _ _ _ hs]
    simp [hdot]
  have hic : iplib.ParseCIDR s = some (.v4
      { IPNet := { IP := List.zipWith (fun a b => a &&& b) p (net.CIDRMask n 32),
                   Mask := net.CIDRMask n 32 } }) := by
    unfold iplib.ParseCIDR
    rw [hpc]
    simp only [hd, if_true, Size_CIDRMask_32 n hle]
    unfold iplib.NewNet4
    rw [if_neg (by omega), Mask_v4 p _ hp4 hm4]
  have hzl : (List.zipWith (fun a b => a &&& b) p (net.CIDRMask n 32)).length = 4 := by
    simp [hp4, hm4]
  have hne : List.zipWith (fun a b => a &&& b) p (net.CIDRMask n 32) ≠ [] := by
    intro e
    rw [e] at hzl
    simp at hzl
  refine ⟨.v4 { IPNet := { IP := List.zipWith (fun a b => a &&& b) p (net.CIDRMask n 32),
                           Mask := net.CIDRMask n 32 } }, ?_, rfl, ?_, ?_, ?_⟩
  · unfold parseIpNet
    simp only [hcs, Bool.not_true, Bool.false_eq_true, if_false]
    unfold iplib.Net4FromStr
    rw [hic]
    simp only
    rw [if_neg hne]
  · exact Size_CIDRMask_32 n hle
  · intro x x4 hx
    have hx4 := To4_length x x4 hx
    have hd12 : (net.v4InV6Prefix ++ p).drop 12 = p := by simp [net.v4InV6Prefix]
    rw [hd12]
    have hnn : net.networkNumberAndMask
        { IP := List.zipWith (fun a b => a &&& b) p (net.CIDRMask n 32),
          Mask := net.CIDRMask n 32 } =
        (List.zipWith (fun a b => a &&& b) p (net.CIDRMask n 32), net.CIDRMask n 32) := by
      simp [net.networkNumberAndMask, net.To4, net.IPv4len, hzl, hm4]
    simp only [iplib.Net.Contains, net.IPNet.Contains, hnn, hx]
    rw [if_neg (by rw [hx4, hzl]; simp), containsLoop_masked, CIDRMask_32 n hle]
    have key := containsLoop_iff p x4 n (by rw [hx4, hp4])
    rw [hp4] at key
    rw [key]
    unfold samePrefix
    constructor
    · intro h j hj
      exact h j hj (by omega)
    · intro h j hj _
      exact h j hj
  · intro x hx
    have hx4 := To4_none_length x hx
    have hnn : net.networkNumberAndMask
        { IP := List.zipWith (fun a b => a &&& b) p (net.CIDRMask n 32),
          Mask := net.CIDRMask n 32 } =
        (List.zipWith (fun a b => a &&& b) p (net.CIDRMask n 32), net.CIDRMask n 32) := by
      simp [net.networkNumberAndMask, net.To4, net.IPv4len, hzl, hm4]
    simp only [iplib.Net.Contains, net.IPNet.Contains, hnn, hx]
    rw [if_pos (by rw [hzl]; exact hx4)]

theorem dtoiLoop_digits (s : List Char) (n0 i0 n i : Nat)
    (h : net.dtoiLoop s n0 i0 = (n, i, true)) :
    i ≤ i0 + s.length ∧ (i = i0 + s.length → ∀ c ∈ s, 48 ≤ c.toNat ∧ c.toNat ≤ 57) := by
  induction s generalizing n0 i0 with
  | nil =>
    simp only [net.dtoiLoop, Prod.mk.injEq, and_true] at h
    obtain ⟨_, rfl⟩ := h
    simp
  | cons c cs ih =>
    unfold net.dtoiLoop at h
    split at h
    · rename_i hc
      split at h
      · simp at h
      · obtain ⟨h1, h2⟩ := ih _ _ h
        refine ⟨by simp only [List.length_cons]; omega, ?_⟩
        intro hi d hd
        rcases List.mem_cons.mp hd with rfl | hd
        · exact hc
        · exact h2 (by simp only [List.length_cons] at hi; omega) d hd
    · simp only [Prod.mk.injEq, and_true] at h
      obtain ⟨_, rfl⟩ := h
      refine ⟨by omega, ?_⟩
      intro hi
      simp only [List.length_cons] at hi
      omega

theorem dtoi_no_dot (mask : List Char) (n : Nat) (h : net.dtoi mask = (n, mask.length, true)) :
    '.' ∉ mask := by
  unfold net.dtoi at h
  split at h
  rename_i n1 i1 ok hl
  split at h
  · simp at h
  · rename_i hok
    simp only [Bool.not_eq_true', Bool.not_eq_false] at hok
    subst hok
    split at h
    · simp at h
    · simp only [Prod.mk.injEq, and_true] at h
      obtain ⟨_, rfl⟩ := h
      obtain ⟨_, h2⟩ := dtoiLoop_digits mask 0 0 n1 mask.length hl
      intro hmem
      have := h2 (by omega) '.' hmem
      revert this
      decide

theorem mask16_byte11 : ∀ k, k < 129 →
    ((net.CIDRMaskLoop 16 k).getD 11 0 = 255 ∨
      ((net.CIDRMaskLoop 16 k).getD 11 0).testBit 0 = false) ∧
    ((net.CIDRMaskLoop 16 k).getD 11 0 = 255 →
      (net.CIDRMaskLoop 16 k).take 12 = List.replicate 12 255) := by
  decide

theorem To4_masked_none (ip : net.IP) (n : Nat) (hlen : ip.length = 16)
    (hb : ∀ b ∈ ip, b < 256) (h4 : net.To4 ip = none) (hn : n ≤ 128) :
    net.To4 (List.zipWith (fun a b => a &&& b) ip (net.CIDRMaskLoop 16 n)) = none := by
  obtain ⟨a0, a1, a2, a3, a4, a5, a6, a7, a8, a9, a10, a11, a12, a13, a14, a15, rfl⟩ :=
    list_length_sixteen ip hlen
  obtain ⟨m0, m1, m2, m3, m4, m5, m6, m7, m8, m9, m10, m11, m12, m13, m14, m15, hm⟩ :=
    list_length_sixteen (net.CIDRMaskLoop 16 n) (CIDRMaskLoop_length 16 n)
  have hfact := mask16_byte11 n (by omega)
  rw [hm] at hfact ⊢
  simp only [List.getD_cons_succ, List.getD_cons_zero] at hfact
  obtain ⟨hf1, hf2⟩ := hfact
  cases hres : net.To4 (List.zipWith (fun a b => a &&& b)
      [a0, a1, a2, a3, a4, a5, a6, a7, a8, a9, a10, a11, a12, a13, a14, a15]
      [m0, m1, m2, m3, m4, m5, m6, m7, m8, m9, m10, m11, m12, m13, m14, m15]) with
  | none => rfl
  | some v =>
    exfalso
    simp only [net.To4, List.zipWith_cons_cons, List.zipWith_nil_right, List.length_cons,
      List.length_nil, net.IPv4len, net.IPv6len, net.isZeros, List.take, List.all_cons,
      List.all_nil, List.getD_cons_succ, List.getD_cons_zero] at hres
    simp only [Nat.reduceAdd, Nat.reduceEqDiff, if_false, decide_True, Bool.true_and,
      Bool.and_true, Bool.and_eq_true, beq_iff_eq, Option.ite_none_right_eq_some] at hres
    obtain ⟨⟨⟨⟨h0, h1, h2, h3, h4', h5, h6, h7, h8, h9⟩, h10⟩, h11⟩, _⟩ := hres
    have hm11 : m11 = 255 := by
      rcases hf1 with e | e
      · exact e
      · have : (a11 &&& m11).testBit 0 = true := by rw [h11]; decide
        rw [Nat.testBit_and, e] at this
        simp at this
    have hall := hf2 hm11
    simp only [List.take, List.replicate, List.cons.injEq, and_true] at hall
    obtain ⟨e0, e1, e2, e3, e4, e5, e6, e7, e8, e9, e10, e11⟩ := hall
    subst e0 e1 e2 e3 e4 e5 e6 e7 e8 e9 e10 e11
    have hand : ∀ a, a < 256 → a &&& 255 = a := fun a ha =>
      Nat.and_pow_two_sub_one_of_lt_two_pow (n := 8) ha
    rw [hand a0 (hb a0 (by simp))] at h0
    rw [hand a1 (hb a1 (by simp))] at h1
    rw [hand a2 (hb a2 (by simp))] at h2
    rw [hand a3 (hb a3 (by simp))] at h3
    rw [hand a4 (hb a4 (by simp))] at h4'
    rw [hand a5 (hb a5 (by simp))] at h5
    rw [hand a6 (hb a6 (by simp))] at h6
    rw [hand a7 (hb a7 (by simp))] at h7
    rw [hand a8 (hb a8 (by simp))] at h8
    rw [hand a9 (hb a9 (by simp))] at h9
    rw [hand a10 (hb a10 (by simp))] at h10
    rw [hand a11 (hb a11 (by simp))] at h11
    subst h0 h1 h2 h3 h4' h5 h6 h7 h8 h9 h10 h11
    simp [net.To4, net.IPv4len, net.IPv6len, net.isZeros] at h4

/-- A colon-hexadecimal range `addr/n`: the value `parseIpNet` returns and its
containment test. -/
theorem parseIpNet_v6 (s : String) (addr mask : List Char) (ip : net.IP) (n : Nat)
    (hs : net.splitSlash s.toList = some (addr, mask))
    (hnd : '.' ∉ addr)
    (hip : net.parseIPv6 addr = some ip)
    (h4 : net.To4 ip = none)
    (hn : net.dtoi mask = (n, mask.length, true))
    (hle : n ≤ 128) :
    ∃ r : iplib.Net, parseIpNet s = some r ∧ r.Version = 6 ∧ net.Size r.Mask = (n, 128) ∧
      (∀ x, x.length = 16 → net.To4 x = none →
        (r.Contains x = true ↔ samePrefix n x ip)) ∧
      (∀ x x4, net.To4 x = some x4 → r.Contains x = false) := by
  obtain ⟨hlen, hbytes⟩ := parseIPv6_some addr ip hip
  have hp4 : net.parseIPv4 addr = none := by
    cases h : net.parseIPv4 addr with
    | none => rfl
    | some v => exact absurd (parseIPv4_some addr v h).2 hnd
  have hm16 : (net.CIDRMask n 128).length = 16 := by
    rw [CIDRMask_128 n hle, CIDRMaskLoop_length]
  have hcs : containsSlash s = true := containsSlash_of_split s addr mask hs
  have hpc : net.ParseCIDR s = some (ip,
      { IP := net.Mask ip (net.CIDRMask n 128), Mask := net.CIDRMask n 128 }) := by
    unfold net.ParseCIDR
    rw [hs]
    simp only [hip, hp4, hn, net.IPv6len]
    simp
    omega
  have hd : s.toList.contains '.' = false := by
    rw [splitSlash_some _ _ _ hs]
    have hmd := dtoi_no_dot mask n hn
    simp [hnd, hmd]
  have hv : iplib.Version ip = 6 := by
    simp [iplib.Version, hlen, net.IPv4len]
  have hnew : iplib.NewNet6 ip n 0 =
      { IPNet := { IP := List.zipWith (fun a b => a &&& b) ip (net.CIDRMask n 128),
                   Mask := net.CIDRMask n 128 } } := by
    unfold iplib.NewNet6
    rw [if_neg (by rw [hv]; simp), Mask_v6 ip _ hlen hm16]
    split
    · rfl
    · rw [if_neg (by omega)]
  have hic : iplib.ParseCIDR s = some (.v6
      { IPNet := { IP := List.zipWith (fun a b => a &&& b) ip (net.CIDRMask n 128),
                   Mask := net.CIDRMask n 128 } }) := by
    unfold iplib.ParseCIDR
    rw [hpc]
    simp only [hd, Bool.false_eq_true, if_false, Size_CIDRMask_128 n hle, hnew]
  have hzl : (List.zipWith (fun a b => a &&& b) ip (net.CIDRMask n 128)).length = 16 := by
    simp [hlen, hm16]
  have hne : List.zipWith (fun a b => a &&& b) ip (net.CIDRMask n 128) ≠ [] := by
    intro e
    rw [e] at hzl
    simp at hzl
  have hto : net.To4 (List.zipWith (fun a b => a &&& b) ip (net.CIDRMask n 128)) = none := by
    rw [CIDRMask_128 n hle]
    exact To4_masked_none ip n hlen hbytes h4 hle
  have hnn : net.networkNumberAndMask
      { IP := List.zipWith (fun a b => a &&& b) ip (net.CIDRMask n 128),
        Mask := net.CIDRMask n 128 } =
      (List.zipWith (fun a b => a &&& b) ip (net.CIDRMask n 128), net.CIDRMask n 128) := by
    simp [net.networkNumberAndMask, hto, net.IPv4len, net.IPv6len, hzl, hm16]
  refine ⟨.v6 { IPNet := { IP := List.zipWith (fun a b => a &&& b) ip (net.CIDRMask n 128),
                           Mask := net.CIDRMask n 128 } }, ?_, rfl, ?_, ?_, ?_⟩
  · unfold parseIpNet
    simp only [hcs, Bool.not_true, Bool.false_eq_true, if_false]
    unfold iplib.Net4FromStr iplib.Net6FromStr
    rw [hic]
    simp only [if_true]
    rw [if_neg hne]
  · exact Size_CIDRMask_128 n hle
  · intro x hx16 hx4
    simp only [iplib.Net.Contains, net.IPNet.Contains, hnn, hx4]
    rw [if_neg (by rw [hx16, hzl]; simp), containsLoop_masked, CIDRMask_128 n hle]
    have key := containsLoop_iff ip x n (by rw [hx16, hlen])
    rw [hlen] at key
    rw [key]
    unfold samePrefix
    constructor
    · intro h j hj
      exact h j hj (by omega)
    · intro h j hj _
      exact h j hj
  · intro x x4 hx
    have hx4 := To4_length x x4 hx
    simp only [iplib.Net.Contains, net.IPNet.Contains, hnn, hx]
    rw [if_pos (by rw [hx4, hzl]; simp)]

/-- A string that is neither an address nor a range in CIDR notation is an error. -/
theorem parseIpNet_invalid (s : String)
    (h4 : net.parseIPv4 s.toList = none) (h6 : net.parseIPv6 s.toList = none)
    (hc : net.ParseCIDR s = none) : parseIpNet s = none := by
  have key : ∀ d : String, net.ParseCIDR d = none →
      (let _net := iplib.Net4FromStr d
       if _net.IPNet.IP = [] then
         let _net6 := iplib.Net6FromStr d
         if _net6.IPNet.IP = [] then none else some (iplib.Net.v6 _net6)
       else some (iplib.Net.v4 _net)) = none := by
    intro d hd
    simp [iplib.Net4FromStr, iplib.Net6FromStr, iplib.ParseCIDR, hd]
  unfold parseIpNet
  by_cases hcs : containsSlash s = true
  · simp only [hcs, Bool.not_true, Bool.false_eq_true, if_false]
    exact key s hc
  · simp only [hcs, Bool.not_false, if_true]
    apply key
    unfold net.ParseCIDR
    have hno : '/' ∉ s.toList := by
      simpa [containsSlash] using hcs
    have : (s ++ "/32").toList = s.toList ++ '/' :: ['3', '2'] := by
      show (s ++ "/32").data = s.data ++ _
      rw [String.data_append]
    rw [this, splitSlash_append _ _ hno]
    simp only [h4, h6]

theorem byte_eq_of_bits (a x : Nat) (ha : a < 256) (hx : x < 256)
    (h : ∀ i, i < 8 → x.testBit i = a.testBit i) : x = a := by
  apply Nat.eq_of_testBit_eq
  intro i
  rcases Nat.lt_or_ge i 8 with hi | hi
  · exact h i hi
  · have h2 : 2 ^ 8 ≤ 2 ^ i := Nat.pow_le_pow_right (by decide) hi
    rw [Nat.testBit_lt_two_pow (by omega : x < 2 ^ i),
      Nat.testBit_lt_two_pow (by omega : a < 2 ^ i)]

theorem samePrefix_all (x a : List Nat) (hl : x.length = a.length)
    (hx : ∀ b ∈ x, b < 256) (ha : ∀ b ∈ a, b < 256) :
    samePrefix (8 * a.length) x a ↔ x = a := by
  constructor
  · intro h
    induction a generalizing x with
    | nil =>
      cases x with
      | nil => rfl
      | cons x0 xs => simp at hl
    | cons a0 as ih =>
      cases x with
      | nil => simp at hl
      | cons x0 xs =>
        have h0 : x0 = a0 := by
          apply byte_eq_of_bits a0 x0 (ha a0 (by simp)) (hx x0 (by simp))
          intro i hi
          have := h (7 - i) (by simp only [List.length_cons]; omega)
          rw [bitAt_cons_lt _ _ _ (by omega), bitAt_cons_lt _ _ _ (by omega)] at this
          have e : 7 - (7 - i) = i := by omega
          rw [e] at this
          exact this
        have hrest : xs = as := by
          apply ih xs (by simpa using hl) (fun b hb => hx b (List.mem_cons_of_mem _ hb))
            (fun b hb => ha b (List.mem_cons_of_mem _ hb))
          intro j hj
          have := h (j + 8) (by simp only [List.length_cons]; omega)
          rw [bitAt_cons_ge, bitAt_cons_ge] at this
          exact this
        rw [h0, hrest]
  · intro h j _
    rw [h]

/-- A bare dotted quad: `parseIpNet` returns the range of prefix length 32 that
contains exactly the written address. -/
theorem parseIpNet_bare_v4 (s : String) (ip : net.IP)
    (hno : containsSlash s = false) (hip : net.parseIPv4 s.toList = some ip) :
    ∃ r : iplib.Net, parseIpNet s = some r ∧ ParseIpNet s = some r ∧ r.Version = 4 ∧
      net.Size r.Mask = (32, 32) ∧
      (∀ x x4, net.To4 x = some x4 → (∀ b ∈ x4, b < 256) →
        (r.Contains x = true ↔ x4 = ip.drop 12)) ∧
      (∀ x, net.To4 x = none → r.Contains x = false) := by
  have hsl : '/' ∉ s.toList := by
    simpa [containsSlash] using hno
  have hlist : (s ++ "/32").toList = s.toList ++ '/' :: ['3', '2'] := by
    show (s ++ "/32").data = s.data ++ _
    rw [String.data_append]
  have hs : net.splitSlash (s ++ "/32").toList = some (s.toList, ['3', '2']) := by
    rw [hlist, splitSlash_append _ _ hsl]
  obtain ⟨r, hr, hv, hsz, hc, hc2⟩ :=
    parseIpNet_v4 (s ++ "/32") s.toList ['3', '2'] ip 32 hs hip (by decide) (by decide)
  have hcs : containsSlash (s ++ "/32") = true := containsSlash_of_split _ _ _ hs
  have heq : parseIpNet s = parseIpNet (s ++ "/32") := by
    unfold parseIpNet
    simp only [hno, hcs, Bool.not_false, Bool.not_true, if_true, Bool.false_eq_true, if_false]
  obtain ⟨⟨p, hp, hp4⟩, _⟩ := parseIPv4_some _ _ hip
  have hpb : ∀ b ∈ ip.drop 12, b < 256 :=
    fun b hb => parseIPv4_bytes _ _ hip b (List.mem_of_mem_drop hb)
  have hpl : (ip.drop 12).length = 4 := by
    rw [hp]
    simp [net.v4InV6Prefix, hp4]
  refine ⟨r, heq.trans hr, heq.trans hr, hv, hsz, ?_, hc2⟩
  intro x x4 hx hxb
  rw [hc x x4 hx]
  have := samePrefix_all x4 (ip.drop 12) (by rw [To4_length x x4 hx, hpl]) hxb hpb
  rw [hpl] at this
  exact this

/-! ## `net.ParseIP` and the two address parsers -/

theorem dtoiLoop_split (s : List Char) (n0 i0 n i : Nat)
    (h : net.dtoiLoop s n0 i0 = (n, i, true)) :
    ∃ a b, s = a ++ b ∧ i = i0 + a.length ∧ (∀ c ∈ a, 48 ≤ c.toNat ∧ c.toNat ≤ 57) := by
  induction s generalizing n0 i0 with
  | nil =>
    simp only [net.dtoiLoop, Prod.mk.injEq, and_true] at h
    exact ⟨[], [], rfl, by simp [h.2], by simp⟩
  | cons c cs ih =>
    unfold net.dtoiLoop at h
    split at h
    · rename_i hc
      split at h
      · simp at h
      · obtain ⟨a, b, hab, hi, hd⟩ := ih _ _ h
        refine ⟨c :: a, b, by rw [hab]; rfl, by simp only [List.length_cons]; omega, ?_⟩
        intro d hdm
        rcases List.mem_cons.mp hdm with rfl | hdm
        · exact hc
        · exact hd d hdm
    · simp only [Prod.mk.injEq, and_true] at h
      exact ⟨[], c :: cs, rfl, by simp [h.2], by simp⟩

theorem dtoi_split (s : List Char) (n i : Nat) (h : net.dtoi s = (n, i, true)) :
    ∃ a b, s = a ++ b ∧ i = a.length ∧ (∀ c ∈ a, 48 ≤ c.toNat ∧ c.toNat ≤ 57) := by
  unfold net.dtoi at h
  split at h
  rename_i n1 i1 ok hl
  split at h
  · simp at h
  · rename_i hok
    simp only [Bool.not_eq_true', Bool.not_eq_false] at hok
    subst hok
    split at h
    · simp at h
    · simp only [Prod.mk.injEq, and_true] at h
      obtain ⟨_, rfl⟩ := h
      obtain ⟨a, b, hab, hi, hd⟩ := dtoiLoop_split s 0 0 n1 i1 hl
      exact ⟨a, b, hab, by omega, hd⟩

theorem parseIPv4Loop_chars (k : Nat) (first : Bool) (s : List Char) (p q : List Nat)
    (h : net.parseIPv4Loop k first s p = some q) :
    ∀ c ∈ s, (48 ≤ c.toNat ∧ c.toNat ≤ 57) ∨ c = '.' := by
  induction k generalizing first s p with
  | zero =>
    rw [parseIPv4Loop_zero] at h
    split at h
    · rename_i he
      have : s = [] := by simpa using he
      rw [this]
      simp
    · cases h
  | succ k ih =>
    rw [parseIPv4Loop_succ] at h
    split at h
    · cases h
    · split at h
      · cases h
      · rename_i s1 hs1
        split at h
        rename_i n c ok hd
        split at h
        · cases h
        · rename_i hok
          split at h
          · cases h
          · have hokt : ok = true := by
              simp only [Bool.or_eq_true, Bool.not_eq_true', decide_eq_true_eq, not_or] at hok
              simpa using hok.1
            subst hokt
            obtain ⟨a, b, hab, hc, hdig⟩ := dtoi_split s1 n c hd
            have hrest := ih _ _ _ h
            have hs1chars : ∀ d ∈ s1, (48 ≤ d.toNat ∧ d.toNat ≤ 57) ∨ d = '.' := by
              intro d hdm
              rw [hab] at hdm
              rcases List.mem_append.mp hdm with hdm | hdm
              · exact Or.inl (hdig d hdm)
              · apply hrest
                rw [hab, hc, List.drop_left]
                exact hdm
            split at hs1
            · cases hs1
              exact hs1chars
            · split at hs1
              · cases hs1
                intro d hdm
                rcases List.mem_cons.mp hdm with rfl | hdm
                · exact Or.inr rfl
                · exact hs1chars d hdm
              · cases hs1

theorem parseIPv4_no_colon (s : List Char) (ip : net.IP) (h : net.parseIPv4 s = some ip) :
    ':' ∉ s := by
  unfold net.parseIPv4 at h
  split at h
  · rename_i p hp
    intro hmem
    have := parseIPv4Loop_chars _ _ _ _ _ hp ':' hmem
    revert this
    decide
  · cases h

theorem xtoiLoop_split (s : List Char) (n0 i0 n i : Nat)
    (h : net.xtoiLoop s n0 i0 = (n, i, true)) :
    ∃ a b, s = a ++ b ∧ i = i0 + a.length ∧ (∀ c ∈ a, (net.hexVal c).isSome = true) ∧
      (∀ c t, b = c :: t → net.hexVal c = none) := by
  induction s generalizing n0 i0 with
  | nil =>
    simp only [net.xtoiLoop, Prod.mk.injEq, and_true] at h
    exact ⟨[], [], rfl, by simp [h.2], by simp, by simp⟩
  | cons c cs ih =>
    unfold net.xtoiLoop at h
    split at h
    · rename_i d hc
      split at h
      · simp at h
      · obtain ⟨a, b, hab, hi, hd, hb⟩ := ih _ _ h
        refine ⟨c :: a, b, by rw [hab]; rfl, by simp only [List.length_cons]; omega, ?_, hb⟩
        intro e hem
        rcases List.mem_cons.mp hem with rfl | hem
        · rw [hc]
          rfl
        · exact hd e hem
    · rename_i hc
      simp only [Prod.mk.injEq, and_true] at h
      refine ⟨[], c :: cs, rfl, by simp [h.2], by simp, ?_⟩
      intro c2 t e
      cases e
      exact hc

theorem xtoi_split (s : List Char) (n i : Nat) (h : net.xtoi s = (n, i, true)) :
    ∃ a b, s = a ++ b ∧ i = a.length ∧ (∀ c ∈ a, (net.hexVal c).isSome = true) ∧
      (∀ c t, b = c :: t → net.hexVal c = none) := by
  unfold net.xtoi at h
  split at h
  rename_i n1 i1 ok hl
  split at h
  · simp at h
  · rename_i hok
    simp only [Bool.not_eq_true', Bool.not_eq_false] at hok
    subst hok
    split at h
    · simp at h
    · simp only [Prod.mk.injEq, and_true] at h
      obtain ⟨_, rfl⟩ := h
      obtain ⟨a, b, hab, hi, hd, hb⟩ := xtoiLoop_split s 0 0 n1 i1 hl
      exact ⟨a, b, hab, by omega, hd, hb⟩

theorem parseIPv6_none_of_dot_first (s : List Char)
    (hs : ∀ pre post, s = pre ++ ':' :: post → '.' ∈ pre) : net.parseIPv6 s = none := by
  have hstart : ∀ t, s ≠ ':' :: t := by
    intro t e
    have := hs [] t (by rw [e]; rfl)
    simp at this
  unfold net.parseIPv6
  split
  · exact absurd rfl (hstart _)
  · exact absurd rfl (hstart _)
  · have hloop : net.parseIPv6Loop 8 { bytes := [], ellipsis := none, rest := s } = none ∨
        ∃ st, net.parseIPv6Loop 8 { bytes := [], ellipsis := none, rest := s } = some st ∧
          net.parseIPv6Finish st = none := by
      rw [parseIPv6Loop_succ]
      simp only
      rcases hx : net.xtoi s with ⟨n, c, ok⟩
      simp only
      split
      · exact Or.inl rfl
      · rename_i hok
        have hokt : ok = true := by
          simp only [Bool.or_eq_true, Bool.not_eq_true', decide_eq_true_eq, not_or] at hok
          simpa using hok.1
        subst hokt
        obtain ⟨a, b, hab, hc, hhex, hb⟩ := xtoi_split s n c hx
        split
        · exact Or.inl (by simp [net.IPv6len, net.IPv4len])
        · have hdrop : s.drop c = b := by rw [hab, hc, List.drop_left]
          rw [hdrop]
          split
          · exact Or.inr ⟨_, rfl, by simp [net.parseIPv6Finish, net.IPv6len]⟩
          · exact Or.inl rfl
          · rename_i c0 c1 t
            have hc0 : c0 ≠ ':' := by
              intro e
              subst e
              have hdot := hs a (c1 :: t) hab
              have := hhex '.' hdot
              revert this
              decide
            rw [if_pos hc0]
            exact Or.inl rfl
    rcases hloop with h | ⟨st, h, hf⟩
    · rw [h]
    · rw [h]
      exact hf

theorem ParseIPScan_none (pre l : List Char) (hpre : ∀ c ∈ pre, c ≠ '.' ∧ c ≠ ':')
    (h : net.ParseIPScan (pre ++ l) l = none) :
    net.parseIPv4 (pre ++ l) = none ∧ net.parseIPv6 (pre ++ l) = none := by
  induction l generalizing pre with
  | nil =>
    rw [List.append_nil]
    constructor
    · cases h4 : net.parseIPv4 pre with
      | none => rfl
      | some ip =>
        have := (parseIPv4_some pre ip h4).2
        exact absurd rfl (hpre '.' this).1
    · apply parseIPv6_none_of_dot_first
      intro p q e
      have : ':' ∈ pre := by rw [e]; simp
      exact absurd rfl (hpre ':' this).2
  | cons c cs ih =>
    unfold net.ParseIPScan at h
    split at h
    · rename_i hc
      subst hc
      refine ⟨h, ?_⟩
      apply parseIPv6_none_of_dot_first
      intro p q e
      rcases List.append_eq_append_iff.mp e with ⟨a1, hp, ha⟩ | ⟨c1, hp, hc⟩
      · rw [hp]
        cases a1 with
        | nil => simp at ha
        | cons x xs =>
          simp only [List.cons_append, List.cons.injEq] at ha
          rw [← ha.1]
          simp
      · cases c1 with
        | nil => simp at hc
        | cons x xs =>
          simp only [List.cons_append, List.cons.injEq] at hc
          have : ':' ∈ pre := by rw [hp, ← hc.1]; simp
          exact absurd rfl (hpre ':' this).2
    · split at h
      · rename_i _ hc
        subst hc
        refine ⟨?_, h⟩
        cases h4 : net.parseIPv4 (pre ++ ':' :: cs) with
        | none => rfl
        | some ip =>
          have := parseIPv4_no_colon _ ip h4
          simp at this
      · rename_i hc1 hc2
        have e : pre ++ c :: cs = (pre ++ [c]) ++ cs := by simp
        rw [e] at h ⊢
        apply ih (pre ++ [c]) _ h
        intro d hd
        rcases List.mem_append.mp hd with hd | hd
        · exact hpre d hd
        · simp only [List.mem_singleton] at hd
          subst hd
          exact ⟨hc1, hc2⟩

/-- A string that `net.ParseIP` rejects is rejected by both address parsers. -/
theorem ParseIP_none (s : String) (h : net.ParseIP s = none) :
    net.parseIPv4 s.toList = none ∧ net.parseIPv6 s.toList = none :=
  ParseIPScan_none [] s.toList (by simp) h

/-! ## Ranges in CIDR notation: the claim -/

/-- C6 (as stated, refuted): `64:ff9b::1.2.3.4/96` is a valid IPv6 range for
`net.ParseCIDR` (prefix length 96 of 128 bits) and `parseIpNet` returns an error
for it, the string being written with a dot; and the range that `parseIpNet`
returns for `::/0` does not contain the address `1.2.3.4`, although the first 0
bits of any two addresses are equal. -/
theorem C6_counterexample :
    (net.ParseCIDR "64:ff9b::1.2.3.4/96").map (fun r => (r.1, net.Size r.2.Mask)) =
        some ([0, 0x64, 0xff, 0x9b, 0, 0, 0, 0, 0, 0, 0, 0, 1, 2, 3, 4], (96, 128)) ∧
      parseIpNet "64:ff9b::1.2.3.4/96" = none ∧
      net.ParseIP "1.2.3.4" = some (net.IPv4 1 2 3 4) ∧
      (parseIpNet "::/0").map (fun r => (r.Version, net.Size r.Mask,
        r.Contains (net.IPv4 1 2 3 4))) = some (6, (0, 128), false) ∧
      samePrefix 0 (net.IPv4 1 2 3 4) [0, 0, 0, 0, 0, 0, 0, 0, 0, 0, 0, 0, 0, 0, 0, 0] := by
  refine ⟨?_, ?_, ?_, ?_, ?_⟩
  · decide
  · decide
  · decide
  · decide
  · intro j hj
    omega

/-- C6 (amended): for a range written as a dotted quad `a.b.c.d/n` with `n ≤ 32`,
`parseIpNet` returns an IPv4 range of prefix length `n` that contains an IPv4
address exactly when its first `n` bits are those of the written address (for
`n = 32`: exactly the written address) and contains no other address; for a
range written as an IPv6 address in colon-hexadecimal notation, without dotted
part and not IPv4-mapped, with `/n`, `n ≤ 128`, it returns an IPv6 range of
prefix length `n` that contains an IPv6 address exactly when its first `n` bits
are those of the written address, and contains no IPv4 address; for a string
that is neither a valid address nor a valid range it returns an error. -/
theorem C6_parseIpNet_cidr :
    (∀ (s : String) (addr mask : List Char) (ip : net.IP) (n : Nat),
        net.splitSlash s.toList = some (addr, mask) →
        net.parseIPv4 addr = some ip →
        net.dtoi mask = (n, mask.length, true) → n ≤ 32 →
        ∃ r : iplib.Net, parseIpNet s = some r ∧ r.Version = 4 ∧
          net.Size r.Mask = (n, 32) ∧
          (∀ x x4, net.To4 x = some x4 →
            (r.Contains x = true ↔ samePrefix n x4 (ip.drop 12))) ∧
          (n = 32 → ∀ x x4, net.To4 x = some x4 → (∀ b ∈ x4, b < 256) →
            (r.Contains x = true ↔ x4 = ip.drop 12)) ∧
          (∀ x, net.To4 x = none → r.Contains x = false)) ∧
      (∀ (s : String) (addr mask : List Char) (ip : net.IP) (n : Nat),
        net.splitSlash s.toList = some (addr, mask) →
        '.' ∉ addr → net.parseIPv6 addr = some ip → net.To4 ip = none →
        net.dtoi mask = (n, mask.length, true) → n ≤ 128 →
        ∃ r : iplib.Net, parseIpNet s = some r ∧ r.Version = 6 ∧
          net.Size r.Mask = (n, 128) ∧
          (∀ x, x.length = 16 → net.To4 x = none →
            (r.Contains x = true ↔ samePrefix n x ip)) ∧
          (∀ x x4, net.To4 x = some x4 → r.Contains x = false)) ∧
      (∀ s : String, net.ParseIP s = none → net.ParseCIDR s = none →
        parseIpNet s = none) := by
  refine ⟨?_, ?_, ?_⟩
  · intro s addr mask ip n hs hip hn hle
    obtain ⟨r, hr, hv, hsz, hc, hc2⟩ := parseIpNet_v4 s addr mask ip n hs hip hn hle
    refine ⟨r, hr, hv, hsz, hc, ?_, hc2⟩
    intro h32 x x4 hx hxb
    subst h32
    obtain ⟨⟨p, hp, hp4⟩, _⟩ := parseIPv4_some _ _ hip
    have hpb : ∀ b ∈ ip.drop 12, b < 256 :=
      fun b hb => parseIPv4_bytes _ _ hip b (List.mem_of_mem_drop hb)
    have hpl : (ip.drop 12).length = 4 := by
      rw [hp]
      simp [net.v4InV6Prefix, hp4]
    rw [hc x x4 hx]
    have := samePrefix_all x4 (ip.drop 12) (by rw [To4_length x x4 hx, hpl]) hxb hpb
    rw [hpl] at this
    exact this
  · intro s addr mask ip n hs hnd hip h4 hn hle
    exact parseIpNet_v6 s addr mask ip n hs hnd hip h4 hn hle
  · intro s hip hc
    exact parseIpNet_invalid s (ParseIP_none s hip).1 (ParseIP_none s hip).2 hc

theorem C6_witness :
    (∃ r : iplib.Net, parseIpNet "192.168.0.1/32" = some r ∧ r.Version = 4 ∧
        net.Size r.Mask = (32, 32) ∧
        (∀ x x4, net.To4 x = some x4 →
          (r.Contains x = true ↔ samePrefix 32 x4 ((net.IPv4 192 168 0 1).drop 12))) ∧
        (32 = 32 → ∀ x x4, net.To4 x = some x4 → (∀ b ∈ x4, b < 256) →
          (r.Contains x = true ↔ x4 = (net.IPv4 192 168 0 1).drop 12)) ∧
        (∀ x, net.To4 x = none → r.Contains x = false)) ∧
      (∃ r : iplib.Net, parseIpNet "2001:db8::/33" = some r ∧ r.Version = 6 ∧
        net.Size r.Mask = (33, 128) ∧
        (∀ x, x.length = 16 → net.To4 x = none →
          (r.Contains x = true ↔
            samePrefix 33 x [0x20, 0x01, 0x0d, 0xb8, 0, 0, 0, 0, 0, 0, 0, 0, 0, 0, 0, 0])) ∧
        (∀ x x4, net.To4 x = some x4 → r.Contains x = false)) ∧
      parseIpNet "not-an-ip" = none :=
  ⟨C6_parseIpNet_cidr.1 "192.168.0.1/32" "192.168.0.1".toList "32".toList
      (net.IPv4 192 168 0 1) 32 (by decide) (by decide) (by decide) (by decide),
   C6_parseIpNet_cidr.2.1 "2001:db8::/33" "2001:db8::".toList "33".toList
      [0x20, 0x01, 0x0d, 0xb8, 0, 0, 0, 0, 0, 0, 0, 0, 0, 0, 0, 0] 33
      (by decide) (by decide) (by decide) (by decide) (by decide) (by decide),
   C6_parseIpNet_cidr.2.2 "not-an-ip" (by decide) (by decide)⟩

/-! ## Loading a table (`ecsTable.parse`, `ecsTable.loadFromUrl`) -/

/-- C7: the line `1.2.3.4x:5.6.7.8` splits into two fields whose first, `1.2.3.4x`,
is not an IP address (`net.ParseIP` rejects it), and yet `IsIP` accepts it and the
line adds the entry with that key, through `ecsTable.parse` and through the line
loop of `ecsTable.loadFromUrl` alike. -/
theorem C7_table_key_need_not_be_an_address :
    stringsSplit (stripComment "1.2.3.4x:5.6.7.8") ':' = ["1.2.3.4x", "5.6.7.8"] ∧
      net.ParseIP "1.2.3.4x" = none ∧
      IsIP "1.2.3.4x" = true ∧
      ecsTable.parse ["1.2.3.4x:5.6.7.8"] = ([("1.2.3.4x", net.IPv4 5 6 7 8)], 1) ∧
      ecsTable.parseLoop (stringsSplit "1.2.3.4x:5.6.7.8" '\n') [] 0 =
        ([("1.2.3.4x", net.IPv4 5 6 7 8)], 1) := by
  refine ⟨?_, ?_, ?_, ?_, ?_⟩
  · decide
  · decide
  · decide
  · decide
  · decide

/-! ## The synthesized option (`newEDNS0Subnet`, `SetEcs.ServeDNS`) -/

theorem To4_Equal (a ip4 : net.IP) (h : net.To4 a = some ip4) : net.Equal ip4 a = true := by
  unfold net.To4 at h
  split at h
  · cases h
    simp [net.Equal]
  · split at h
    · rename_i h4 h16
      cases h
      simp only [Bool.and_eq_true, decide_eq_true_eq, beq_iff_eq] at h16
      obtain ⟨⟨⟨hlen, hz⟩, h10⟩, h11⟩ := h16
      obtain ⟨a0, a1, a2, a3, a4, a5, a6, a7, a8, a9, a10, a11, a12, a13, a14, a15, rfl⟩ :=
        list_length_sixteen a hlen
      simp only [net.isZeros, List.take, List.all_cons, List.all_nil, Bool.and_true,
        Bool.and_eq_true, beq_iff_eq] at hz
      simp only [List.getD_cons_succ, List.getD_cons_zero] at h10 h11
      obtain ⟨h0, h1, h2, h3, h4', h5, h6, h7, h8, h9⟩ := hz
      subst h0 h1 h2 h3 h4' h5 h6 h7 h8 h9 h10 h11
      simp [net.Equal, net.IPv4len, net.IPv6len, net.v4InV6Prefix]
    · cases h

theorem Equal_self (a : net.IP) : net.Equal a a = true := by
  simp [net.Equal]

theorem synthesize_some (a : net.IP) (hlen : a.length = 4 ∨ a.length = 16) :
    ∃ ecs : dns.EDNS0_SUBNET,
      synthesize (some a) = some ecs ∧
      ecs.Code = 8 ∧ ecs.SourceScope = 0 ∧ net.Equal ecs.Address a = true ∧
      ((net.To4 a).isSome → ecs.Family = 1 ∧ ecs.SourceNetmask = 24) ∧
      ((net.To4 a).isNone → ecs.Family = 2 ∧ ecs.SourceNetmask = 48) := by
  cases h4 : net.To4 a with
  | some ip4 =>
    refine ⟨newEDNS0Subnet ip4 24 false, ?_, rfl, rfl, To4_Equal a ip4 h4, ?_, ?_⟩
    · simp [synthesize, h4]
    · intro _
      exact ⟨rfl, rfl⟩
    · intro h
      cases h
  | none =>
    have h16 : a.length = 16 := by
      rcases hlen with h | h
      · simp [net.To4, net.IPv4len, h] at h4
      · exact h
    have hne : a.length ≠ net.IPv4len := by
      rw [h16]
      decide
    have hto : net.To16 a = some a := by
      unfold net.To16
      rw [if_neg hne, if_pos (show a.length = net.IPv6len from h16)]
    refine ⟨newEDNS0Subnet a 48 true, ?_, rfl, rfl, Equal_self a, ?_, ?_⟩
    · simp [synthesize, h4, hto]
    · intro h
      cases h
    · intro _
      exact ⟨rfl, rfl⟩

/-- C8: when `ServeDNS` resolves the substitute address `A` (an address of 4 or 16
bytes), the option it synthesizes and sets on the query has option code 8,
source scope 0 and the address `A`; family 1 and source prefix 24 when `A` is an
IPv4 address (`To4` is not nil), family 2 and source prefix 48 otherwise. -/
theorem C8_synthesized_option (se : SetEcs) (stateIP : String) (clientIp A : net.IP)
    (r : dns.Msg) (hp : net.ParseIP stateIP = some clientIp)
    (hres : (se.resolve stateIP clientIp).1 = some A)
    (hlen : A.length = 4 ∨ A.length = 16) :
    ∃ ecs : dns.EDNS0_SUBNET,
      synthesize (se.resolve stateIP clientIp).1 = some ecs ∧
      ecs.Code = 8 ∧ ecs.SourceScope = 0 ∧ net.Equal ecs.Address A = true ∧
      ((net.To4 A).isSome → ecs.Family = 1 ∧ ecs.SourceNetmask = 24) ∧
      ((net.To4 A).isNone → ecs.Family = 2 ∧ ecs.SourceNetmask = 48) ∧
      (∀ q, getMsgECS r = .ok q →
        (se.ServeDNS stateIP r).map (fun s => s.r) = setECS r ecs) := by
  obtain ⟨ecs, hs, h1, h2, h3, h4, h5⟩ := synthesize_some A hlen
  refine ⟨ecs, by rw [hres]; exact hs, h1, h2, h3, h4, h5, ?_⟩
  intro q hq
  unfold SetEcs.ServeDNS
  rw [hp]
  simp only [hq]
  rcases hr : se.resolve stateIP clientIp with ⟨ecsip, se1⟩
  rw [hr] at hres
  simp only at hres
  subst hres
  simp only [hs]
  cases setECS r ecs <;> rfl

theorem C8_witness :
    net.ParseIP "10.0.0.5" = some (net.IPv4 10 0 0 5) ∧
      (exampleState.resolve "10.0.0.5" (net.IPv4 10 0 0 5)).1 = some (net.IPv4 203 0 113 9) ∧
      ∃ ecs : dns.EDNS0_SUBNET,
        synthesize (exampleState.resolve "10.0.0.5" (net.IPv4 10 0 0 5)).1 = some ecs ∧
        ecs.Code = 8 ∧ ecs.SourceScope = 0 ∧
        net.Equal ecs.Address (net.IPv4 203 0 113 9) = true ∧
        ((net.To4 (net.IPv4 203 0 113 9)).isSome → ecs.Family = 1 ∧ ecs.SourceNetmask = 24) ∧
        ((net.To4 (net.IPv4 203 0 113 9)).isNone → ecs.Family = 2 ∧ ecs.SourceNetmask = 48) ∧
        (∀ q, getMsgECS exampleQuery = .ok q →
          (exampleState.ServeDNS "10.0.0.5" exampleQuery).map (fun s => s.r) =
            setECS exampleQuery ecs) :=
  ⟨by decide, by decide,
   C8_synthesized_option exampleState "10.0.0.5" (net.IPv4 10 0 0 5) (net.IPv4 203 0 113 9)
     exampleQuery (by decide) (by decide) (by decide)⟩

/-! ## Setting the option on a message (`setECS`) -/

theorem IsEdns0Loop_skip (xs ys : List dns.RR)
    (h : ∀ rr ∈ xs, rr.Header.Rrtype ≠ dns.TypeOPT) :
    dns.IsEdns0Loop (xs ++ ys) = dns.IsEdns0Loop ys := by
  induction xs with
  | nil => rfl
  | cons x rest ih =>
    have hx : x.Header.Rrtype ≠ dns.TypeOPT := h x (List.mem_cons_self _ _)
    rw [List.cons_append]
    simp only [dns.IsEdns0Loop, if_neg hx]
    exact ih (fun rr hrr => h rr (List.mem_cons_of_mem _ hrr))

theorem IsEdns0_none (m : dns.Msg) (h : ∀ rr ∈ m.Extra, rr.Header.Rrtype ≠ dns.TypeOPT) :
    dns.IsEdns0 m = .ok none := by
  unfold dns.IsEdns0
  have h1 := IsEdns0Loop_skip m.Extra.reverse []
    (fun rr hrr => h rr (List.mem_reverse.mp hrr))
  rw [List.append_nil] at h1
  rw [h1]
  rfl

theorem IsEdns0_split (m : dns.Msg) (before after : List dns.RR) (opt : dns.OPT)
    (hex : m.Extra = before ++ dns.RR.OPT opt :: after)
    (hopt : opt.Hdr.Rrtype = dns.TypeOPT)
    (hafter : ∀ rr ∈ after, rr.Header.Rrtype ≠ dns.TypeOPT) :
    dns.IsEdns0 m = .ok (some (before.length, opt)) := by
  unfold dns.IsEdns0
  rw [hex, List.reverse_append, List.reverse_cons, List.append_assoc,
    IsEdns0Loop_skip after.reverse _ (fun rr hrr => hafter rr (List.mem_reverse.mp hrr))]
  rw [List.singleton_append]
  have hh : (dns.RR.OPT opt).Header.Rrtype = dns.TypeOPT := hopt
  simp only [dns.IsEdns0Loop, if_pos hh, List.length_reverse]

theorem set_middle (before after : List dns.RR) (x y : dns.RR) :
    (before ++ x :: after).set before.length y = before ++ y :: after := by
  induction before with
  | nil => rfl
  | cons b rest ih => simp [List.set, ih]

theorem setECSLoop_replace (e : dns.EDNS0_SUBNET) (pre post : List dns.EDNS0) (old : dns.EDNS0)
    (hpre : ∀ o ∈ pre, o.Option ≠ dns.EDNS0SUBNET) (hold : old.Option = dns.EDNS0SUBNET) :
    setECSLoop e (pre ++ old :: post) = some (pre ++ dns.EDNS0.SUBNET e :: post) := by
  induction pre with
  | nil =>
    rw [List.nil_append]
    simp only [setECSLoop, if_pos hold]
    rfl
  | cons p rest ih =>
    have hp : p.Option ≠ dns.EDNS0SUBNET := hpre p (List.mem_cons_self _ _)
    rw [List.cons_append]
    simp only [setECSLoop, if_neg hp, ih (fun o ho => hpre o (List.mem_cons_of_mem _ ho))]
    rfl

theorem setECSLoop_none (e : dns.EDNS0_SUBNET) (opts : List dns.EDNS0)
    (h : ∀ o ∈ opts, o.Option ≠ dns.EDNS0SUBNET) : setECSLoop e opts = none := by
  induction opts with
  | nil => rfl
  | cons p rest ih =>
    have hp : p.Option ≠ dns.EDNS0SUBNET := h p (List.mem_cons_self _ _)
    simp only [setECSLoop, if_neg hp, ih (fun o ho => h o (List.mem_cons_of_mem _ ho))]

/-- C9: on a message whose OPT record (the last record of type OPT of the
additional section) carries an ECS option, `setECS` overwrites the first ECS
option where it stands: the options before and after it, the header of the OPT
record and every other record of the message are unchanged, so the numbers of
options and of records are unchanged; when the OPT record carries no ECS option,
the synthesized one is added after its options, which are unchanged. -/
theorem C9_setECS_replaces_in_place_or_appends (m : dns.Msg) (e : dns.EDNS0_SUBNET)
    (before after : List dns.RR) (opt : dns.OPT)
    (hex : m.Extra = before ++ dns.RR.OPT opt :: after)
    (hopt : opt.Hdr.Rrtype = dns.TypeOPT)
    (hafter : ∀ rr ∈ after, rr.Header.Rrtype ≠ dns.TypeOPT) :
    (∀ (pre post : List dns.EDNS0) (old : dns.EDNS0),
        opt.Option = pre ++ old :: post →
        (∀ o ∈ pre, o.Option ≠ dns.EDNS0SUBNET) → old.Option = dns.EDNS0SUBNET →
        setECS m e = .ok { m with
          Extra := before ++
            dns.RR.OPT { opt with Option := pre ++ dns.EDNS0.SUBNET e :: post } :: after }) ∧
      ((∀ o ∈ opt.Option, o.Option ≠ dns.EDNS0SUBNET) →
        setECS m e = .ok { m with
          Extra := before ++
            dns.RR.OPT { opt with Option := opt.Option ++ [dns.EDNS0.SUBNET e] } :: after }) := by
  have hi := IsEdns0_split m before after opt hex hopt hafter
  constructor
  · intro pre post old hopts hpre hold
    unfold setECS
    rw [hi]
    simp only
    rw [hopts, setECSLoop_replace e pre post old hpre hold]
    simp only
    rw [hex, set_middle]
  · intro hno
    unfold setECS
    rw [hi]
    simp only
    rw [setECSLoop_none e opt.Option hno]
    simp only
    rw [hex, set_middle]

theorem C9_witness :
    exampleQueryECS.Extra =
        [.other { Name := "k.", Rrtype := 250, Class := 255, Ttl := 0, Rdlength := 0 } []] ++
          dns.RR.OPT { Hdr := { Name := ".", Rrtype := dns.TypeOPT, Class := 1232, Ttl := 0,
                                Rdlength := 0 },
                       Option := [.other 10 [1, 2, 3, 4, 5, 6, 7, 8],
                                  .SUBNET { Code := 8, Family := 1, SourceNetmask := 32,
                                            SourceScope := 0, Address := [10, 0, 0, 5] },
                                  .other 12 [0, 0]] } :: [] ∧
      setECS exampleQueryECS exampleECS = .ok { exampleQueryECS with
        Extra := [.other { Name := "k.", Rrtype := 250, Class := 255, Ttl := 0, Rdlength := 0 } [],
                  .OPT { Hdr := { Name := ".", Rrtype := dns.TypeOPT, Class := 1232, Ttl := 0,
                                  Rdlength := 0 },
                         Option := [.other 10 [1, 2, 3, 4, 5, 6, 7, 8], .SUBNET exampleECS,
                                    .other 12 [0, 0]] }] } :=
  ⟨rfl,
   (C9_setECS_replaces_in_place_or_appends exampleQueryECS exampleECS
      [.other { Name := "k.", Rrtype := 250, Class := 255, Ttl := 0, Rdlength := 0 } []] []
      { Hdr := { Name := ".", Rrtype := dns.TypeOPT, Class := 1232, Ttl := 0, Rdlength := 0 },
        Option := [.other 10 [1, 2, 3, 4, 5, 6, 7, 8],
                   .SUBNET { Code := 8, Family := 1, SourceNetmask := 32, SourceScope := 0,
                             Address := [10, 0, 0, 5] },
                   .other 12 [0, 0]] }
      rfl rfl (by decide)).1 [.other 10 [1, 2, 3, 4, 5, 6, 7, 8]] [.other 12 [0, 0]]
      (.SUBNET { Code := 8, Family := 1, SourceNetmask := 32, SourceScope := 0,
                 Address := [10, 0, 0, 5] }) rfl (by decide) rfl⟩

/-- C10: on a message without a record of type OPT in its additional section,
`setECS` adds one record at the end of the additional section, an OPT record of
name `.`, type OPT and UDP payload size `dns.MinMsgSize` whose only option is the
synthesized one; every record the message had is unchanged. -/
theorem C10_setECS_creates_opt (m : dns.Msg) (e : dns.EDNS0_SUBNET)
    (h : ∀ rr ∈ m.Extra, rr.Header.Rrtype ≠ dns.TypeOPT) :
    setECS m e = .ok { m with
      Extra := m.Extra ++
        [dns.RR.OPT { Hdr := { Name := ".", Rrtype := dns.TypeOPT, Class := dns.MinMsgSize,
                               Ttl := 0, Rdlength := 0 },
                      Option := [dns.EDNS0.SUBNET e] }] } := by
  unfold setECS
  rw [IsEdns0_none m h]
  rfl

theorem C10_witness :
    (∀ rr ∈ exampleQuery.Extra, rr.Header.Rrtype ≠ dns.TypeOPT) ∧
      setECS exampleQuery exampleECS = .ok { exampleQuery with
        Extra := exampleQuery.Extra ++
          [dns.RR.OPT { Hdr := { Name := ".", Rrtype := dns.TypeOPT, Class := dns.MinMsgSize,
                                 Ttl := 0, Rdlength := 0 },
                        Option := [dns.EDNS0.SUBNET exampleECS] }] } :=
  ⟨by decide, C10_setECS_creates_opt exampleQuery exampleECS (by decide)⟩

/-! ## The response wrapper (`SetEcs.ServeDNS`, lines 79 to 104) -/

theorem MatchEcsTable_snd (se : SetEcs) (ipstr : String) :
    (se.MatchEcsTable ipstr).2.ecsTables = se.ecsTables ∧
      (se.MatchEcsTable ipstr).2.ecsBindings = se.ecsBindings := by
  unfold SetEcs.MatchEcsTable
  simp only
  cases MatchEcsTableLoop ipstr se.ecsTables <;> exact ⟨rfl, rfl⟩

theorem MatchEcsBinding_snd (se : SetEcs) (ip : net.IP) :
    (se.MatchEcsBinding ip).2.ecsTables = se.ecsTables ∧
      (se.MatchEcsBinding ip).2.ecsBindings = se.ecsBindings := by
  unfold SetEcs.MatchEcsBinding
  simp only
  cases MatchEcsBindingLoop ip se.ecsBindings <;> exact ⟨rfl, rfl⟩

theorem resolve_snd_tables (se : SetEcs) (stateIP : String) (clientIp : net.IP) :
    (se.resolve stateIP clientIp).2.ecsTables = se.ecsTables := by
  have h1 := MatchEcsTable_snd se stateIP
  unfold SetEcs.resolve
  rcases hm : se.MatchEcsTable stateIP with ⟨res, se1⟩
  rw [hm] at h1
  cases res with
  | none => exact h1.1
  | some v =>
    simp only
    rw [(MatchEcsBinding_snd se1 clientIp).1]
    exact h1.1

theorem resolve_snd_bindings (se : SetEcs) (stateIP : String) (clientIp : net.IP) :
    (se.resolve stateIP clientIp).2.ecsBindings = se.ecsBindings := by
  have h1 := MatchEcsTable_snd se stateIP
  unfold SetEcs.resolve
  rcases hm : se.MatchEcsTable stateIP with ⟨res, se1⟩
  rw [hm] at h1
  cases res with
  | none => exact h1.2
  | some v =>
    simp only
    rw [(MatchEcsBinding_snd se1 clientIp).2]
    exact h1.2

theorem ServeDNS_resolved (se : SetEcs) (stateIP : String) (clientIp : net.IP) (r : dns.Msg)
    (q : Option dns.EDNS0_SUBNET) (ecs : dns.EDNS0_SUBNET)
    (hp : net.ParseIP stateIP = some clientIp) (hq : getMsgECS r = .ok q)
    (hs : synthesize (se.resolve stateIP clientIp).1 = some ecs) :
    se.ServeDNS stateIP r =
      (setECS r ecs).map (fun r1 =>
        { se := (se.resolve stateIP clientIp).2, r := r1,
          wr := some { NewResponseReverter with removeEcs := q.isSome } }) := by
  unfold SetEcs.ServeDNS
  rw [hp]
  simp only [hq]
  rcases hr : se.resolve stateIP clientIp with ⟨ecsip, se1⟩
  rw [hr] at hs
  simp only at hs
  simp only [hs]
  cases setECS r ecs <;> rfl

theorem ServeDNS_unresolved (se : SetEcs) (stateIP : String) (clientIp : net.IP) (r : dns.Msg)
    (q : Option dns.EDNS0_SUBNET)
    (hp : net.ParseIP stateIP = some clientIp) (hq : getMsgECS r = .ok q)
    (hs : (se.resolve stateIP clientIp).1 = none) :
    se.ServeDNS stateIP r =
      .ok { se := (se.resolve stateIP clientIp).2, r := r, wr := some NewResponseReverter } := by
  unfold SetEcs.ServeDNS
  rw [hp]
  simp only [hq]
  rcases hr : se.resolve stateIP clientIp with ⟨ecsip, se1⟩
  rw [hr] at hs
  simp only at hs
  subst hs
  rfl

/-- C11: on the resolver of the specification's example, the query of the client
`10.0.0.5` is resolved to `203.0.113.9`; when the query carries no ECS option the
wrapper is handed on with `removeEcs` false, and when it carries one the option
is replaced and `removeEcs` is true: the flag is `qHasECS`, the opposite of what
the comment above the assignment asks for. -/
theorem C11_strip_flag_follows_query_ecs :
    (exampleState.resolve "10.0.0.5" (net.IPv4 10 0 0 5)).1 = some (net.IPv4 203 0 113 9) ∧
      getMsgECS exampleQuery = .ok none ∧
      (exampleState.ServeDNS "10.0.0.5" exampleQuery).map (fun s => s.wr) =
        .ok (some { removeEcs := false }) ∧
      (getMsgECS exampleQueryECS).map (fun q => q.isSome) = .ok true ∧
      (exampleState.ServeDNS "10.0.0.5" exampleQueryECS).map (fun s => s.wr) =
        .ok (some { removeEcs := true }) ∧
      (exampleState.ServeDNS "10.0.0.5" exampleQueryECS).map (fun s => getMsgECS s.r) =
        .ok (.ok (some exampleECS)) := by
  refine ⟨?_, ?_, ?_, ?_, ?_, ?_⟩
  · decide
  · decide
  · decide
  · decide
  · decide
  · decide

/-! ## Removing the option from a response (`removeECS`) -/

theorem removeECSLoop_none (opts : List dns.EDNS0)
    (h : ∀ o ∈ opts, o.Option ≠ dns.EDNS0SUBNET) : removeECSLoop opts = .ok none := by
  induction opts with
  | nil => rfl
  | cons p rest ih =>
    have hp : p.Option ≠ dns.EDNS0SUBNET := h p (List.mem_cons_self _ _)
    simp only [removeECSLoop, if_neg hp, ih (fun o ho => h o (List.mem_cons_of_mem _ ho))]

theorem removeECSLoop_first (pre post : List dns.EDNS0) (e : dns.EDNS0_SUBNET)
    (hpre : ∀ o ∈ pre, o.Option ≠ dns.EDNS0SUBNET) :
    removeECSLoop (pre ++ dns.EDNS0.SUBNET e :: post) = .ok (some (e, pre ++ post)) := by
  induction pre with
  | nil =>
    rw [List.nil_append]
    simp only [removeECSLoop, dns.EDNS0.Option, if_true]
    rfl
  | cons p rest ih =>
    have hp : p.Option ≠ dns.EDNS0SUBNET := hpre p (List.mem_cons_self _ _)
    rw [List.cons_append]
    simp only [removeECSLoop, if_neg hp, ih (fun o ho => hpre o (List.mem_cons_of_mem _ ho))]
    rfl

theorem getMsgECSLoop_none (opts : List dns.EDNS0)
    (h : ∀ o ∈ opts, o.Option ≠ dns.EDNS0SUBNET) : getMsgECSLoop opts = .ok none := by
  induction opts with
  | nil => rfl
  | cons p rest ih =>
    have hp : p.Option ≠ dns.EDNS0SUBNET := h p (List.mem_cons_self _ _)
    simp only [getMsgECSLoop, if_neg hp, ih (fun o ho => h o (List.mem_cons_of_mem _ ho))]

theorem getMsgECSLoop_first (pre post : List dns.EDNS0) (e : dns.EDNS0_SUBNET)
    (hpre : ∀ o ∈ pre, o.Option ≠ dns.EDNS0SUBNET) :
    getMsgECSLoop (pre ++ dns.EDNS0.SUBNET e :: post) = .ok (some e) := by
  induction pre with
  | nil =>
    rw [List.nil_append]
    simp only [getMsgECSLoop, dns.EDNS0.Option, if_true]
  | cons p rest ih =>
    have hp : p.Option ≠ dns.EDNS0SUBNET := hpre p (List.mem_cons_self _ _)
    rw [List.cons_append]
    simp only [getMsgECSLoop, if_neg hp, ih (fun o ho => hpre o (List.mem_cons_of_mem _ ho))]

/-- C12 (as stated, refuted): on a response whose OPT record carries two ECS options,
`removeECS` cuts out the first one only, and `getMsgECS` on the message it leaves
returns the second. -/
theorem C12_counterexample :
    removeECS exampleResponseTwoECS =
        .ok ({ exampleResponseTwoECS with
               Extra := [.OPT { Hdr := { Name := ".", Rrtype := dns.TypeOPT, Class := 1232,
                                         Ttl := 0, Rdlength := 0 },
                                Option := [.other 10 [1, 2, 3, 4, 5, 6, 7, 8],
                                           .SUBNET { Code := 8, Family := 1, SourceNetmask := 32,
                                                     SourceScope := 0,
                                                     Address := [10, 0, 0, 5] }] }] },
             some { Code := 8, Family := 1, SourceNetmask := 24, SourceScope := 24,
                    Address := [203, 0, 113, 0] }) ∧
      (removeECS exampleResponseTwoECS).map (fun p => getMsgECS p.1) =
        .ok (.ok (some { Code := 8, Family := 1, SourceNetmask := 32, SourceScope := 0,
                         Address := [10, 0, 0, 5] })) := by
  refine ⟨?_, ?_⟩
  · decide
  · decide

/-- C12 (amended): `removeECS` cuts the first ECS option out of the OPT record of
the message and returns it; every other option, ECS or not, is kept in its
original order, and so is every record.  When the OPT record held at most one
ECS option, the message carries none afterwards (`getMsgECS` returns nil); a
message without OPT record, or whose OPT record has no ECS option, is left as it
is. -/
theorem C12_removeECS_cuts_first_option (m : dns.Msg) :
    ((∀ rr ∈ m.Extra, rr.Header.Rrtype ≠ dns.TypeOPT) →
        removeECS m = .ok (m, none) ∧ getMsgECS m = .ok none) ∧
      (∀ (before after : List dns.RR) (opt : dns.OPT),
        m.Extra = before ++ dns.RR.OPT opt :: after →
        opt.Hdr.Rrtype = dns.TypeOPT →
        (∀ rr ∈ after, rr.Header.Rrtype ≠ dns.TypeOPT) →
        ((∀ o ∈ opt.Option, o.Option ≠ dns.EDNS0SUBNET) →
          removeECS m = .ok (m, none) ∧ getMsgECS m = .ok none) ∧
        (∀ (pre post : List dns.EDNS0) (e : dns.EDNS0_SUBNET),
          opt.Option = pre ++ dns.EDNS0.SUBNET e :: post →
          (∀ o ∈ pre, o.Option ≠ dns.EDNS0SUBNET) →
          removeECS m =
              .ok ({ m with
                     Extra := before ++ dns.RR.OPT { opt with Option := pre ++ post } :: after },
                   some e) ∧
            ((∀ o ∈ post, o.Option ≠ dns.EDNS0SUBNET) →
              getMsgECS { m with
                Extra := before ++ dns.RR.OPT { opt with Option := pre ++ post } :: after } =
                .ok none))) := by
  constructor
  · intro h
    have hi := IsEdns0_none m h
    constructor
    · unfold removeECS
      rw [hi]
    · unfold getMsgECS
      rw [hi]
  · intro before after opt hex hopt hafter
    have hi := IsEdns0_split m before after opt hex hopt hafter
    constructor
    · intro hno
      constructor
      · unfold removeECS
        rw [hi]
        simp only
        rw [removeECSLoop_none opt.Option hno]
      · unfold getMsgECS
        rw [hi]
        simp only
        exact getMsgECSLoop_none opt.Option hno
    · intro pre post e hopts hpre
      constructor
      · unfold removeECS
        rw [hi]
        simp only
        rw [hopts, removeECSLoop_first pre post e hpre]
        simp only
        rw [hex, set_middle]
      · intro hpost
        have hi2 := IsEdns0_split
          { m with Extra := before ++ dns.RR.OPT { opt with Option := pre ++ post } :: after }
          before after { opt with Option := pre ++ post } rfl hopt hafter
        unfold getMsgECS
        rw [hi2]
        simp only
        apply getMsgECSLoop_none
        intro o ho
        rcases List.mem_append.mp ho with ho | ho
        · exact hpre o ho
        · exact hpost o ho

theorem C12_witness :
    removeECS exampleQueryECS =
        .ok ({ exampleQueryECS with
               Extra := [.other { Name := "k.", Rrtype := 250, Class := 255, Ttl := 0,
                                  Rdlength := 0 } []] ++
                 dns.RR.OPT { Hdr := { Name := ".", Rrtype := dns.TypeOPT, Class := 1232,
                                       Ttl := 0, Rdlength := 0 },
                              Option := [.other 10 [1, 2, 3, 4, 5, 6, 7, 8]] ++
                                [.other 12 [0, 0]] } :: [] },
             some { Code := 8, Family := 1, SourceNetmask := 32, SourceScope := 0,
                    Address := [10, 0, 0, 5] }) ∧
      getMsgECS { exampleQueryECS with
          Extra := [.other { Name := "k.", Rrtype := 250, Class := 255, Ttl := 0,
                             Rdlength := 0 } []] ++
            dns.RR.OPT { Hdr := { Name := ".", Rrtype := dns.TypeOPT, Class := 1232,
                                  Ttl := 0, Rdlength := 0 },
                         Option := [.other 10 [1, 2, 3, 4, 5, 6, 7, 8]] ++
                           [.other 12 [0, 0]] } :: [] } = .ok none :=
  ⟨(((C12_removeECS_cuts_first_option exampleQueryECS).2
      [.other { Name := "k.", Rrtype := 250, Class := 255, Ttl := 0, Rdlength := 0 } []] []
      { Hdr := { Name := ".", Rrtype := dns.TypeOPT, Class := 1232, Ttl := 0, Rdlength := 0 },
        Option := [.other 10 [1, 2, 3, 4, 5, 6, 7, 8],
                   .SUBNET { Code := 8, Family := 1, SourceNetmask := 32, SourceScope := 0,
                             Address := [10, 0, 0, 5] },
                   .other 12 [0, 0]] }
      rfl rfl (by decide)).2 [.other 10 [1, 2, 3, 4, 5, 6, 7, 8]] [.other 12 [0, 0]]
      { Code := 8, Family := 1, SourceNetmask := 32, SourceScope := 0,
        Address := [10, 0, 0, 5] } rfl (by decide)).1,
   (((C12_removeECS_cuts_first_option exampleQueryECS).2
      [.other { Name := "k.", Rrtype := 250, Class := 255, Ttl := 0, Rdlength := 0 } []] []
      { Hdr := { Name := ".", Rrtype := dns.TypeOPT, Class := 1232, Ttl := 0, Rdlength := 0 },
        Option := [.other 10 [1, 2, 3, 4, 5, 6, 7, 8],
                   .SUBNET { Code := 8, Family := 1, SourceNetmask := 32, SourceScope := 0,
                             Address := [10, 0, 0, 5] },
                   .other 12 [0, 0]] }
      rfl rfl (by decide)).2 [.other 10 [1, 2, 3, 4, 5, 6, 7, 8]] [.other 12 [0, 0]]
      { Code := 8, Family := 1, SourceNetmask := 32, SourceScope := 0,
        Address := [10, 0, 0, 5] } rfl (by decide)).2 (by decide)⟩

/-! ## Queries without substitute (`SetEcs.ServeDNS`) -/

/-- C13: when the client address parses, the query carries its options as the
`dns` package unpacks them (reading its ECS option does not panic) and resolution
yields no substitute, because no table has the client as a key or because no
binding has a range containing it, `ServeDNS` hands to the next handler the query
as it received it and the wrapper as `NewResponseReverter` built it, its flag
`removeEcs` false; tables and bindings of the resolver are as before. -/
theorem C13_unresolved_query_passes_unmodified (se : SetEcs) (stateIP : String)
    (clientIp : net.IP) (r : dns.Msg) (q : Option dns.EDNS0_SUBNET)
    (hp : net.ParseIP stateIP = some clientIp) (hq : getMsgECS r = .ok q)
    (hnone : (∀ t ∈ se.ecsTables, ∀ kv ∈ t.dict, kv.1 ≠ stateIP) ∨
      (∀ b ∈ se.ecsBindings, ∀ c ∈ b.clients, c.Contains clientIp = false)) :
    ∃ se1 : SetEcs,
      se.ServeDNS stateIP r = .ok { se := se1, r := r, wr := some NewResponseReverter } ∧
      NewResponseReverter.removeEcs = false ∧
      se1.ecsTables = se.ecsTables ∧ se1.ecsBindings = se.ecsBindings := by
  have hres : (se.resolve stateIP clientIp).1 = none := by
    rw [resolve_fst]
    rcases hnone with h | h
    · rw [MatchEcsTableLoop_none stateIP se.ecsTables h]
    · have hb : MatchEcsBindingLoop clientIp se.ecsBindings = none := by
        rw [MatchEcsBindingLoop_eq_find]
        have : se.ecsBindings.find? (fun b => b.clients.any (fun c => c.Contains clientIp))
            = none := by
          rw [List.find?_eq_none]
          intro b hb
          simp only [List.any_eq_true, not_exists, not_and, Bool.not_eq_true]
          exact fun c hc => h b hb c hc
        rw [this]
        rfl
      cases MatchEcsTableLoop stateIP se.ecsTables with
      | none => rfl
      | some v => exact hb
  refine ⟨(se.resolve stateIP clientIp).2, ServeDNS_unresolved se stateIP clientIp r q hp hq hres,
    rfl, ?_, ?_⟩
  · exact resolve_snd_tables se stateIP clientIp
  · exact resolve_snd_bindings se stateIP clientIp

theorem C13_witness :
    net.ParseIP "10.0.0.6" = some (net.IPv4 10 0 0 6) ∧
      getMsgECS exampleQueryECS = .ok (some { Code := 8, Family := 1, SourceNetmask := 32,
                                              SourceScope := 0, Address := [10, 0, 0, 5] }) ∧
      ∃ se1 : SetEcs,
        exampleState.ServeDNS "10.0.0.6" exampleQueryECS =
          .ok { se := se1, r := exampleQueryECS, wr := some NewResponseReverter } ∧
        NewResponseReverter.removeEcs = false ∧
        se1.ecsTables = exampleState.ecsTables ∧ se1.ecsBindings = exampleState.ecsBindings :=
  ⟨by decide, by decide,
   C13_unresolved_query_passes_unmodified exampleState "10.0.0.6" (net.IPv4 10 0 0 6)
     exampleQueryECS
     (some { Code := 8, Family := 1, SourceNetmask := 32, SourceScope := 0,
             Address := [10, 0, 0, 5] })
     (by decide) (by decide) (Or.inl (by decide))⟩

/-! ## Registration of tables (`SetEcs.parseEcsTable`, `SetEcs.updateList`) -/

/-- C14: for the item `http://example.com/ecs-table.txt`, a well-formed URL and not
a file, `parseEcsTable` registers a table of type `ItemTypePath` with an empty
path, which `loadFromFile` does not load and which `updateList` sends to
`loadFromFile` again: its dictionary stays empty, although the URL serves an
entry that `loadFromUrl` loads into a table of type `ItemTypeUrl`, and although
`parseEcsBinding` registers the URL item of a binding with type `ItemTypeUrl`. -/
theorem C14_url_table_is_registered_as_path :
    FileExists urlWorld "http://example.com/ecs-table.txt" = false ∧
      IsURL "http://example.com/ecs-table.txt" = true ∧
      NewSetEcs.parseEcsTable urlWorld ["http://example.com/ecs-table.txt"] =
        ({ NewSetEcs with
           ecsTables := [newEcsTable ItemTypePath "" "http://example.com/ecs-table.txt"] },
         none) ∧
      ((NewSetEcs.parseEcsTable urlWorld ["http://example.com/ecs-table.txt"]).1.updateList
          urlWorld).ecsTables =
        [newEcsTable ItemTypePath "" "http://example.com/ecs-table.txt"] ∧
      ((newEcsTable ItemTypeUrl "" "http://example.com/ecs-table.txt").loadFromUrl urlWorld).dict =
        [("10.0.0.5", net.IPv4 203 0 113 9)] ∧
      (NewSetEcs.parseEcsBinding urlWorld "1.1.1.1"
          ["http://example.com/clients.txt"]).1.ecsBindings.map
        (fun b => (b.whichType, b.url, b.clients)) =
        [(ItemTypeUrl, "http://example.com/clients.txt",
          [.v4 { IPNet := { IP := [10, 0, 0, 0], Mask := [255, 255, 255, 0] } }])] := by
  refine ⟨?_, ?_, ?_, ?_, ?_, ?_⟩
  · decide
  · decide
  · decide
  · decide
  · decide
  · decide

/-! ## Reloading an unchanged source (`loadFromFile`, `loadFromUrl`) -/

theorem ecsBinding_loadFromFile_idem (eb : ecsBinding) (w : World) :
    (eb.loadFromFile w).loadFromFile w = eb.loadFromFile w := by
  unfold ecsBinding.loadFromFile
  by_cases h1 : eb.whichType ≠ ItemTypePath ∨ eb.path.length = 0
  · simp only [h1, if_true]
  · simp only [h1, if_false]
    cases hf : w.files eb.path with
    | none => simp only [h1, if_false, hf]
    | some stat =>
      simp only
      by_cases h2 : stat.mtime = eb.mtime ∧ stat.size = eb.size
      · simp only [h2, and_self, if_true, h1, if_false, hf]
      · simp only [h2, if_false]
        rcases ecsBinding.parse (scanLines stat.content) with ⟨addrs, t⟩
        simp only [h1, if_false, hf, and_self, if_true]

theorem ecsBinding_loadFromUrl_idem (eb : ecsBinding) (w : World) :
    (eb.loadFromUrl w).loadFromUrl w = eb.loadFromUrl w := by
  unfold ecsBinding.loadFromUrl
  by_cases h1 : eb.whichType ≠ ItemTypeUrl ∨ eb.url.length = 0
  · simp only [h1, if_true]
  · simp only [h1, if_false]
    cases hf : w.fetch eb.url with
    | none => simp only [h1, if_false, hf]
    | some content =>
      simp only
      by_cases h2 : StringHash content = eb.contentHash
      · simp only [h2, if_true, h1, if_false, hf]
      · simp only [h2, if_false]
        rcases ecsBinding.parseLoop (stringsSplit content '\n') [] 0 0 with ⟨addrs, t, n⟩
        simp only [h1, if_false, hf, if_true]

theorem ecsTable_loadFromFile_idem (et : ecsTable) (w : World) :
    (et.loadFromFile w).loadFromFile w = et.loadFromFile w := by
  unfold ecsTable.loadFromFile
  by_cases h1 : et.whichType ≠ ItemTypePath ∨ et.path.length = 0
  · simp only [h1, if_true]
  · simp only [h1, if_false]
    cases hf : w.files et.path with
    | none => simp only [h1, if_false, hf]
    | some stat =>
      simp only
      by_cases h2 : stat.mtime = et.mtime ∧ stat.size = et.size
      · simp only [h2, and_self, if_true, h1, if_false, hf]
      · simp only [h2, if_false]
        rcases ecsTable.parse (scanLines stat.content) with ⟨dict, t⟩
        simp only [h1, if_false, hf, and_self, if_true]

theorem ecsTable_loadFromUrl_idem (et : ecsTable) (w : World) :
    (et.loadFromUrl w).loadFromUrl w = et.loadFromUrl w := by
  unfold ecsTable.loadFromUrl
  by_cases h1 : et.whichType ≠ ItemTypeUrl ∨ et.url.length = 0
  · simp only [h1, if_true]
  · simp only [h1, if_false]
    cases hf : w.fetch et.url with
    | none => simp only [h1, if_false, hf]
    | some content =>
      simp only
      by_cases h2 : StringHash content = et.contentHash
      · simp only [h2, if_true, h1, if_false, hf]
      · simp only [h2, if_false]
        rcases ecsTable.parseLoop (stringsSplit content '\n') [] 0 with ⟨dict, t⟩
        simp only [h1, if_false, hf, if_true]

/-- C15: for every binding and every table, `loadFromFile` on a file whose
modification time and size are the stored ones returns without touching the
binding or table (subnet set, dictionary and metadata unchanged), `loadFromUrl` on
a body whose `StringHash` is the stored hash does the same, and loading the same
source a second time gives the state the first load gave. -/
theorem C15_unchanged_source_is_not_reloaded (eb : ecsBinding) (et : ecsTable) (w : World) :
    (∀ stat, w.files eb.path = some stat → stat.mtime = eb.mtime → stat.size = eb.size →
        eb.loadFromFile w = eb) ∧
      (∀ content, w.fetch eb.url = some content → StringHash content = eb.contentHash →
        eb.loadFromUrl w = eb) ∧
      (∀ stat, w.files et.path = some stat → stat.mtime = et.mtime → stat.size = et.size →
        et.loadFromFile w = et) ∧
      (∀ content, w.fetch et.url = some content → StringHash content = et.contentHash →
        et.loadFromUrl w = et) ∧
      (eb.loadFromFile w).loadFromFile w = eb.loadFromFile w ∧
      (eb.loadFromUrl w).loadFromUrl w = eb.loadFromUrl w ∧
      (et.loadFromFile w).loadFromFile w = et.loadFromFile w ∧
      (et.loadFromUrl w).loadFromUrl w = et.loadFromUrl w := by
  refine ⟨?_, ?_, ?_, ?_, ecsBinding_loadFromFile_idem eb w, ecsBinding_loadFromUrl_idem eb w,
    ecsTable_loadFromFile_idem et w, ecsTable_loadFromUrl_idem et w⟩
  · intro stat hf hm hs
    unfold ecsBinding.loadFromFile
    split
    · rfl
    · simp only [hf, hm, hs, and_self, if_true]
  · intro content hf hh
    unfold ecsBinding.loadFromUrl
    split
    · rfl
    · simp only [hf, hh, if_true]
  · intro stat hf hm hs
    unfold ecsTable.loadFromFile
    split
    · rfl
    · simp only [hf, hm, hs, and_self, if_true]
  · intro content hf hh
    unfold ecsTable.loadFromUrl
    split
    · rfl
    · simp only [hf, hh, if_true]

theorem C15_witness :
    (loadedBinding.clients, loadedBinding.mtime, loadedBinding.size) =
        ([.v4 { IPNet := { IP := [10, 0, 0, 0], Mask := [255, 255, 255, 0] } }],
         1700000000, 12) ∧
      loadedBinding.loadFromFile fileWorld = loadedBinding ∧
      (loadedUrlTable.dict, loadedUrlTable.contentHash) =
        ([("10.0.0.5", net.IPv4 203 0 113 9)], StringHash "10.0.0.5:203.0.113.9") ∧
      loadedUrlTable.loadFromUrl urlWorld = loadedUrlTable :=
  ⟨by decide,
   (C15_unchanged_source_is_not_reloaded loadedBinding loadedUrlTable fileWorld).1
     { mtime := 1700000000, size := 12, content := "10.0.0.0/24\n" }
     (by decide) (by decide) (by decide),
   by decide,
   (C15_unchanged_source_is_not_reloaded loadedBinding loadedUrlTable urlWorld).2.2.2.1
     "10.0.0.5:203.0.113.9" (by decide) (by decide)⟩

/-! ## Lines that fail to parse (`ecsTable.parse`, `ecsBinding.parse`) -/

theorem parseLine_eq_entry (dict : List (String × net.IP)) (line : String) :
    ecsTable.parseLine dict line =
      match tableLineEntry line with
      | some kv => dictSet dict kv.1 kv.2
      | none => dict := by
  unfold ecsTable.parseLine tableLineEntry
  split
  · rename_i key value _
    by_cases hk : IsIP key = true
    · simp only [hk, Bool.not_true, Bool.false_eq_true, if_false]
      cases net.ParseIP value <;> rfl
    · simp only [hk, Bool.not_false, Bool.not_eq_true] at *
      simp [hk]
  · rfl

theorem ecsBinding_loadFromFile_type (eb : ecsBinding) (w : World) :
    (eb.loadFromFile w).whichType = eb.whichType := by
  unfold ecsBinding.loadFromFile
  split
  · rfl
  · split
    · rfl
    · split
      · rfl
      · split
        rfl

theorem ecsBinding_loadFromUrl_type (eb : ecsBinding) (w : World) :
    (eb.loadFromUrl w).whichType = eb.whichType := by
  unfold ecsBinding.loadFromUrl
  split
  · rfl
  · split
    · rfl
    · split
      · rfl
      · split
        rfl

theorem InlineEcsBindingLoop_none (bs : List ecsBinding) (i : Nat)
    (h : InlineEcsBindingLoop bs i = none) :
    bs.filter (fun b => decide (b.whichType = ItemTypeInline)) = [] := by
  induction bs generalizing i with
  | nil => rfl
  | cons b rest ih =>
    unfold InlineEcsBindingLoop at h
    split at h
    · cases h
    · rename_i hb
      rw [List.filter_cons]
      simp only [hb, decide_False, Bool.false_eq_true, if_false]
      exact ih (i + 1) h

theorem InlineEcsBindingLoop_some (bs : List ecsBinding) (i j : Nat)
    (h : InlineEcsBindingLoop bs i = some j) :
    ∃ pre b post, bs = pre ++ b :: post ∧ j = i + pre.length ∧
      b.whichType = ItemTypeInline ∧
      pre.filter (fun b => decide (b.whichType = ItemTypeInline)) = [] := by
  induction bs generalizing i with
  | nil => cases h
  | cons b rest ih =>
    unfold InlineEcsBindingLoop at h
    split at h
    · rename_i hb
      cases h
      exact ⟨[], b, rest, rfl, rfl, hb, rfl⟩
    · rename_i hb
      obtain ⟨pre, b1, post, hbs, hj, hb1, hpre⟩ := ih (i + 1) h
      refine ⟨b :: pre, b1, post, by rw [hbs]; rfl, by simp only [List.length_cons]; omega,
        hb1, ?_⟩
      rw [List.filter_cons]
      simp only [hb, decide_False, Bool.false_eq_true, if_false]
      exact hpre

theorem get?_middle (pre post : List ecsBinding) (b : ecsBinding) :
    (pre ++ b :: post).get? pre.length = some b := by
  induction pre with
  | nil => rfl
  | cons p rest ih => simpa using ih

theorem addInlineAt_middle (se : SetEcs) (pre post : List ecsBinding) (b : ecsBinding)
    (ipn : iplib.Net) (hbs : se.ecsBindings = pre ++ b :: post) :
    (se.addInlineAt pre.length ipn).ecsBindings = pre ++ (b.addInline ipn).1 :: post := by
  unfold SetEcs.addInlineAt
  have hget : se.ecsBindings.get? pre.length = some b := by
    rw [hbs]
    exact get?_middle pre post b
  rw [hget]
  simp only
  rw [hbs]
  clear hbs hget
  induction pre with
  | nil => rfl
  | cons p rest ih => simp [List.set, ih]

theorem addInline_no_clients (b : ecsBinding) (ipn : iplib.Net) (h : b.clients = []) :
    (b.addInline ipn).1 = { b with inline := b.inline ++ [ipn] } := by
  unfold ecsBinding.addInline ecsBinding.existIpNet
  rw [h]
  rfl

theorem parseEcsBindingItem_inline (w : World) (ecsipb : net.IP) (se : SetEcs) (item : String)
    (lits : List iplib.Net) (h : inlineInvariant se lits) :
    inlineInvariant (SetEcs.parseEcsBindingItem w ecsipb se item)
      (lits ++ (literalOf w item).toList) := by
  unfold inlineInvariant literalOf at *
  unfold SetEcs.parseEcsBindingItem
  by_cases hf : FileExists w item = true
  · simp only [hf, if_true, Bool.true_or, Option.toList_none, List.append_nil]
    have : (se.addEcsBinding
        ((newEcsBinding ItemTypePath ecsipb item "").loadFromFile w)).inlineBindings =
        se.inlineBindings := by
      unfold SetEcs.inlineBindings SetEcs.addEcsBinding
      simp only [List.filter_append, List.filter_cons, List.filter_nil,
        ecsBinding_loadFromFile_type]
      simp [newEcsBinding, ItemTypePath, ItemTypeInline]
    rw [this]
    exact h
  · by_cases hu : IsURL item = true
    · simp only [hf, hu, if_true, Bool.false_eq_true, if_false, Bool.or_true, Option.toList_none,
        List.append_nil]
      have : (se.addEcsBinding
          ((newEcsBinding ItemTypeUrl ecsipb "" item).loadFromUrl w)).inlineBindings =
          se.inlineBindings := by
        unfold SetEcs.inlineBindings SetEcs.addEcsBinding
        simp only [List.filter_append, List.filter_cons, List.filter_nil,
          ecsBinding_loadFromUrl_type]
        simp [newEcsBinding, ItemTypeUrl, ItemTypeInline]
      rw [this]
      exact h
    · simp only [hf, hu, Bool.false_eq_true, if_false, Bool.or_self]
      cases hp : parseIpNet item with
      | none =>
        simp only [Option.toList_none, List.append_nil]
        exact h
      | some ipn =>
        simp only [Option.toList_some]
        right
        cases hi : se.InlineEcsBinding with
        | none =>
          simp only
          have hnone := InlineEcsBindingLoop_none se.ecsBindings 0 hi
          have hl : lits = [] := by
            rcases h with ⟨_, hl⟩ | ⟨ip0, hb, _⟩
            · exact hl
            · unfold SetEcs.inlineBindings at hb
              rw [hnone] at hb
              cases hb
          subst hl
          refine ⟨ecsipb, ?_, by simp⟩
          have hbs : (se.addEcsBinding (newEcsBinding ItemTypeInline ecsipb "" "")).ecsBindings =
              se.ecsBindings ++ newEcsBinding ItemTypeInline ecsipb "" "" :: [] := rfl
          unfold SetEcs.inlineBindings
          rw [addInlineAt_middle _ _ _ _ ipn hbs, addInline_no_clients _ _ rfl,
            List.filter_append, hnone]
          rfl
        | some j =>
          simp only
          obtain ⟨pre, b, post, hbs, hj, hb, hpre⟩ :=
            InlineEcsBindingLoop_some se.ecsBindings 0 j hi
          have hj2 : j = pre.length := by omega
          subst hj2
          have hinl : se.inlineBindings =
              b :: post.filter (fun b => decide (b.whichType = ItemTypeInline)) := by
            unfold SetEcs.inlineBindings
            rw [hbs, List.filter_append, hpre, List.nil_append, List.filter_cons]
            simp [hb]
          rcases h with ⟨hempty, _⟩ | ⟨ip0, hone, _⟩
          · rw [hinl] at hempty
            cases hempty
          · rw [hinl] at hone
            simp only [List.cons.injEq] at hone
            obtain ⟨hb0, hpost⟩ := hone
            refine ⟨ip0, ?_, by simp⟩
            unfold SetEcs.inlineBindings
            rw [addInlineAt_middle se pre post b ipn hbs,
              addInline_no_clients b ipn (by rw [hb0]; rfl),
              List.filter_append, hpre, List.nil_append, List.filter_cons, hpost, hb0]
            rfl

theorem parseEcsBinding_items_inline (w : World) (ecsipb : net.IP) (items : List String)
    (se : SetEcs) (lits : List iplib.Net) (h : inlineInvariant se lits) :
    inlineInvariant (items.foldl (SetEcs.parseEcsBindingItem w ecsipb) se)
      (lits ++ items.filterMap (literalOf w)) := by
  induction items generalizing se lits with
  | nil => simpa using h
  | cons item rest ih =>
    have h1 := ih _ _ (parseEcsBindingItem_inline w ecsipb se item lits h)
    rw [List.foldl_cons, List.filterMap_cons]
    cases hl : literalOf w item with
    | none =>
      rw [hl] at h1
      simpa using h1
    | some ipn =>
      rw [hl] at h1
      simpa using h1

theorem parseEcsBindingCalls_inline (calls : List (World × String × List String))
    (se se1 : SetEcs) (lits : List iplib.Net) (h : inlineInvariant se lits)
    (hrun : parseEcsBindingCalls se calls = (se1, none)) :
    inlineInvariant se1 (lits ++ inlineLiterals calls) := by
  induction calls generalizing se lits with
  | nil =>
    simp only [parseEcsBindingCalls, Prod.mk.injEq, and_true] at hrun
    subst hrun
    simpa [inlineLiterals] using h
  | cons c rest ih =>
    obtain ⟨w, ecsip, items⟩ := c
    unfold parseEcsBindingCalls at hrun
    unfold SetEcs.parseEcsBinding at hrun
    cases hp : net.ParseIP ecsip with
    | none =>
      rw [hp] at hrun
      simp at hrun
    | some ecsipb =>
      rw [hp] at hrun
      simp only at hrun
      have h1 := ih _ _ (parseEcsBinding_items_inline w ecsipb items se lits h) hrun
      simpa [inlineLiterals, List.flatMap_cons] using h1

theorem parseEcsBindingSeq_inline (calls : List (World × String × List String))
    (se : SetEcs) (lits : List iplib.Net) (h : inlineInvariant se lits) :
    inlineInvariant (parseEcsBindingSeq se calls)
      (lits ++ inlineLiterals (acceptedCalls calls)) := by
  induction calls generalizing se lits with
  | nil => simpa [parseEcsBindingSeq, acceptedCalls, inlineLiterals] using h
  | cons c rest ih =>
    obtain ⟨w, ecsip, items⟩ := c
    unfold parseEcsBindingSeq
    unfold SetEcs.parseEcsBinding
    cases hp : net.ParseIP ecsip with
    | none =>
      have h1 := ih se lits h
      have ha : acceptedCalls ((w, ecsip, items) :: rest) = acceptedCalls rest := by
        simp [acceptedCalls, List.filter_cons, hp]
      rw [ha]
      exact h1
    | some ecsipb =>
      have h1 := ih _ _ (parseEcsBinding_items_inline w ecsipb items se lits h)
      have ha : acceptedCalls ((w, ecsip, items) :: rest) =
          (w, ecsip, items) :: acceptedCalls rest := by
        simp [acceptedCalls, List.filter_cons, hp]
      rw [ha]
      simpa [inlineLiterals, List.flatMap_cons] using h1

theorem parseEcsBindingCalls_takeWhile (calls : List (World × String × List String))
    (se : SetEcs) :
    (parseEcsBindingCalls se calls).1 =
      parseEcsBindingSeq se (calls.takeWhile (fun c => (net.ParseIP c.2.1).isSome)) := by
  induction calls generalizing se with
  | nil => rfl
  | cons c rest ih =>
    obtain ⟨w, ecsip, items⟩ := c
    unfold parseEcsBindingCalls
    unfold SetEcs.parseEcsBinding
    cases hp : net.ParseIP ecsip with
    | none => simp [List.takeWhile_cons, hp, parseEcsBindingSeq]
    | some ecsipb =>
      simp only [List.takeWhile_cons, hp, Option.isSome_some, if_true]
      rw [ih]
      simp only [parseEcsBindingSeq, SetEcs.parseEcsBinding, hp]

theorem parseEcsBindingCalls_all (calls : List (World × String × List String))
    (se : SetEcs) (h : ∀ c ∈ calls, (net.ParseIP c.2.1).isSome = true) :
    parseEcsBindingCalls se calls = (parseEcsBindingSeq se calls, none) := by
  induction calls generalizing se with
  | nil => rfl
  | cons c rest ih =>
    obtain ⟨w, ecsip, items⟩ := c
    have hc := h (w, ecsip, items) (List.mem_cons_self _ _)
    simp only at hc
    unfold parseEcsBindingCalls
    unfold SetEcs.parseEcsBinding
    cases hp : net.ParseIP ecsip with
    | none => rw [hp] at hc; cases hc
    | some ecsipb =>
      simp only
      rw [ih _ (fun c hcm => h c (List.mem_cons_of_mem _ hcm))]
      simp only [parseEcsBindingSeq, SetEcs.parseEcsBinding, hp]

/-- What the invariant of the configuration of bindings says of the registry. -/
theorem inlineInvariant_bindings (se : SetEcs) (lits : List iplib.Net)
    (h : inlineInvariant se lits) :
    se.inlineBindings.length ≤ 1 ∧
      (∀ b ∈ se.ecsBindings, b.whichType = ItemTypeInline → b.inline = lits) ∧
      (lits ≠ [] → ∃ b ∈ se.ecsBindings, b.whichType = ItemTypeInline) := by
  have hmem : ∀ b, b ∈ se.inlineBindings ↔ b ∈ se.ecsBindings ∧ b.whichType = ItemTypeInline := by
    intro b
    unfold SetEcs.inlineBindings
    rw [List.mem_filter]
    simp
  rcases h with ⟨hnil, hl⟩ | ⟨ip0, hone, hl⟩
  · refine ⟨by rw [hnil]; simp, ?_, ?_⟩
    · intro b hb ht
      have := (hmem b).mpr ⟨hb, ht⟩
      rw [hnil] at this
      cases this
    · intro hne
      exact absurd hl hne
  · refine ⟨by rw [hone]; simp, ?_, ?_⟩
    · intro b hb ht
      have := (hmem b).mpr ⟨hb, ht⟩
      rw [hone] at this
      simp only [List.mem_singleton] at this
      rw [this]
    · intro _
      have : { newEcsBinding ItemTypeInline ip0 "" "" with inline := lits } ∈
          se.inlineBindings := by
        rw [hone]
        simp
      exact ⟨_, ((hmem _).mp this).1, ((hmem _).mp this).2⟩

/-- C18 (as stated, refuted): a call whose substitute address is not an address
returns its error before it reads its items, so that its literal items are in no
inline set.  After the calls `("bad", ["1.2.3.4"])`, `("1.1.1.1", ["5.6.7.8"])`
on a new resolver the inline set of the one inline binding is `5.6.7.8/32`, while
the literal items of every call are `1.2.3.4/32`, `5.6.7.8/32`; the same holds
when the failing call is the last one and the configuration stops there. -/
theorem C18_counterexample :
    NewSetEcs.parseEcsBinding emptyWorld "bad" ["1.2.3.4"] =
        (NewSetEcs, some "error ecsip bad") ∧
      (parseEcsBindingSeq NewSetEcs failingCalls).ecsBindings.map
          (fun b => (b.whichType, b.inline)) =
        [(ItemTypeInline,
          [.v4 { IPNet := { IP := [5, 6, 7, 8], Mask := [255, 255, 255, 255] } }])] ∧
      inlineLiterals failingCalls =
        [.v4 { IPNet := { IP := [1, 2, 3, 4], Mask := [255, 255, 255, 255] } },
         .v4 { IPNet := { IP := [5, 6, 7, 8], Mask := [255, 255, 255, 255] } }] ∧
      ¬(∀ b ∈ (parseEcsBindingSeq NewSetEcs failingCalls).ecsBindings,
          b.whichType = ItemTypeInline → b.inline = inlineLiterals failingCalls) ∧
      (parseEcsBindingCalls NewSetEcs endFailingCalls).2 = some "error ecsip bad" ∧
      (parseEcsBindingCalls NewSetEcs endFailingCalls).1.ecsBindings.map
          (fun b => (b.whichType, b.inline)) =
        [(ItemTypeInline,
          [.v4 { IPNet := { IP := [5, 6, 7, 8], Mask := [255, 255, 255, 255] } }])] ∧
      inlineLiterals endFailingCalls =
        [.v4 { IPNet := { IP := [5, 6, 7, 8], Mask := [255, 255, 255, 255] } },
         .v4 { IPNet := { IP := [1, 2, 3, 4], Mask := [255, 255, 255, 255] } }] := by
  refine ⟨?_, ?_, ?_, ?_, ?_, ?_, ?_⟩
  · decide
  · decide
  · decide
  · decide
  · decide
  · decide
  · decide

/-- C18 (amended): after any sequence of `parseEcsBinding` calls on a new resolver,
each made whatever the calls before it returned, at most one registered binding
has type `ItemTypeInline`; the inline subnet set of such a binding is the list,
in declaration order, of the ranges of every literal item (an item that is
neither an existing file nor a URL and that `parseIpNet` accepts) of every call
whose substitute address is an address, and there is such a binding as soon as
that list is not empty.  A run that stops at the first error, as the reading of
a configuration does, leaves the resolver of the calls before the failing one;
and when the substitute address of every call is an address, no call is left
out and the run returns no error. -/
theorem C18_single_inline_binding (calls : List (World × String × List String)) :
    (parseEcsBindingSeq NewSetEcs calls).inlineBindings.length ≤ 1 ∧
      (∀ b ∈ (parseEcsBindingSeq NewSetEcs calls).ecsBindings, b.whichType = ItemTypeInline →
        b.inline = inlineLiterals (acceptedCalls calls)) ∧
      (inlineLiterals (acceptedCalls calls) ≠ [] →
        ∃ b ∈ (parseEcsBindingSeq NewSetEcs calls).ecsBindings,
          b.whichType = ItemTypeInline) ∧
      (parseEcsBindingCalls NewSetEcs calls).1 =
        parseEcsBindingSeq NewSetEcs
          (calls.takeWhile (fun c => (net.ParseIP c.2.1).isSome)) ∧
      ((∀ c ∈ calls, (net.ParseIP c.2.1).isSome = true) →
        acceptedCalls calls = calls ∧
          parseEcsBindingCalls NewSetEcs calls =
            (parseEcsBindingSeq NewSetEcs calls, none)) := by
  have h0 : inlineInvariant NewSetEcs [] := Or.inl ⟨rfl, rfl⟩
  have h := parseEcsBindingSeq_inline calls NewSetEcs [] h0
  rw [List.nil_append] at h
  obtain ⟨h1, h2, h3⟩ := inlineInvariant_bindings _ _ h
  refine ⟨h1, h2, h3, parseEcsBindingCalls_takeWhile calls NewSetEcs, ?_⟩
  intro hall
  refine ⟨?_, parseEcsBindingCalls_all calls NewSetEcs hall⟩
  unfold acceptedCalls
  rw [List.filter_eq_self]
  exact hall

theorem C18_witness :
    (∀ b ∈ (parseEcsBindingSeq NewSetEcs failingCalls).ecsBindings,
        b.whichType = ItemTypeInline →
        b.inline = [.v4 { IPNet := { IP := [5, 6, 7, 8], Mask := [255, 255, 255, 255] } }]) ∧
      ((∀ c ∈ twoCalls, (net.ParseIP c.2.1).isSome = true) ∧
        acceptedCalls twoCalls = twoCalls ∧
        parseEcsBindingCalls NewSetEcs twoCalls =
          (parseEcsBindingSeq NewSetEcs twoCalls, none)) ∧
      (parseEcsBindingSeq NewSetEcs twoCalls).ecsBindings.map
          (fun b => (b.whichType, b.ecsip, b.inline)) =
        [(ItemTypeInline, net.IPv4 1 1 1 1,
            [.v4 { IPNet := { IP := [127, 0, 0, 1], Mask := [255, 255, 255, 255] } },
             .v4 { IPNet := { IP := [172, 21, 66, 0], Mask := [255, 255, 255, 0] } }]),
         (ItemTypePath, net.IPv4 1 1 1 1, []),
         (ItemTypeUrl, net.IPv4 2 2 2 2, [])] ∧
      (∀ b ∈ (parseEcsBindingSeq NewSetEcs twoCalls).ecsBindings,
        b.whichType = ItemTypeInline → b.inline = inlineLiterals (acceptedCalls twoCalls)) :=
  ⟨fun b hb ht => ((C18_single_inline_binding failingCalls).2.1 b hb ht).trans (by decide),
   ⟨by decide, (C18_single_inline_binding twoCalls).2.2.2.2 (by decide)⟩,
   by decide,
   (C18_single_inline_binding twoCalls).2.1⟩

/-- C19: `parseEcsBinding` returns an error exactly when the substitute address
string does not parse as an IP address; in that case it returns before its loop
and the resolver, with its list of bindings, is as it was; with a substitute
address that parses it returns no error, whatever the items are. -/
theorem C19_error_iff_bad_substitute (se : SetEcs) (w : World) (ecsip : String)
    (items : List String) :
    ((se.parseEcsBinding w ecsip items).2.isSome = true ↔ net.ParseIP ecsip = none) ∧
      (net.ParseIP ecsip = none →
        (se.parseEcsBinding w ecsip items).1 = se ∧
        (se.parseEcsBinding w ecsip items).1.ecsBindings = se.ecsBindings) ∧
      (∀ ecsipb, net.ParseIP ecsip = some ecsipb →
        se.parseEcsBinding w ecsip items =
          (items.foldl (SetEcs.parseEcsBindingItem w ecsipb) se, none)) := by
  unfold SetEcs.parseEcsBinding
  cases hp : net.ParseIP ecsip with
  | none => simp
  | some ecsipb => simp

theorem C19_witness :
    net.ParseIP "not-an-ip" = none ∧
      (exampleState.parseEcsBinding fileWorld "not-an-ip" ["127.0.0.1", "clients.txt"]).1 =
        exampleState ∧
      (exampleState.parseEcsBinding fileWorld "not-an-ip" ["127.0.0.1", "clients.txt"]).2.isSome
        = true ∧
      (exampleState.parseEcsBinding fileWorld "1.1.1.1" ["nonsense", "256.1.1.1/99"]).2 = none :=
  ⟨by decide,
   ((C19_error_iff_bad_substitute exampleState fileWorld "not-an-ip"
      ["127.0.0.1", "clients.txt"]).2.1 (by decide)).1,
   (C19_error_iff_bad_substitute exampleState fileWorld "not-an-ip"
      ["127.0.0.1", "clients.txt"]).1.mpr (by decide),
   congrArg Prod.snd ((C19_error_iff_bad_substitute exampleState fileWorld "1.1.1.1"
      ["nonsense", "256.1.1.1/99"]).2.2 (net.IPv4 1 1 1 1) (by decide))⟩

/-! ## The registry locks (`SetEcs.MatchEcsTable`, `SetEcs.MatchEcsBinding`) -/

theorem MatchEcsTable_lock (se : SetEcs) (ipstr : String) :
    (se.MatchEcsTable ipstr).2.ecsTablesLock =
      if (MatchEcsTableLoop ipstr se.ecsTables).isSome then se.ecsTablesLock + 1
      else se.ecsTablesLock := by
  unfold SetEcs.MatchEcsTable
  simp only
  cases MatchEcsTableLoop ipstr se.ecsTables <;> simp

theorem MatchEcsBinding_lock (se : SetEcs) (ip : net.IP) :
    (se.MatchEcsBinding ip).2.ecsBindingsLock =
      if (MatchEcsBindingLoop ip se.ecsBindings).isSome then se.ecsBindingsLock + 1
      else se.ecsBindingsLock := by
  unfold SetEcs.MatchEcsBinding
  simp only
  cases MatchEcsBindingLoop ip se.ecsBindings <;> simp

/-- C20: on the resolver of the specification's example no read lock is held; after
`MatchEcsTable("10.0.0.5")`, which finds the key, one read lock is held on
`ecsTablesLock`, and after `MatchEcsBinding(10.0.0.5)`, which finds a binding, one
is held on `ecsBindingsLock`: the return inside the loop skips `RUnlock`.  The
calls that find nothing (`10.0.0.6`) release the lock. -/
theorem C20_read_lock_kept_on_match :
    exampleState.ecsTablesLock = 0 ∧ exampleState.ecsBindingsLock = 0 ∧
      (exampleState.MatchEcsTable "10.0.0.5").1 = some (net.IPv4 203 0 113 9) ∧
      (exampleState.MatchEcsTable "10.0.0.5").2.ecsTablesLock = 1 ∧
      (exampleState.MatchEcsBinding (net.IPv4 10 0 0 5)).1 = some (net.IPv4 203 0 113 9) ∧
      (exampleState.MatchEcsBinding (net.IPv4 10 0 0 5)).2.ecsBindingsLock = 1 ∧
      (exampleState.MatchEcsTable "10.0.0.6").1 = none ∧
      (exampleState.MatchEcsTable "10.0.0.6").2.ecsTablesLock = 0 ∧
      (exampleState.MatchEcsBinding (net.IPv4 10 0 1 6)).1 = none ∧
      (exampleState.MatchEcsBinding (net.IPv4 10 0 1 6)).2.ecsBindingsLock = 0 := by
  refine ⟨rfl, rfl, ?_, ?_, ?_, ?_, ?_, ?_, ?_, ?_⟩
  · decide
  · decide
  · decide
  · decide
  · decide
  · decide
  · decide
  · decide

/-! ## The entries of a table (`ecsTable.parse`, `ecsTable.loadFromUrl`) -/

theorem splitOnChar_no_sep (sep : Char) (l : List Char) :
    ∀ f ∈ splitOnChar sep l, sep ∉ f := by
  induction l with
  | nil =>
    intro f hf
    simp only [splitOnChar, List.mem_singleton] at hf
    subst hf
    simp
  | cons c cs ih =>
    intro f hf
    unfold splitOnChar at hf
    split at hf
    · rcases List.mem_cons.mp hf with rfl | hf
      · simp
      · exact ih f hf
    · rename_i hc
      split at hf
      · simp only [List.mem_singleton] at hf
        subst hf
        simp only [List.mem_singleton]
        exact fun e => hc e.symm
      · rename_i g gs hg
        rcases List.mem_cons.mp hf with rfl | hf
        · intro hmem
          rcases List.mem_cons.mp hmem with e | hmem
          · exact hc e.symm
          · exact ih g (by rw [hg]; exact List.mem_cons_self _ _) hmem
        · exact ih f (by rw [hg]; exact List.mem_cons_of_mem _ hf)

theorem splitOnChar_ne_nil (sep : Char) (l : List Char) : splitOnChar sep l ≠ [] := by
  cases l with
  | nil => simp [splitOnChar]
  | cons c cs =>
    unfold splitOnChar
    split
    · simp
    · split <;> simp

theorem splitOnChar_two (sep : Char) (l a b : List Char)
    (h : splitOnChar sep l = [a, b]) : l = a ++ sep :: b := by
  induction l generalizing a with
  | nil => simp [splitOnChar] at h
  | cons c cs ih =>
    unfold splitOnChar at h
    split at h
    · rename_i hc
      simp only [List.cons.injEq] at h
      obtain ⟨ha, hb⟩ := h
      subst ha
      subst hc
      have hno := splitOnChar_no_sep c cs
      rw [hb] at hno
      have hb1 : c ∉ b := hno b (by simp)
      -- a single field without separator is the whole input
      have : ∀ (l : List Char) (x : List Char), splitOnChar c l = [x] → l = x := by
        intro l
        induction l with
        | nil => intro x hx; simp only [splitOnChar, List.cons.injEq, and_true] at hx; exact hx
        | cons d ds ihd =>
          intro x hx
          unfold splitOnChar at hx
          split at hx
          · simp only [List.cons.injEq] at hx
            exact absurd hx.2 (splitOnChar_ne_nil c ds)
          · split at hx
            · rename_i hnil
              exact absurd hnil (splitOnChar_ne_nil c ds)
            · rename_i g gs hg
              simp only [List.cons.injEq] at hx
              obtain ⟨hx1, hx2⟩ := hx
              subst hx2
              rw [← hx1, ihd g hg]
      rw [this cs b hb]
      rfl
    · split at h
      · simp at h
      · rename_i g gs hg
        simp only [List.cons.injEq] at h
        obtain ⟨ha, hgs⟩ := h
        subst hgs
        rw [ih g hg, ← ha]
        rfl

theorem ParseIPScan_no_colon (s l : List Char) (ip : net.IP) (hl : ':' ∉ l)
    (h : net.ParseIPScan s l = some ip) : net.parseIPv4 s = some ip := by
  induction l with
  | nil => simp [net.ParseIPScan] at h
  | cons c cs ih =>
    unfold net.ParseIPScan at h
    split at h
    · exact h
    · split at h
      · rename_i hc
        subst hc
        simp at hl
      · exact ih (fun hm => hl (List.mem_cons_of_mem _ hm)) h

theorem parseIPv6_none_of_no_colon (s : List Char) (hs : ':' ∉ s) : net.parseIPv6 s = none := by
  apply parseIPv6_none_of_dot_first
  intro pre post e
  exact absurd (by rw [e]; simp) hs

theorem To4_of_parseIPv4 (s : List Char) (ip : net.IP) (h : net.parseIPv4 s = some ip) :
    ∃ p, p.length = 4 ∧ ip = net.v4InV6Prefix ++ p ∧ net.To4 ip = some p := by
  obtain ⟨⟨p, hp, hlen⟩, _⟩ := parseIPv4_some s ip h
  refine ⟨p, hlen, hp, ?_⟩
  subst hp
  match p, hlen with
  | [a, b, c, d], _ => simp [net.To4, net.v4InV6Prefix, net.IPv4len, net.IPv6len, net.isZeros]

theorem tableLineEntry_some (line key : String) (ip : net.IP)
    (h : tableLineEntry line = some (key, ip)) :
    ∃ value, stringsSplit (stripComment line) ':' = [key, value] ∧ IsIP key = true ∧
      net.ParseIP value = some ip := by
  unfold tableLineEntry at h
  split at h
  · rename_i k value hsp
    split at h
    · cases h
    · rename_i hk
      split at h
      · rename_i ip1 hp
        simp only [Option.some.injEq, Prod.mk.injEq] at h
        obtain ⟨rfl, rfl⟩ := h
        exact ⟨value, hsp, by simpa using hk, hp⟩
      · cases h
  · cases h

theorem mem_dictSet (dict : List (String × net.IP)) (key : String) (ip : net.IP)
    (kv : String × net.IP) (h : kv ∈ dictSet dict key ip) : kv ∈ dict ∨ kv = (key, ip) := by
  induction dict with
  | nil =>
    simp only [dictSet, List.mem_singleton] at h
    exact Or.inr h
  | cons x rest ih =>
    obtain ⟨a, v⟩ := x
    unfold dictSet at h
    split at h
    · rename_i ha
      rcases List.mem_cons.mp h with h | h
      · right
        rw [h, ha]
      · exact Or.inl (List.mem_cons_of_mem _ h)
    · rcases List.mem_cons.mp h with h | h
      · left
        rw [h]
        exact List.mem_cons_self _ _
      · rcases ih h with h | h
        · exact Or.inl (List.mem_cons_of_mem _ h)
        · exact Or.inr h

theorem ecsTable_parseLoop_mem (lines : List String) (dict : List (String × net.IP)) (t : Nat)
    (kv : String × net.IP) (h : kv ∈ (ecsTable.parseLoop lines dict t).1) :
    kv ∈ dict ∨ ∃ line ∈ lines, tableLineEntry line = some kv := by
  induction lines generalizing dict t with
  | nil => exact Or.inl h
  | cons line rest ih =>
    simp only [ecsTable.parseLoop] at h
    rcases ih _ _ h with h1 | ⟨l, hl, he⟩
    · rw [parseLine_eq_entry] at h1
      cases he : tableLineEntry line with
      | none =>
        rw [he] at h1
        exact Or.inl h1
      | some kv1 =>
        rw [he] at h1
        rcases mem_dictSet _ _ _ _ h1 with h2 | h2
        · exact Or.inl h2
        · right
          refine ⟨line, List.mem_cons_self _ _, ?_⟩
          rw [he, h2]
    · exact Or.inr ⟨l, List.mem_cons_of_mem _ hl, he⟩

theorem tableLineEntry_fields (line key : String) (ip : net.IP)
    (h : tableLineEntry line = some (key, ip)) :
    ∃ value : String,
      (stripComment line).toList = key.toList ++ ':' :: value.toList ∧
        ':' ∉ key.toList ∧ ':' ∉ value.toList ∧
        net.ParseIP value = some ip ∧ net.parseIPv4 value.toList = some ip := by
  obtain ⟨value, hsp, _, hp⟩ := tableLineEntry_some line key ip h
  unfold stringsSplit at hsp
  have hno := splitOnChar_no_sep ':' (stripComment line).toList
  match hf : splitOnChar ':' (stripComment line).toList, hsp with
  | [a, b], hsp =>
    rw [hf] at hno
    simp only [List.map_cons, List.map_nil, List.cons.injEq, and_true] at hsp
    obtain ⟨rfl, rfl⟩ := hsp
    have ha : ':' ∉ a := hno a (by simp)
    have hb : ':' ∉ b := hno b (by simp)
    refine ⟨String.mk b, splitOnChar_two _ _ _ _ hf, ha, hb, hp, ?_⟩
    exact ParseIPScan_no_colon _ _ ip hb hp

/-- C21: for every sequence of lines, every entry of the dictionary that
`ecsTable.parse` returns has a key without `:` and a substitute address that is
an IPv4 address (the 16-byte form of four bytes, for which `To4` is not nil), and
comes from a line of the sequence that the loop accepts; and a line that the loop
accepts is, up to its comment, `key:value` with no `:` in the key nor in the
value, so that neither is written as an IPv6 address (`parseIPv6` rejects both)
and the substitute is the value read by `parseIPv4`. -/
theorem C21_table_entries_are_ipv4 (lines : List String) :
    (∀ kv ∈ (ecsTable.parse lines).1,
        ':' ∉ kv.1.toList ∧
          (∃ p, p.length = 4 ∧ kv.2 = net.v4InV6Prefix ++ p ∧ net.To4 kv.2 = some p) ∧
          ∃ line ∈ lines, tableLineEntry line = some kv) ∧
      (∀ line key ip, tableLineEntry line = some (key, ip) →
        ∃ value : String,
          (stripComment line).toList = key.toList ++ ':' :: value.toList ∧
            ':' ∉ key.toList ∧ ':' ∉ value.toList ∧
            net.parseIPv6 key.toList = none ∧ net.parseIPv6 value.toList = none ∧
            net.ParseIP value = some ip ∧ net.parseIPv4 value.toList = some ip) := by
  constructor
  · intro kv hkv
    obtain ⟨key, ip⟩ := kv
    rcases ecsTable_parseLoop_mem lines [] 0 (key, ip) hkv with h | ⟨line, hl, he⟩
    · simp at h
    · obtain ⟨value, _, hk, _, _, h4⟩ := tableLineEntry_fields line key ip he
      exact ⟨hk, To4_of_parseIPv4 _ ip h4, line, hl, he⟩
  · intro line key ip he
    obtain ⟨value, hs, hk, hv, hp, h4⟩ := tableLineEntry_fields line key ip he
    exact ⟨value, hs, hk, hv, parseIPv6_none_of_no_colon _ hk,
      parseIPv6_none_of_no_colon _ hv, hp, h4⟩

theorem C21_witness :
    ecsTable.parse ipv6Lines = ([("10.0.0.5", net.IPv4 203 0 113 9)], 4) ∧
      (net.parseIPv6 "::1".toList, net.parseIPv6 "2001:db8::1".toList) =
        (some [0, 0, 0, 0, 0, 0, 0, 0, 0, 0, 0, 0, 0, 0, 0, 1],
         some [0x20, 0x01, 0x0d, 0xb8, 0, 0, 0, 0, 0, 0, 0, 0, 0, 0, 0, 1]) ∧
      (':' ∉ "10.0.0.5".toList ∧
        (∃ p, p.length = 4 ∧ net.IPv4 203 0 113 9 = net.v4InV6Prefix ++ p ∧
          net.To4 (net.IPv4 203 0 113 9) = some p) ∧
        ∃ line ∈ ipv6Lines, tableLineEntry line = some ("10.0.0.5", net.IPv4 203 0 113 9)) :=
  ⟨by decide, by decide,
   (C21_table_entries_are_ipv4 ipv6Lines).1 ("10.0.0.5", net.IPv4 203 0 113 9) (by decide)⟩

/-! ## Round trip of the option (`setECS`, `getMsgECS`) -/

theorem IsEdns0Loop_inv (l : List dns.RR) (r : Option (Nat × dns.OPT))
    (h : dns.IsEdns0Loop l = .ok r) :
    match r with
    | none => ∀ rr ∈ l, rr.Header.Rrtype ≠ dns.TypeOPT
    | some (i, o) => ∃ xs before, l = xs ++ dns.RR.OPT o :: before ∧ i = before.length ∧
        o.Hdr.Rrtype = dns.TypeOPT ∧ ∀ rr ∈ xs, rr.Header.Rrtype ≠ dns.TypeOPT := by
  induction l with
  | nil =>
    simp only [dns.IsEdns0Loop, Except.ok.injEq] at h
    subst h
    simp
  | cons x rest ih =>
    unfold dns.IsEdns0Loop at h
    split at h
    · rename_i hx
      cases x with
      | OPT o =>
        simp only [Except.ok.injEq] at h
        subst h
        exact ⟨[], rest, rfl, rfl, hx, by simp⟩
      | other hdr rdata => cases h
    · rename_i hx
      have := ih h
      cases r with
      | none =>
        intro rr hrr
        rcases List.mem_cons.mp hrr with rfl | hrr
        · exact hx
        · exact this rr hrr
      | some io =>
        obtain ⟨i, o⟩ := io
        obtain ⟨xs, before, hl, hi, ho, hxs⟩ := this
        refine ⟨x :: xs, before, by rw [hl]; rfl, hi, ho, ?_⟩
        intro rr hrr
        rcases List.mem_cons.mp hrr with rfl | hrr
        · exact hx
        · exact hxs rr hrr

theorem IsEdns0_none_inv (m : dns.Msg) (h : dns.IsEdns0 m = .ok none) :
    ∀ rr ∈ m.Extra, rr.Header.Rrtype ≠ dns.TypeOPT := by
  have := IsEdns0Loop_inv m.Extra.reverse none h
  intro rr hrr
  exact this rr (List.mem_reverse.mpr hrr)

theorem IsEdns0_some_inv (m : dns.Msg) (i : Nat) (opt : dns.OPT)
    (h : dns.IsEdns0 m = .ok (some (i, opt))) :
    ∃ before after, m.Extra = before ++ dns.RR.OPT opt :: after ∧ i = before.length ∧
      opt.Hdr.Rrtype = dns.TypeOPT ∧ ∀ rr ∈ after, rr.Header.Rrtype ≠ dns.TypeOPT := by
  obtain ⟨xs, before, hl, hi, ho, hxs⟩ := IsEdns0Loop_inv m.Extra.reverse (some (i, opt)) h
  refine ⟨before.reverse, xs.reverse, ?_, by simp [hi], ho, ?_⟩
  · have := congrArg List.reverse hl
    rw [List.reverse_reverse] at this
    rw [this]
    simp
  · intro rr hrr
    exact hxs rr (List.mem_reverse.mp hrr)

/-- The options `setECS` leaves in the OPT record: an ECS option overwritten where the
first one stood, or added at the end. -/
theorem setECSLoop_shape (e : dns.EDNS0_SUBNET) (opts : List dns.EDNS0) :
    ∃ pre post,
      (match setECSLoop e opts with
        | some os => os
        | none => opts ++ [dns.EDNS0.SUBNET e]) = pre ++ dns.EDNS0.SUBNET e :: post ∧
        ∀ o ∈ pre, o.Option ≠ dns.EDNS0SUBNET := by
  induction opts with
  | nil => exact ⟨[], [], rfl, by simp⟩
  | cons o os ih =>
    by_cases ho : o.Option = dns.EDNS0SUBNET
    · refine ⟨[], os, ?_, by simp⟩
      simp only [setECSLoop, if_pos ho]
      rfl
    · obtain ⟨pre, post, hs, hpre⟩ := ih
      refine ⟨o :: pre, post, ?_, ?_⟩
      · simp only [setECSLoop, if_neg ho]
        cases hl : setECSLoop e os with
        | some os1 =>
          rw [hl] at hs
          simp only at hs ⊢
          rw [hs]
          rfl
        | none =>
          rw [hl] at hs
          simp only at hs ⊢
          rw [List.cons_append, hs]
          rfl
      · intro x hx
        rcases List.mem_cons.mp hx with rfl | hx
        · exact ho
        · exact hpre x hx

/-- On a message whose OPT record has the option `e` as its first ECS option,
`getMsgECS` returns `e` and `setECS` with `e` leaves the message as it is. -/
theorem setECS_fixed (m : dns.Msg) (e : dns.EDNS0_SUBNET) (before after : List dns.RR)
    (opt : dns.OPT) (pre post : List dns.EDNS0)
    (hex : m.Extra = before ++ dns.RR.OPT opt :: after)
    (hopt : opt.Hdr.Rrtype = dns.TypeOPT)
    (hafter : ∀ rr ∈ after, rr.Header.Rrtype ≠ dns.TypeOPT)
    (hopts : opt.Option = pre ++ dns.EDNS0.SUBNET e :: post)
    (hpre : ∀ o ∈ pre, o.Option ≠ dns.EDNS0SUBNET) :
    getMsgECS m = .ok (some e) ∧ setECS m e = .ok m := by
  have hi := IsEdns0_split m before after opt hex hopt hafter
  constructor
  · unfold getMsgECS
    rw [hi]
    simp only
    rw [hopts]
    exact getMsgECSLoop_first pre post e hpre
  · unfold setECS
    rw [hi]
    simp only
    rw [hopts, setECSLoop_replace e pre post (dns.EDNS0.SUBNET e) hpre rfl]
    simp only
    rw [← hopts, hex, set_middle]
    show Except.ok { m with Extra := before ++ dns.RR.OPT opt :: after } = Except.ok m
    rw [← hex]

theorem IsEdns0Loop_ok (l : List dns.RR)
    (h : ∀ rr ∈ l, rr.Header.Rrtype = dns.TypeOPT → ∃ o, rr = dns.RR.OPT o) :
    ∃ r, dns.IsEdns0Loop l = .ok r := by
  induction l with
  | nil => exact ⟨none, rfl⟩
  | cons x rest ih =>
    by_cases hx : x.Header.Rrtype = dns.TypeOPT
    · obtain ⟨o, rfl⟩ := h x (List.mem_cons_self _ _) hx
      exact ⟨some (rest.length, o), by simp only [dns.IsEdns0Loop, if_pos hx]⟩
    · obtain ⟨r, hr⟩ := ih (fun rr hrr => h rr (List.mem_cons_of_mem _ hrr))
      exact ⟨r, by simp only [dns.IsEdns0Loop, if_neg hx, hr]⟩

/-- A message whose records of type OPT are all `*OPT`: `Msg.IsEdns0` does not panic. -/
theorem IsEdns0_ok (m : dns.Msg)
    (h : ∀ rr ∈ m.Extra, rr.Header.Rrtype = dns.TypeOPT → ∃ o, rr = dns.RR.OPT o) :
    ∃ r, dns.IsEdns0 m = .ok r :=
  IsEdns0Loop_ok m.Extra.reverse (fun rr hrr => h rr (List.mem_reverse.mp hrr))

/-- C22: on a message on which `Msg.IsEdns0` does not panic (its last record of
type OPT is an `*OPT`, as in every message the dns package unpacks), `setECS` with
the option `e` returns a message on which `getMsgECS` returns `e` and on which
`setECS` with `e` changes nothing: the second application returns the message
of the first, with the same records and the same options in the same order. -/
theorem C22_setECS_round_trip (m : dns.Msg) (e : dns.EDNS0_SUBNET)
    (h : ∃ r, dns.IsEdns0 m = .ok r) :
    ∃ m1, setECS m e = .ok m1 ∧ getMsgECS m1 = .ok (some e) ∧ setECS m1 e = .ok m1 := by
  obtain ⟨r, hr⟩ := h
  cases r with
  | none =>
    have hno := IsEdns0_none_inv m hr
    refine ⟨{ m with
      Extra := m.Extra ++
        [dns.RR.OPT { Hdr := { Name := ".", Rrtype := dns.TypeOPT, Class := dns.MinMsgSize,
                               Ttl := 0, Rdlength := 0 },
                      Option := [dns.EDNS0.SUBNET e] }] }, ?_, ?_⟩
    · unfold setECS
      rw [hr]
      rfl
    · exact setECS_fixed _ e m.Extra [] _ [] [] rfl rfl (by simp) rfl (by simp)
  | some io =>
    obtain ⟨i, opt⟩ := io
    obtain ⟨before, after, hex, hi, hopt, hafter⟩ := IsEdns0_some_inv m i opt hr
    obtain ⟨pre, post, hs, hpre⟩ := setECSLoop_shape e opt.Option
    refine ⟨{ m with
      Extra := before ++
        dns.RR.OPT { opt with Option := pre ++ dns.EDNS0.SUBNET e :: post } :: after }, ?_, ?_⟩
    · unfold setECS
      rw [hr]
      simp only
      subst hi
      cases hl : setECSLoop e opt.Option with
      | some os =>
        rw [hl] at hs
        simp only at hs ⊢
        rw [hs, hex, set_middle]
      | none =>
        rw [hl] at hs
        simp only at hs ⊢
        rw [hs, hex, set_middle]
    · exact setECS_fixed _ e before after _ pre post rfl hopt hafter rfl hpre

theorem C22_witness :
    (∃ r, dns.IsEdns0 exampleQueryECS = .ok r) ∧
      ∃ m1, setECS exampleQueryECS exampleECS = .ok m1 ∧ getMsgECS m1 = .ok (some exampleECS) ∧
        setECS m1 exampleECS = .ok m1 :=
  ⟨⟨_, rfl⟩, C22_setECS_round_trip exampleQueryECS exampleECS ⟨_, rfl⟩⟩
